import Mathlib

/-! # ab-forge: incremental rebuild engine

Shallow embedding of `src/utils/dependencyTracker.js`, `src/utils/cache.js`,
`src/utils/fileSystem.js`, `src/processors/fileProcessor.js`,
`src/plugins/base/BasePlugin.js` and `src/plugins/js/index.js`.

* JavaScript `Map<string, V>` is an insertion-ordered association list (`JsMap`),
  `Set<string>` an insertion-ordered list (`JsSet`).
* The Node.js libraries the code calls (`node:path`, `node:fs/promises`) are
  records of functions (`NodePath`, `NodeFs`); a concrete POSIX instance is
  given for evaluation on concrete inputs.
* `crypto.createHash('md5')` is the MD5 function of RFC 1321.
* `String.prototype.replace` with a global regular expression is given for the
  two patterns the plugins build, on names without regular-expression syntax.
* An `async` function runs from one `await` to the next without interruption;
  the `processFile` calls that `Promise.all` waits for in `processAllFiles`
  share the processor and the file system, and are resumed in the order of a
  schedule. A call that is awaited alone (`processFile`, `processSrcFileChange`)
  is given as a function of the state it starts in.
-/

set_option autoImplicit false

/-! ## JavaScript collections -/

/-- JavaScript `Map` with string keys, in insertion order. -/
abbrev JsMap (β : Type) := List (String × β)

namespace JsMap

variable {β : Type}

/-- `map.get(k)`; `none` is `undefined`. -/
def get : JsMap β → String → Option β
  | [], _ => none
  | (k', v) :: m, k => if k' = k then some v else get m k

/-- `map.has(k)`. -/
def has (m : JsMap β) (k : String) : Bool := (m.get k).isSome

/-- `map.set(k, v)`: an existing key keeps its position, a new key goes last. -/
def set : JsMap β → String → β → JsMap β
  | [], k, v => [(k, v)]
  | (k', v') :: m, k, v => if k' = k then (k', v) :: m else (k', v') :: set m k v

/-- `map.delete(k)`. -/
def delete : JsMap β → String → JsMap β
  | [], _ => []
  | (k', v') :: m, k => if k' = k then delete m k else (k', v') :: delete m k

/-- The keys in iteration order. -/
def keys (m : JsMap β) : List String := m.map Prod.fst

end JsMap

/-- JavaScript `Set<string>`, in insertion order. -/
abbrev JsSet := List String

namespace JsSet

/-- `set.add(x)`. -/
def add (s : JsSet) (x : String) : JsSet := if x ∈ s then s else s ++ [x]

/-- `set.delete(x)`. -/
def delete (s : JsSet) (x : String) : JsSet := s.filter (fun y => y ≠ x)

/-- `new Set(iterable)`. -/
def ofList (l : List String) : JsSet := l.foldl add []

/-- `set.size`. -/
def size (s : JsSet) : Nat := s.length

end JsSet

/-! ## JavaScript strings -/

/-- `haystack.startsWith(needle)`. -/
def jsStartsWith (haystack needle : String) : Bool := needle.data.isPrefixOf haystack.data

/-- `haystack.endsWith(needle)`. -/
def jsEndsWith (haystack needle : String) : Bool :=
  needle.data.reverse.isPrefixOf haystack.data.reverse

/-- Whether `needle` occurs in the character list. -/
def includesChars (needle : List Char) : List Char → Bool
  | [] => needle.isEmpty
  | c :: cs => needle.isPrefixOf (c :: cs) || includesChars needle cs

/-- `haystack.includes(needle)`. -/
def jsIncludes (haystack needle : String) : Bool := includesChars needle.data haystack.data

/-- `text.length`: the number of UTF-16 code units. -/
def jsLength (text : String) : Nat :=
  text.data.foldl (fun n c => n + if c.toNat < 65536 then 1 else 2) 0

/-- `text.replace('.', '')`: the text without its first full stop. -/
def removeFirstDot (text : String) : String := String.mk (text.data.erase '.')

/-- The members of the set stored under `k`, empty when the key is absent. -/
def JsMap.members (m : JsMap JsSet) (k : String) : JsSet := (m.get k).getD []

/-! ## `node:path` -/

/-- The functions of `node:path` the code calls; `basenameExt p ext` is
`path.basename(p, ext)`. -/
structure NodePath where
  resolve : String → String
  join : List String → String
  basename : String → String
  basenameExt : String → String → String
  extname : String → String
  dirname : String → String

/-- `path.resolve` returns a normalised absolute path, which it maps to
itself. -/
def NodePath.Lawful (P : NodePath) : Prop := ∀ p, P.resolve (P.resolve p) = P.resolve p

/-! ## `src/utils/dependencyTracker.js` -/

/-- What `fs.stat` returns, as far as the code reads it. -/
structure Stats where
  mtime : Nat
  isDirectory : Bool
  isFile : Bool
deriving DecidableEq, Repr

/-- A value of `dependencyCache`: an analysed dependency set (key
`jsFilePath:srcDir`) or the stats of a dependency (key `dep:depPath`). -/
inductive DepCacheValue
  | deps (d : JsSet)
  | stats (s : Stats)
deriving DecidableEq, Repr

/-- The three maps of `DependencyTracker`. -/
structure DependencyTracker where
  dependencies : JsMap JsSet
  reverseDependencies : JsMap JsSet
  dependencyCache : JsMap DepCacheValue
deriving DecidableEq, Repr

namespace DependencyTracker

/-- The `constructor`. -/
def new : DependencyTracker := ⟨[], [], []⟩

/-- One turn of the loop of `removeDependencies` (lines 99-110). -/
def removeReverse (P : NodePath) (resolvedJsPath : String) (rev : JsMap JsSet)
    (depPath : String) : JsMap JsSet :=
  let resolvedDepPath := P.resolve depPath
  match rev.get resolvedDepPath with
  | some s =>
    let s1 := JsSet.delete s resolvedJsPath
    if s1.size = 0 then rev.delete resolvedDepPath else rev.set resolvedDepPath s1
  | none => rev

/-- `removeDependencies(jsFilePath)`. -/
def removeDependencies (P : NodePath) (t : DependencyTracker) (jsFilePath : String) :
    DependencyTracker :=
  let resolvedJsPath := P.resolve jsFilePath
  let rev :=
    match t.dependencies.get resolvedJsPath with
    | some deps => deps.foldl (removeReverse P resolvedJsPath) t.reverseDependencies
    | none => t.reverseDependencies
  { t with reverseDependencies := rev, dependencies := t.dependencies.delete resolvedJsPath }

/-- One turn of the loop of `registerDependencies` (lines 79-87). -/
def addReverse (P : NodePath) (resolvedJsPath : String) (rev : JsMap JsSet)
    (depPath : String) : JsMap JsSet :=
  let resolvedDepPath := P.resolve depPath
  let rev1 := if rev.has resolvedDepPath then rev else rev.set resolvedDepPath []
  rev1.set resolvedDepPath (JsSet.add (rev1.members resolvedDepPath) resolvedJsPath)

/-- `registerDependencies(jsFilePath, dependencies)`. -/
def registerDependencies (P : NodePath) (t : DependencyTracker) (jsFilePath : String)
    (dependencies : List String) : DependencyTracker :=
  let resolvedJsPath := P.resolve jsFilePath
  let t1 := removeDependencies P t resolvedJsPath
  let fwd := t1.dependencies.set resolvedJsPath (JsSet.ofList dependencies)
  let rev := dependencies.foldl (addReverse P resolvedJsPath) t1.reverseDependencies
  { t1 with dependencies := fwd, reverseDependencies := rev }

/-- `getAffectedJsFiles(modifiedFilePath)`. -/
def getAffectedJsFiles (P : NodePath) (t : DependencyTracker) (modifiedFilePath : String) :
    JsSet :=
  let resolvedModifiedPath := P.resolve modifiedFilePath
  match t.reverseDependencies.get resolvedModifiedPath with
  | some s => s
  | none => []

/-- `invalidateDependencyCache(filePath)`. -/
def invalidateDependencyCache (P : NodePath) (t : DependencyTracker) (filePath : String) :
    DependencyTracker :=
  let resolvedPath := P.resolve filePath
  let cache := t.dependencyCache.filter (fun e => !jsIncludes e.1 resolvedPath)
  removeDependencies P { t with dependencyCache := cache } resolvedPath

/-- `clearCache()`. -/
def clearCache (_t : DependencyTracker) : DependencyTracker := ⟨[], [], []⟩

/-- The forward and the reverse map hold the same edges, a fragment being named
by its resolved path in the reverse map. -/
def Consistent (P : NodePath) (t : DependencyTracker) : Prop :=
  ∀ E G : String, E ∈ t.reverseDependencies.members G ↔
    ∃ F ∈ t.dependencies.members E, P.resolve F = G

/-- A call of one of the four mutators of the edge maps. -/
inductive Call
  | register (jsFilePath : String) (dependencies : List String)
  | remove (jsFilePath : String)
  | invalidate (filePath : String)
  | clear
deriving DecidableEq, Repr

/-- The tracker after one call. -/
def step (P : NodePath) (t : DependencyTracker) : Call → DependencyTracker
  | .register js deps => registerDependencies P t js deps
  | .remove js => removeDependencies P t js
  | .invalidate p => invalidateDependencyCache P t p
  | .clear => clearCache t

/-- The tracker after a sequence of calls on a new tracker. -/
def run (P : NodePath) (calls : List Call) : DependencyTracker :=
  calls.foldl (step P) new

end DependencyTracker

/-! ## The regular expression of `analyzeDependencies` -/

/-- The regular expression `\{\{([^/]+)\/([^}]+)\}\}` matched at the head of the
text: the two groups and the text after the match. Both groups are greedy and
the character after each is excluded from it, so there is one way to match. -/
def matchPlaceholder : List Char → Option (List Char × List Char × List Char)
  | '{' :: '{' :: rest =>
    let type := rest.takeWhile (fun c => c != '/')
    match rest.dropWhile (fun c => c != '/') with
    | _ :: rest2 =>
      let fileName := rest2.takeWhile (fun c => c != '}')
      match rest2.dropWhile (fun c => c != '}') with
      | _ :: '}' :: rest3 =>
        if type.isEmpty || fileName.isEmpty then none else some (type, fileName, rest3)
      | _ => none
    | [] => none
  | _ => none

/-- The loop `placeholderRegex.exec(content)` with the `g` flag: the matches
from left to right, each search starting where the previous match ended. -/
def execAll : Nat → List Char → List (String × String)
  | 0, _ => []
  | fuel + 1, cs =>
    match matchPlaceholder cs with
    | some (type, fileName, rest) => (String.mk type, String.mk fileName) :: execAll fuel rest
    | none =>
      match cs with
      | [] => []
      | _ :: tl => execAll fuel tl

/-- The `(type, fileName)` pairs of the placeholders of a text. -/
def placeholders (content : String) : List (String × String) :=
  execAll (content.data.length + 1) content.data

/-! ## `node:fs/promises` and `src/errors/CustomError.js` -/

/-- The functions of `node:fs/promises` the code calls, over a file system state
`σ`; `none` and `false` stand for a rejected promise. -/
structure NodeFs (σ : Type) where
  stat : σ → String → Option Stats
  readFile : σ → String → Option String
  readdir : σ → String → Option (List String)
  access : σ → String → Bool
  mkdir : σ → String → σ × Bool
  writeFile : σ → String → String → σ × Bool

/-- The errors the code throws. -/
inductive JsError
  | fileSystemError (message filePath operation : String)
  | pluginError (message pluginName filePath : String)
  | buildError (message filePath : String)
  | typeError (message : String)
deriving DecidableEq, Repr

deriving instance DecidableEq for Except

/-- The `message` of an error. -/
def JsError.message : JsError → String
  | .fileSystemError m _ _ => m
  | .pluginError m _ _ => m
  | .buildError m _ => m
  | .typeError m => m

/-! ## `crypto.createHash('md5')` -/

namespace Md5

/-- The per-round shift amounts. -/
def shifts : List Nat :=
  [7, 12, 17, 22, 7, 12, 17, 22, 7, 12, 17, 22, 7, 12, 17, 22,
   5, 9, 14, 20, 5, 9, 14, 20, 5, 9, 14, 20, 5, 9, 14, 20,
   4, 11, 16, 23, 4, 11, 16, 23, 4, 11, 16, 23, 4, 11, 16, 23,
   6, 10, 15, 21, 6, 10, 15, 21, 6, 10, 15, 21, 6, 10, 15, 21]

/-- The constants `floor(2^32 * |sin(i + 1)|)`. -/
def sines : List Nat :=
  [3614090360, 3905402710, 606105819, 3250441966, 4118548399, 1200080426,
   2821735955, 4249261313, 1770035416, 2336552879, 4294925233, 2304563134,
   1804603682, 4254626195, 2792965006, 1236535329, 4129170786, 3225465664,
   643717713, 3921069994, 3593408605, 38016083, 3634488961, 3889429448,
   568446438, 3275163606, 4107603335, 1163531501, 2850285829, 4243563512,
   1735328473, 2368359562, 4294588738, 2272392833, 1839030562, 4259657740,
   2763975236, 1272893353, 4139469664, 3200236656, 681279174, 3936430074,
   3572445317, 76029189, 3654602809, 3873151461, 530742520, 3299628645,
   4096336452, 1126891415, 2878612391, 4237533241, 1700485571, 2399980690,
   4293915773, 2240044497, 1873313359, 4264355552, 2734768916, 1309151649,
   4149444226, 3174756917, 718787259, 3951481745]

/-- Two to the power 32. -/
def w32 : Nat := 4294967296

/-- Left rotation of a 32-bit word. -/
def rotl (x c : Nat) : Nat := ((x <<< c) ||| (x >>> (32 - c))) % w32

/-- Bitwise complement of a 32-bit word. -/
def not32 (x : Nat) : Nat := x ^^^ 4294967295

/-- The four working registers. -/
structure Regs where
  a : Nat
  b : Nat
  c : Nat
  d : Nat
deriving DecidableEq, Repr

/-- Operation `i` of the 64 operations on one block of sixteen words. -/
def step (m : List Nat) (r : Regs) (i : Nat) : Regs :=
  let fg : Nat × Nat :=
    if i < 16 then ((r.b &&& r.c) ||| (not32 r.b &&& r.d), i)
    else if i < 32 then ((r.d &&& r.b) ||| (not32 r.d &&& r.c), (5 * i + 1) % 16)
    else if i < 48 then (r.b ^^^ r.c ^^^ r.d, (3 * i + 5) % 16)
    else (r.c ^^^ (r.b ||| not32 r.d), (7 * i) % 16)
  let f := (fg.1 + r.a + sines.getD i 0 + m.getD fg.2 0) % w32
  { a := r.d, d := r.c, c := r.b, b := (r.b + rotl f (shifts.getD i 0)) % w32 }

/-- A little-endian 32-bit word from the first four bytes. -/
def word (bs : List Nat) : Nat :=
  bs.getD 0 0 + 256 * bs.getD 1 0 + 65536 * bs.getD 2 0 + 16777216 * bs.getD 3 0

/-- The first `n` words of a byte list. -/
def words : Nat → List Nat → List Nat
  | 0, _ => []
  | n + 1, bs => word bs :: words n (bs.drop 4)

/-- The registers after one 64-byte block. -/
def block (r : Regs) (bs : List Nat) : Regs :=
  let m := words 16 bs
  let r2 := (List.range 64).foldl (step m) r
  { a := (r.a + r2.a) % w32, b := (r.b + r2.b) % w32,
    c := (r.c + r2.c) % w32, d := (r.d + r2.d) % w32 }

/-- The registers after `n` blocks. -/
def blocks : Nat → Regs → List Nat → Regs
  | 0, r, _ => r
  | n + 1, r, bs => blocks n (block r bs) (bs.drop 64)

/-- The `n` low bytes of a number, least significant first. -/
def leBytes : Nat → Nat → List Nat
  | 0, _ => []
  | n + 1, x => x % 256 :: leBytes n (x / 256)

/-- The message followed by the padding and the bit length. -/
def pad (bs : List Nat) : List Nat :=
  let l := bs.length
  bs ++ [128] ++ List.replicate ((119 - l % 64) % 64) 0
    ++ leBytes 8 ((8 * l) % 18446744073709551616)

/-- The UTF-8 bytes of a character. -/
def utf8 (c : Char) : List Nat :=
  let n := c.toNat
  if n < 128 then [n]
  else if n < 2048 then [192 + n / 64, 128 + n % 64]
  else if n < 65536 then [224 + n / 4096, 128 + (n / 64) % 64, 128 + n % 64]
  else [240 + n / 262144, 128 + (n / 4096) % 64, 128 + (n / 64) % 64, 128 + n % 64]

/-- A hexadecimal digit. -/
def hexDigit (n : Nat) : Char := "0123456789abcdef".data.getD n '0'

/-- The sixteen bytes of the digest. -/
def digest (bs : List Nat) : List Nat :=
  let p := pad bs
  let r := blocks (p.length / 64) ⟨1732584193, 4023233417, 2562383102, 271733878⟩ p
  leBytes 4 r.a ++ leBytes 4 r.b ++ leBytes 4 r.c ++ leBytes 4 r.d

/-- The characters of `createHash('md5').update(s).digest('hex')`. -/
def hexChars (s : String) : List Char :=
  (digest (s.data.flatMap utf8)).flatMap (fun n => [hexDigit (n / 16), hexDigit (n % 16)])

end Md5

/-- `crypto.createHash('md5').update(content).digest('hex')`. -/
def md5 (content : String) : String := String.mk (Md5.hexChars content)

/-! ## `src/utils/fileSystem.js` -/

namespace FileSystemUtils

variable {σ : Type}

/-- `readFile(filePath)`. -/
def readFile (F : NodeFs σ) (s : σ) (filePath : String) : Except JsError String :=
  match F.readFile s filePath with
  | some content => .ok content
  | none => .error (.fileSystemError ("Cannot read file: " ++ filePath) filePath "read")

/-- `getStats(filePath)`. -/
def getStats (F : NodeFs σ) (s : σ) (filePath : String) : Except JsError Stats :=
  match F.stat s filePath with
  | some stats => .ok stats
  | none => .error (.fileSystemError ("Cannot get file stats: " ++ filePath) filePath "stat")

/-- `readDirectory(dirPath)`. -/
def readDirectory (F : NodeFs σ) (s : σ) (dirPath : String) : Except JsError (List String) :=
  match F.readdir s dirPath with
  | some entries => .ok entries
  | none => .error (.fileSystemError ("Cannot read directory: " ++ dirPath) dirPath "read")

/-- `fileExists(filePath)`. -/
def fileExists (F : NodeFs σ) (s : σ) (filePath : String) : Bool := F.access s filePath

/-- `ensureDirectoryExists(dirPath, createIfNotExists)`. -/
def ensureDirectoryExists (F : NodeFs σ) (s : σ) (dirPath : String)
    (createIfNotExists : Bool) : σ × Except JsError Bool :=
  match F.stat s dirPath with
  | some stats => (s, .ok stats.isDirectory)
  | none =>
    if createIfNotExists then
      match F.mkdir s dirPath with
      | (s1, true) => (s1, .ok true)
      | (s1, false) =>
        (s1, .error (.fileSystemError ("Cannot create directory: " ++ dirPath) dirPath "create"))
    else
      (s, .error (.fileSystemError ("Directory access error: " ++ dirPath) dirPath "access"))

/-- `writeFile(filePath, content)`. -/
def writeFile (P : NodePath) (F : NodeFs σ) (s : σ) (filePath content : String) :
    σ × Except JsError Unit :=
  let failure := JsError.fileSystemError ("Cannot write file: " ++ filePath) filePath "write"
  match ensureDirectoryExists F s (P.dirname filePath) true with
  | (s1, .error _) => (s1, .error failure)
  | (s1, .ok _) =>
    match F.writeFile s1 filePath content with
    | (s2, true) => (s2, .ok ())
    | (s2, false) => (s2, .error failure)

/-- The loop over the entries of a directory in `getAllFilesFromDirectory`
(lines 124-143); `recurse` is the call on a sub-directory and `none` means
that it did not return. -/
def scanEntries (P : NodePath) (F : NodeFs σ) (s : σ)
    (recurse : String → Option (Except JsError (List String)))
    (dirPath : String) (extensions : List String) (includeHidden : Bool) :
    List String → List String → Option (Except JsError (List String))
  | [], files => some (.ok files)
  | entry :: rest, files =>
    let failure := JsError.fileSystemError ("Error scanning directory: " ++ dirPath) dirPath "scan"
    if !includeHidden && jsStartsWith entry "." then
      scanEntries P F s recurse dirPath extensions includeHidden rest files
    else
      let fullPath := P.join [dirPath, entry]
      match getStats F s fullPath with
      | .error _ => some (.error failure)
      | .ok entryStats =>
        if entryStats.isDirectory then
          match recurse fullPath with
          | none => none
          | some (.error _) => some (.error failure)
          | some (.ok subFiles) =>
            scanEntries P F s recurse dirPath extensions includeHidden rest (files ++ subFiles)
        else if entryStats.isFile then
          if extensions.length = 0
              || extensions.any (fun ext => jsEndsWith entry ext) then
            scanEntries P F s recurse dirPath extensions includeHidden rest (files ++ [fullPath])
          else
            scanEntries P F s recurse dirPath extensions includeHidden rest files
        else
          scanEntries P F s recurse dirPath extensions includeHidden rest files

/-- `getAllFilesFromDirectory(dirPath, extensions, includeHidden)`, the depth of
the recursion bounded by the first argument; `none` when the bound is reached. -/
def getAllFilesFromDirectory (P : NodePath) (F : NodeFs σ) (s : σ) :
    Nat → String → List String → Bool → Option (Except JsError (List String))
  | 0, _, _, _ => none
  | depth + 1, dirPath, extensions, includeHidden =>
    let failure := JsError.fileSystemError ("Error scanning directory: " ++ dirPath) dirPath "scan"
    if !fileExists F s dirPath then some (.ok [])
    else
      match getStats F s dirPath with
      | .error _ => some (.error failure)
      | .ok stats =>
        if !stats.isDirectory then some (.ok [])
        else
          match readDirectory F s dirPath with
          | .error _ => some (.error failure)
          | .ok entries =>
            scanEntries P F s
              (fun sub => getAllFilesFromDirectory P F s depth sub extensions includeHidden)
              dirPath extensions includeHidden entries []

/-- `getFileHash(filePath)`. -/
def getFileHash (F : NodeFs σ) (s : σ) (filePath : String) : Except JsError String :=
  match readFile F s filePath with
  | .ok content => .ok (md5 content)
  | .error e => .error e

end FileSystemUtils

/-! ## `src/utils/dependencyTracker.js`: analysis and staleness -/

namespace DependencyTracker

variable {σ : Type}

/-- The body of the `while` loop of `analyzeDependencies` (lines 36-52) for one
match. -/
def addIfExists (P : NodePath) (F : NodeFs σ) (s : σ) (srcDir : String)
    (dependencies : JsSet) (m : String × String) : JsSet :=
  let dependencyPath := P.join [srcDir, m.1, m.2 ++ "." ++ m.1]
  match FileSystemUtils.getStats F s dependencyPath with
  | .ok _ => JsSet.add dependencies dependencyPath
  | .error _ => dependencies

/-- `analyzeDependencies(jsFilePath, srcDir)`: the value returned and the
tracker afterwards. A hit in `dependencyCache` returns the cached value
whatever it is. -/
def analyzeDependencies (P : NodePath) (F : NodeFs σ) (s : σ) (t : DependencyTracker)
    (jsFilePath srcDir : String) : DepCacheValue × DependencyTracker :=
  let cacheKey := jsFilePath ++ ":" ++ srcDir
  match t.dependencyCache.get cacheKey with
  | some v => (v, t)
  | none =>
    match FileSystemUtils.readFile F s jsFilePath with
    | .error _ => (.deps [], t)
    | .ok content =>
      let dependencies := (placeholders content).foldl (addIfExists P F s srcDir) []
      (.deps dependencies,
        { t with dependencyCache := t.dependencyCache.set cacheKey (.deps dependencies) })

/-- The `for` loop of `shouldRegenerateJsFile` (lines 153-174). -/
def checkDependencies (F : NodeFs σ) (s : σ) :
    DependencyTracker → List String → Bool × DependencyTracker
  | t, [] => (false, t)
  | t, depPath :: rest =>
    match FileSystemUtils.getStats F s depPath with
    | .error _ => (true, t)
    | .ok stats =>
      match t.dependencyCache.get ("dep:" ++ depPath) with
      | some (.stats cachedStats) =>
        if stats.mtime ≠ cachedStats.mtime then
          (true, { t with dependencyCache :=
            t.dependencyCache.set ("dep:" ++ depPath) (.stats stats) })
        else checkDependencies F s t rest
      | some (.deps _) => (true, t)
      | none =>
        (true, { t with dependencyCache :=
          t.dependencyCache.set ("dep:" ++ depPath) (.stats stats) })

/-- Lines 141-145 of `shouldRegenerateJsFile`: the entry is analysed and
registered when it has no forward set. A cached value that is not a set makes
`new Set(dependencies)` throw. -/
def registerIfAbsent (P : NodePath) (F : NodeFs σ) (s : σ) (t : DependencyTracker)
    (jsFilePath srcDir : String) : Except JsError DependencyTracker :=
  if t.dependencies.has (P.resolve jsFilePath) then .ok t
  else
    match analyzeDependencies P F s t jsFilePath srcDir with
    | (.deps dependencies, t1) => .ok (registerDependencies P t1 jsFilePath dependencies)
    | (.stats _, _) => .error (.typeError "object is not iterable")

/-- `shouldRegenerateJsFile(jsFilePath, srcDir)`: the value returned, or the
error thrown, and the tracker afterwards. -/
def shouldRegenerateJsFile (P : NodePath) (F : NodeFs σ) (s : σ) (t : DependencyTracker)
    (jsFilePath srcDir : String) : Except JsError Bool × DependencyTracker :=
  match registerIfAbsent P F s t jsFilePath srcDir with
  | .error e => (.error e, t)
  | .ok t2 =>
    match t2.dependencies.get (P.resolve jsFilePath) with
    | none => (.ok false, t2)
    | some dependencies =>
      if dependencies.size = 0 then (.ok false, t2)
      else
        (.ok (checkDependencies F s t2 dependencies).1,
          (checkDependencies F s t2 dependencies).2)

end DependencyTracker

/-! ## `src/utils/cache.js` -/

/-- The three maps of `CacheManager`; `ρ` is the type of the cached results. -/
structure CacheManager (ρ : Type) where
  cache : JsMap ρ
  fileTimestamps : JsMap Nat
  fileHashes : JsMap String

namespace CacheManager

variable {ρ σ : Type}

/-- The `constructor`. -/
def new : CacheManager ρ := ⟨[], [], []⟩

/-- `CacheManager.generateCacheKey(filePath, operation)`. -/
def generateCacheKey (P : NodePath) (filePath operation : String) : String :=
  P.resolve filePath ++ ":" ++ operation

/-- `invalidateCache(filePath, operation)`; `none` and the empty string are the
falsy values of `operation`. -/
def invalidateCache (P : NodePath) (c : CacheManager ρ) (filePath : String)
    (operation : Option String) : CacheManager ρ :=
  match operation with
  | some op =>
    if op ≠ "" then
      let cacheKey := generateCacheKey P filePath op
      { c with cache := c.cache.delete cacheKey,
               fileTimestamps := c.fileTimestamps.delete cacheKey }
    else
      let doomed := c.cache.keys.filter (fun key => jsStartsWith key (P.resolve filePath))
      { c with cache := doomed.foldl JsMap.delete c.cache,
               fileTimestamps := doomed.foldl JsMap.delete c.fileTimestamps }
  | none =>
    let doomed := c.cache.keys.filter (fun key => jsStartsWith key (P.resolve filePath))
    { c with cache := doomed.foldl JsMap.delete c.cache,
             fileTimestamps := doomed.foldl JsMap.delete c.fileTimestamps }

/-- `isCacheValid(filePath, operation)`. -/
def isCacheValid (P : NodePath) (F : NodeFs σ) (s : σ) (c : CacheManager ρ)
    (filePath operation : String) : Bool × CacheManager ρ :=
  let cacheKey := generateCacheKey P filePath operation
  if !c.cache.has cacheKey then (false, c)
  else
    match FileSystemUtils.getStats F s filePath with
    | .ok currentStats =>
      if some currentStats.mtime ≠ c.fileTimestamps.get cacheKey then
        (false, invalidateCache P c filePath (some operation))
      else (true, c)
    | .error _ => (false, invalidateCache P c filePath (some operation))

/-- `setCache(filePath, result, operation)`. -/
def setCache (P : NodePath) (F : NodeFs σ) (s : σ) (c : CacheManager ρ)
    (filePath : String) (result : ρ) (operation : String) : CacheManager ρ :=
  let cacheKey := generateCacheKey P filePath operation
  match FileSystemUtils.getStats F s filePath with
  | .ok stats =>
    { c with cache := c.cache.set cacheKey result,
             fileTimestamps := c.fileTimestamps.set cacheKey stats.mtime }
  | .error _ => c

/-- `getCache(filePath, operation)`. -/
def getCache (P : NodePath) (c : CacheManager ρ) (filePath operation : String) : Option ρ :=
  c.cache.get (generateCacheKey P filePath operation)

/-- `clearCache()`. -/
def clearCache (_c : CacheManager ρ) : CacheManager ρ := ⟨[], [], []⟩

/-- `setFileHash(filePath, hash)`. -/
def setFileHash (P : NodePath) (c : CacheManager ρ) (filePath hash : String) :
    CacheManager ρ :=
  { c with fileHashes := c.fileHashes.set (P.resolve filePath) hash }

/-- `getFileHash(filePath)`. -/
def getFileHash (P : NodePath) (c : CacheManager ρ) (filePath : String) : Option String :=
  c.fileHashes.get (P.resolve filePath)

/-- `hasFileContentChanged(filePath)`: the value returned and the cache
afterwards. `!cachedHash` holds for `undefined` and for the empty string. -/
def hasFileContentChanged (P : NodePath) (F : NodeFs σ) (s : σ) (c : CacheManager ρ)
    (filePath : String) : Bool × CacheManager ρ :=
  match FileSystemUtils.getFileHash F s filePath with
  | .error _ => (true, c)
  | .ok currentHash =>
    match getFileHash P c filePath with
    | none => (true, setFileHash P c filePath currentHash)
    | some cachedHash =>
      if cachedHash = "" then (true, setFileHash P c filePath currentHash)
      else if currentHash ≠ cachedHash then (true, setFileHash P c filePath currentHash)
      else (false, c)

end CacheManager

/-! ## `src/utils/cache.js`: statistics and call sequences -/

/-- What `getCacheStats()` returns, `memoryUsage` apart. -/
structure CacheStats where
  size : Nat
  timestampEntries : Nat
  hashEntries : Nat
deriving DecidableEq, Repr

namespace CacheManager

variable {ρ σ : Type}

/-- `getCacheStats()`. -/
def getCacheStats (c : CacheManager ρ) : CacheStats :=
  { size := c.cache.length, timestampEntries := c.fileTimestamps.length,
    hashEntries := c.fileHashes.length }

/-- A call of one of the methods of `CacheManager` that write to its maps, with
the file system state it runs in when it reads the disk. -/
inductive Call (ρ σ : Type)
  | setCache (s : σ) (filePath : String) (result : ρ) (operation : String)
  | isCacheValid (s : σ) (filePath operation : String)
  | invalidateCache (filePath : String) (operation : Option String)
  | clearCache
  | setFileHash (filePath hash : String)
  | hasFileContentChanged (s : σ) (filePath : String)

/-- The cache manager after one call. -/
def step (P : NodePath) (F : NodeFs σ) (c : CacheManager ρ) : Call ρ σ → CacheManager ρ
  | .setCache s filePath result operation => setCache P F s c filePath result operation
  | .isCacheValid s filePath operation => (isCacheValid P F s c filePath operation).2
  | .invalidateCache filePath operation => invalidateCache P c filePath operation
  | .clearCache => clearCache c
  | .setFileHash filePath hash => setFileHash P c filePath hash
  | .hasFileContentChanged s filePath => (hasFileContentChanged P F s c filePath).2

/-- The cache manager after a sequence of calls on a new one. -/
def run (P : NodePath) (F : NodeFs σ) (calls : List (Call ρ σ)) : CacheManager ρ :=
  calls.foldl (step P F) new

end CacheManager

/-! ## `String.prototype.replace` with a global regular expression -/

/-- The replacement text of one match (`GetSubstitution`) for a pattern without
capture groups: `$$` is a dollar sign, `$&` the matched text, a dollar sign and
a grave accent the text before the match, a dollar sign and an apostrophe the
text after it; every other character stands for itself. -/
def getSubstitution (matched before after : List Char) : List Char → List Char
  | [] => []
  | c :: rest =>
    if c = '$' then
      match rest with
      | [] => ['$']
      | d :: rest2 =>
        if d = '$' then '$' :: getSubstitution matched before after rest2
        else if d = '&' then matched ++ getSubstitution matched before after rest2
        else if d = Char.ofNat 96 then before ++ getSubstitution matched before after rest2
        else if d = Char.ofNat 39 then after ++ getSubstitution matched before after rest2
        else '$' :: d :: getSubstitution matched before after rest2
    else c :: getSubstitution matched before after rest

/-- `text.replace(regExp, replacement)` for a global regular expression given by
`matchAt`, the length of its match at the head of a text (never zero): the
matches are taken from left to right without overlap. The arguments are the
text already passed, the number of characters left of the current match, and
the text to come. -/
def replaceMatches (matchAt : List Char → Option Nat) (replacement : List Char) :
    List Char → Nat → List Char → List Char
  | _, _, [] => []
  | before, skip + 1, c :: cs => replaceMatches matchAt replacement (before ++ [c]) skip cs
  | before, 0, c :: cs =>
    match matchAt (c :: cs) with
    | some (len + 1) =>
      getSubstitution ((c :: cs).take (len + 1)) before ((c :: cs).drop (len + 1)) replacement
        ++ replaceMatches matchAt replacement (before ++ [c]) len cs
    | _ => c :: replaceMatches matchAt replacement (before ++ [c]) 0 cs

/-- `regExp.test(text)`: the regular expression matches somewhere. -/
def testMatches (matchAt : List Char → Option Nat) : List Char → Bool
  | [] => (matchAt []).isSome
  | c :: cs => (matchAt (c :: cs)).isSome || testMatches matchAt cs

/-- A character with a meaning of its own in the source of a regular
expression; a brace between two other characters of a token is literal. -/
def isRegExpSyntax (c : Char) : Bool :=
  c ∈ ['^', '$', '\\', '.', '*', '+', '?', '(', ')', '[', ']', '\x7b', '\x7d', '|']

/-- The token of a fragment, as the plugins build it. -/
def placeholderToken (fileExt fileName : String) : String :=
  "\x7b\x7b" ++ fileExt ++ "/" ++ fileName ++ "\x7d\x7d"

/-- The match of the literal text `needle` at the head of a text. -/
def matchLiteral (needle : List Char) (cs : List Char) : Option Nat :=
  if needle.isPrefixOf cs then some needle.length else none

/-! ## `src/plugins/base/BasePlugin.js` and `src/plugins/js/index.js` -/

/-- `replaceContent(data, fileName, fileExt, content)`:
`data.replace(new RegExp(token, 'g'), content)`. The result is `none` when the
name or the extension has a character of regular-expression syntax: only a
pattern of literal characters is given a meaning here. -/
def replaceContent (data fileName fileExt content : String) : Option String :=
  if (fileExt ++ fileName).data.any isRegExpSyntax then none
  else
    some (String.mk (replaceMatches (matchLiteral (placeholderToken fileExt fileName).data)
      content.data [] 0 data.data))

/-- The class `\s` of a regular expression. -/
def isJsWhiteSpace (c : Char) : Bool :=
  c.toNat ∈ [9, 10, 11, 12, 13, 32, 160, 5760, 8232, 8233, 8239, 8287, 12288, 65279]
    || (8192 ≤ c.toNat && c.toNat ≤ 8202)

/-- The match of `/\*\s*token\s*\*/` at the head of a text, for a token of
literal characters. -/
def matchComment (token : List Char) : List Char → Option Nat
  | '/' :: '*' :: rest =>
    let rest1 := rest.dropWhile isJsWhiteSpace
    if token.isPrefixOf rest1 then
      let rest2 := rest1.drop token.length
      match rest2.dropWhile isJsWhiteSpace with
      | '*' :: '/' :: _ =>
        some (2 + (rest.takeWhile isJsWhiteSpace).length + token.length
          + (rest2.takeWhile isJsWhiteSpace).length + 2)
      | _ => none
    else none
  | _ => none

/-- `CONFIG.PLUGINS.JS.addDebugComments`. -/
def configJsAddDebugComments : Bool := false

/-- `CONFIG.PLUGINS.JS.addSeparators`. -/
def configJsAddSeparators : Bool := false

/-- `filePath.split('/').pop()`. -/
def lastSegment (filePath : String) : String :=
  String.mk (filePath.data.reverse.takeWhile (fun c => c != '/')).reverse

/-- `getJsOutput(filePath)`; the text after the last colon of the error stands
for the message of Node.js. -/
def getJsOutput {σ : Type} (F : NodeFs σ) (s : σ) (filePath : String) : Except String String :=
  match F.readFile s filePath with
  | none => .error ("JS file reading failed for " ++ filePath ++ ": cannot read")
  | some jsContent =>
    let withComment :=
      if configJsAddDebugComments then "// File: " ++ lastSegment filePath ++ "\n" ++ jsContent
      else jsContent
    let withSeparators :=
      if configJsAddSeparators then
        "\n// ===== " ++ lastSegment filePath ++ " =====\n" ++ withComment ++ "\n"
      else withComment
    .ok withSeparators

/-- `handleJsFile(data, file, fileName, fileExt)`; `fallback` is the
`replaceContent` of `src/replace-content.js`, and `none` is as in
`replaceContent`. -/
def handleJsFile {σ : Type} (F : NodeFs σ)
    (fallback : String → String → String → String → Option String) (s : σ)
    (data file fileName fileExt : String) : Option (Except String String) :=
  match getJsOutput F s file with
  | .error message => some (.error ("JS plugin failed for " ++ file ++ ": " ++ message))
  | .ok response =>
    if (fileExt ++ fileName).data.any isRegExpSyntax then none
    else
      let newSyntaxPattern := matchComment (placeholderToken fileExt fileName).data
      if testMatches newSyntaxPattern data.data then
        some (.ok (String.mk (replaceMatches newSyntaxPattern response.data [] 0 data.data)))
      else (fallback data fileName fileExt response).map .ok

/-! ## `src/processors/fileProcessor.js` -/

/-- A plugin of the registry, called with the file system state and
`(data, file, fileName, fileExt)`; an error is the message of what it throws. -/
abbrev Plugin (σ : Type) := σ → String → String → String → String → Except String String

/-- The object `processFile` stores with `setCache`. -/
structure CacheRecord where
  processed : Bool
  timestamp : Nat
  size : Nat
deriving DecidableEq, Repr

/-- What `UglifyJS.minify` returns. -/
structure MinifyOutput where
  error : Option String
  code : String
deriving DecidableEq, Repr

/-- The libraries around the processor: `node:path`, `node:fs/promises`,
`Date.now()`, `babel.transform` (code and file name to the transformed code or
the message of `err`) and `UglifyJS.minify` (an error is the message of what it
throws). -/
structure Env (σ : Type) where
  path : NodePath
  fs : NodeFs σ
  now : σ → Nat
  babel : String → String → Except String String
  uglify : String → Except String MinifyOutput

/-- The fields of `FileProcessor`; `debug` is `options.debug` and `plugins ext`
is `this.plugins[ext]`. -/
structure FileProcessor (σ : Type) where
  plugins : String → Option (Plugin σ)
  debug : Bool
  cache : CacheManager CacheRecord
  dependencyTracker : DependencyTracker
  processedFiles : JsSet

/-- How a call of `processFile` ends: the early `return` of line 75, the early
`return` of line 89, the end of the `try` block, the `catch` block, or not at
all within the depth bound of the directory scan. -/
inductive Outcome
  | skipped
  | directory
  | generated (distFile finalCode : String)
  | failed (e : JsError)
  | unfinished
deriving DecidableEq, Repr

/-- A call of `processFile`: how it ended, the processor and the file system
afterwards, the plugin calls made (extension and file) and the calls of
`FileSystemUtils.writeFile` (path and content), both in order. -/
structure ProcessResult (σ : Type) where
  outcome : Outcome
  processor : FileProcessor σ
  world : σ
  pluginCalls : List (String × String)
  writes : List (String × String)

namespace FileProcessor

variable {σ : Type}

/-- The `constructor`. -/
def new (plugins : String → Option (Plugin σ)) (debug : Bool) : FileProcessor σ :=
  { plugins := plugins, debug := debug, cache := CacheManager.new,
    dependencyTracker := DependencyTracker.new, processedFiles := [] }

/-- The filter of `processWithPlugins` (lines 145-161). -/
def isSupportFile (E : Env σ) (fp : FileProcessor σ) (file : String) : Bool :=
  let fileName := E.path.basename file
  let fileExt := removeFirstDot (E.path.extname file)
  if jsStartsWith fileName "." then false
  else if fileExt = "" then false
  else (fp.plugins fileExt).isSome

/-- The `for` loop of `processWithPlugins` (lines 171-189): the content, or the
`PluginError` thrown, and the plugin calls made. -/
def runPlugins (E : Env σ) (fp : FileProcessor σ) (s : σ) :
    List String → String → List (String × String) →
      Except JsError String × List (String × String)
  | [], processedContent, calls => (.ok processedContent, calls)
  | file :: rest, processedContent, calls =>
    let fileName := E.path.basenameExt file (E.path.extname file)
    let fileExt := removeFirstDot (E.path.extname file)
    let thrown (message : String) : JsError :=
      .pluginError ("Plugin " ++ fileExt ++ " failed: " ++ message) fileExt file
    match fp.plugins fileExt with
    | none => (.error (thrown "this.plugins[fileExt] is not a function"), calls)
    | some plugin =>
      match plugin s processedContent file fileName fileExt with
      | .ok out => runPlugins E fp s rest out (calls ++ [(fileExt, file)])
      | .error message => (.error (thrown message), calls ++ [(fileExt, file)])

/-- `processWithPlugins(content, srcDir, sourceFile)`; `none` when the directory
scan does not return within `depth`. -/
def processWithPlugins (E : Env σ) (fp : FileProcessor σ) (depth : Nat) (s : σ)
    (content srcDir sourceFile : String) :
    Option (Except JsError String × List (String × String)) :=
  match FileSystemUtils.getAllFilesFromDirectory E.path E.fs s depth srcDir [] false with
  | none => none
  | some (.error e) =>
    some (.error (.buildError ("Plugin processing failed: " ++ e.message) sourceFile), [])
  | some (.ok allFiles) =>
    let supportFiles := allFiles.filter (isSupportFile E fp)
    if supportFiles.length = 0 then some (.ok content, [])
    else some (runPlugins E fp s supportFiles content [])

/-- `transformWithBabel(code, sourceFile)`: `babelResult.code` or the error. -/
def transformWithBabel (E : Env σ) (code sourceFile : String) : Except JsError String :=
  match E.babel code sourceFile with
  | .ok out => .ok out
  | .error message =>
    .error (.buildError ("Babel transformation failed: " ++ message) sourceFile)

/-- `minifyCode(code, sourceFile)`. -/
def minifyCode (E : Env σ) (code sourceFile : String) : Except JsError String :=
  match E.uglify code with
  | .ok result =>
    match result.error with
    | some message =>
      .error (.buildError ("UglifyJS minification failed: " ++ message) sourceFile)
    | none => .ok result.code
  | .error message => .error (.buildError ("Minification failed: " ++ message) sourceFile)

/-- Lines 103-122 of `processFile`: Babel, minification, the write, `setCache`
and `processedFiles.add`. -/
def emit (E : Env σ) (fp : FileProcessor σ) (s : σ) (sourceFile distFile processedData : String)
    (calls : List (String × String)) : ProcessResult σ :=
  match transformWithBabel E processedData sourceFile with
  | .error e => ⟨.failed e, fp, s, calls, []⟩
  | .ok babelCode =>
    let minified : Except JsError String :=
      if fp.debug then .ok babelCode else minifyCode E babelCode sourceFile
    match minified with
    | .error e => ⟨.failed e, fp, s, calls, []⟩
    | .ok finalCode =>
      match FileSystemUtils.writeFile E.path E.fs s distFile finalCode with
      | (s1, .error e) => ⟨.failed e, fp, s1, calls, [(distFile, finalCode)]⟩
      | (s1, .ok _) =>
        let record : CacheRecord :=
          { processed := true, timestamp := E.now s1, size := jsLength finalCode }
        let cache := CacheManager.setCache E.path E.fs s1 fp.cache sourceFile record "default"
        ⟨.generated distFile finalCode,
          { fp with cache := cache, processedFiles := JsSet.add fp.processedFiles sourceFile },
          s1, calls, [(distFile, finalCode)]⟩

/-- Lines 86-122 of `processFile`: what follows the decision to rebuild. -/
def build (E : Env σ) (fp : FileProcessor σ) (depth : Nat) (s : σ)
    (sourceFile distDir srcDir : String) : ProcessResult σ :=
  match FileSystemUtils.getStats E.fs s sourceFile with
  | .error e => ⟨.failed e, fp, s, [], []⟩
  | .ok stats =>
    if stats.isDirectory then ⟨.directory, fp, s, [], []⟩
    else
      let fileName := E.path.basenameExt sourceFile ".js"
      let distFile := E.path.join [distDir, fileName ++ ".js"]
      match FileSystemUtils.readFile E.fs s sourceFile with
      | .error e => ⟨.failed e, fp, s, [], []⟩
      | .ok sourceData =>
        match processWithPlugins E fp depth s sourceData srcDir sourceFile with
        | none => ⟨.unfinished, fp, s, [], []⟩
        | some (.error e, calls) => ⟨.failed e, fp, s, calls, []⟩
        | some (.ok processedData, calls) =>
          emit E fp s sourceFile distFile processedData calls

/-- `processFile(sourceFile, distDir, srcDir)`. -/
def processFile (E : Env σ) (fp : FileProcessor σ) (depth : Nat) (s : σ)
    (sourceFile distDir srcDir : String) : ProcessResult σ :=
  match CacheManager.hasFileContentChanged E.path E.fs s fp.cache sourceFile with
  | (fileChanged, cache) =>
    match DependencyTracker.shouldRegenerateJsFile E.path E.fs s fp.dependencyTracker
        sourceFile srcDir with
    | (.error e, tracker) =>
      ⟨.failed e, { fp with cache := cache, dependencyTracker := tracker }, s, [], []⟩
    | (.ok dependenciesChanged, tracker) =>
      let fp1 := { fp with cache := cache, dependencyTracker := tracker }
      if !fileChanged && !dependenciesChanged then ⟨.skipped, fp1, s, [], []⟩
      else build E fp1 depth s sourceFile distDir srcDir

/-- What `processSrcFileChange` did: the arguments of its `processFile` calls
in order, how each ended, and the processor and file system afterwards. -/
structure ChangeResult (σ : Type) where
  called : List String
  outcomes : List Outcome
  processor : FileProcessor σ
  world : σ

/-- The `for` loop of `processSrcFileChange` (lines 297-299); a call that does
not return ends it. -/
def processEach (E : Env σ) (depth : Nat) (distDir srcDir : String) :
    List String → ChangeResult σ → ChangeResult σ
  | [], acc => acc
  | jsFilePath :: rest, acc =>
    let r := processFile E acc.processor depth acc.world jsFilePath distDir srcDir
    let acc1 : ChangeResult σ :=
      ⟨acc.called ++ [jsFilePath], acc.outcomes ++ [r.outcome], r.processor, r.world⟩
    if r.outcome = .unfinished then acc1
    else processEach E depth distDir srcDir rest acc1

/-- `processSrcFileChange(changedFilePath, distDir, srcDir)`. -/
def processSrcFileChange (E : Env σ) (fp : FileProcessor σ) (depth : Nat) (s : σ)
    (changedFilePath distDir srcDir : String) : ChangeResult σ :=
  let affectedJsFiles :=
    DependencyTracker.getAffectedJsFiles E.path fp.dependencyTracker changedFilePath
  if affectedJsFiles.size = 0 then ⟨[], [], fp, s⟩
  else processEach E depth distDir srcDir affectedJsFiles ⟨[], [], fp, s⟩

/-- `clearCache()`. -/
def clearCache (fp : FileProcessor σ) : FileProcessor σ :=
  { fp with cache := CacheManager.clearCache fp.cache,
            dependencyTracker := DependencyTracker.clearCache fp.dependencyTracker,
            processedFiles := [] }

/-- `hasBeenProcessed(filePath)`. -/
def hasBeenProcessed (E : Env σ) (fp : FileProcessor σ) (filePath : String) : Bool :=
  decide (E.path.resolve filePath ∈ fp.processedFiles)

end FileProcessor

/-! ## Calls of `async` functions and their interleaving -/

/-- A call of an `async` function that has been started: it has returned
`result`, or it is suspended at an `await`, and `resume` runs it from the state
it finds to its next `await` or to its end. -/
inductive Pending (S : Type) (ρ : Type) where
  | done (result : ρ)
  | await (resume : S → S × Pending S ρ)

/-- An `async` function over the state `S`, inside a call that returns a `ρ`:
given what follows the value it returns, it runs from a state to the next
`await`. -/
def Async (S ρ α : Type) : Type := (α → S → S × Pending S ρ) → S → S × Pending S ρ

namespace Async

variable {S ρ α : Type}

instance : Monad (Async S ρ) where
  pure a := fun k => k a
  bind m f := fun k => m (fun a => f a k)

/-- The present state. -/
def get : Async S ρ S := fun k s => k s s

/-- A synchronous update of the state. -/
def modify (f : S → S) : Async S ρ Unit := fun k s => k () (f s)

/-- `await m`: the call `m` runs; when it has returned, the caller is suspended
and goes on with the value when it is resumed. -/
def await (m : Async S ρ α) : Async S ρ α := fun k => m (fun a s => (s, .await (k a)))

/-- The promise of a library call: the operation takes place on the state when
the promise is settled, which is after the caller was suspended. -/
def promise (op : S → S × α) : Async S ρ α := fun k s =>
  (s, .await (fun s1 => match op s1 with | (s2, a) => k a s2))

/-- The call is started: it runs to its first `await`. -/
def start (m : Async S ρ ρ) (s : S) : S × Pending S ρ := m (fun r s1 => (s1, .done r)) s

end Async

/-- `calls.map(start)`: the calls are started one after the other, each running
to its first `await`. -/
def startAll {S ρ : Type} : List (Async S ρ ρ) → S → S × List (Pending S ρ)
  | [], s => (s, [])
  | m :: rest, s =>
    match Async.start m s with
    | (s1, p) =>
      match startAll rest s1 with
      | (s2, ps) => (s2, p :: ps)

/-- The call of the given index, if it is suspended, runs to its next `await`. -/
def resumeAt {S ρ : Type} (tasks : List (Pending S ρ)) (i : Nat) (s : S) :
    S × List (Pending S ρ) :=
  match tasks.get? i with
  | some (.await resume) =>
    match resume s with
    | (s1, p) => (s1, tasks.set i p)
  | _ => (s, tasks)

/-- The calls are resumed in the order of the schedule, a list of indices. -/
def runSchedule {S ρ : Type} : List Nat → S → List (Pending S ρ) → S × List (Pending S ρ)
  | [], s, tasks => (s, tasks)
  | i :: rest, s, tasks =>
    match resumeAt tasks i s with
    | (s1, tasks1) => runSchedule rest s1 tasks1

/-- What each call returned; `none` for a call that is still suspended. -/
def results {S ρ : Type} : List (Pending S ρ) → List (Option ρ)
  | [] => []
  | .done r :: rest => some r :: results rest
  | .await _ :: rest => none :: results rest

/-- The schedule in which each of the calls in turn is resumed once, `rounds`
times over. -/
def inTurn (calls rounds : Nat) : List Nat := (List.replicate rounds (List.range calls)).flatten

/-- The schedule in which each call is resumed `steps` times before the next
one is. -/
def oneByOne (calls steps : Nat) : List Nat :=
  ((List.range calls).map (fun i => List.replicate steps i)).flatten

/-- The state the calls of `processFile` share: the processor and the file
system. -/
structure Shared (σ : Type) where
  processor : FileProcessor σ
  world : σ

namespace Shared

variable {σ : Type}

/-- An update of `this.cache`. -/
def withCache (f : CacheManager CacheRecord → CacheManager CacheRecord) (s : Shared σ) :
    Shared σ :=
  { s with processor := { s.processor with cache := f s.processor.cache } }

/-- An update of `this.dependencyTracker`. -/
def withTracker (f : DependencyTracker → DependencyTracker) (s : Shared σ) : Shared σ :=
  { s with processor := { s.processor with dependencyTracker := f s.processor.dependencyTracker } }

end Shared

/-! ## The `async` functions of the processor, with their `await`s -/

namespace Interleaved

variable {σ ρ : Type}

/-- A call of `node:fs/promises` that reads the file system. -/
def fsRead {β : Type} (op : σ → β) : Async (Shared σ) ρ β :=
  Async.promise (fun s => (s, op s.world))

/-- A call of `node:fs/promises` that changes the file system. -/
def fsWrite {β : Type} (op : σ → σ × β) : Async (Shared σ) ρ β :=
  Async.promise (fun s => match op s.world with | (w, b) => ({ s with world := w }, b))

/-- `readFile(filePath)`. -/
def readFile (E : Env σ) (filePath : String) : Async (Shared σ) ρ (Except JsError String) := do
  match ← Async.await (fsRead (fun w => E.fs.readFile w filePath)) with
  | some content => pure (.ok content)
  | none => pure (.error (.fileSystemError ("Cannot read file: " ++ filePath) filePath "read"))

/-- `getStats(filePath)`. -/
def getStats (E : Env σ) (filePath : String) : Async (Shared σ) ρ (Except JsError Stats) := do
  match ← Async.await (fsRead (fun w => E.fs.stat w filePath)) with
  | some stats => pure (.ok stats)
  | none =>
    pure (.error (.fileSystemError ("Cannot get file stats: " ++ filePath) filePath "stat"))

/-- `readDirectory(dirPath)`. -/
def readDirectory (E : Env σ) (dirPath : String) :
    Async (Shared σ) ρ (Except JsError (List String)) := do
  match ← Async.await (fsRead (fun w => E.fs.readdir w dirPath)) with
  | some entries => pure (.ok entries)
  | none => pure (.error (.fileSystemError ("Cannot read directory: " ++ dirPath) dirPath "read"))

/-- `fileExists(filePath)`. -/
def fileExists (E : Env σ) (filePath : String) : Async (Shared σ) ρ Bool :=
  Async.await (fsRead (fun w => E.fs.access w filePath))

/-- `ensureDirectoryExists(dirPath, createIfNotExists)`. -/
def ensureDirectoryExists (E : Env σ) (dirPath : String) (createIfNotExists : Bool) :
    Async (Shared σ) ρ (Except JsError Bool) := do
  match ← Async.await (fsRead (fun w => E.fs.stat w dirPath)) with
  | some stats => pure (.ok stats.isDirectory)
  | none =>
    if createIfNotExists then do
      match ← Async.await (fsWrite (fun w => E.fs.mkdir w dirPath)) with
      | true => pure (.ok true)
      | false =>
        pure (.error (.fileSystemError ("Cannot create directory: " ++ dirPath) dirPath "create"))
    else
      pure (.error (.fileSystemError ("Directory access error: " ++ dirPath) dirPath "access"))

/-- `writeFile(filePath, content)`. -/
def writeFile (E : Env σ) (filePath content : String) :
    Async (Shared σ) ρ (Except JsError Unit) := do
  let failure := JsError.fileSystemError ("Cannot write file: " ++ filePath) filePath "write"
  match ← Async.await (ensureDirectoryExists E (E.path.dirname filePath) true) with
  | .error _ => pure (.error failure)
  | .ok _ =>
    match ← Async.await (fsWrite (fun w => E.fs.writeFile w filePath content)) with
    | true => pure (.ok ())
    | false => pure (.error failure)

/-- The loop over the entries of a directory in `getAllFilesFromDirectory`
(lines 124-143); `recurse` is the call on a sub-directory and `none` means
that it did not return. -/
def scanEntries (E : Env σ)
    (recurse : String → Async (Shared σ) ρ (Option (Except JsError (List String))))
    (dirPath : String) (extensions : List String) (includeHidden : Bool) :
    List String → List String → Async (Shared σ) ρ (Option (Except JsError (List String)))
  | [], files => pure (some (.ok files))
  | entry :: rest, files =>
    let failure := JsError.fileSystemError ("Error scanning directory: " ++ dirPath) dirPath "scan"
    if !includeHidden && jsStartsWith entry "." then
      scanEntries E recurse dirPath extensions includeHidden rest files
    else do
      let fullPath := E.path.join [dirPath, entry]
      match ← Async.await (getStats E fullPath) with
      | .error _ => pure (some (.error failure))
      | .ok entryStats =>
        if entryStats.isDirectory then do
          match ← Async.await (recurse fullPath) with
          | none => pure none
          | some (.error _) => pure (some (.error failure))
          | some (.ok subFiles) =>
            scanEntries E recurse dirPath extensions includeHidden rest (files ++ subFiles)
        else if entryStats.isFile then
          if extensions.length = 0
              || extensions.any (fun ext => jsEndsWith entry ext) then
            scanEntries E recurse dirPath extensions includeHidden rest (files ++ [fullPath])
          else
            scanEntries E recurse dirPath extensions includeHidden rest files
        else
          scanEntries E recurse dirPath extensions includeHidden rest files

/-- `getAllFilesFromDirectory(dirPath, extensions, includeHidden)`, the depth of
the recursion bounded by the first argument; `none` when the bound is reached. -/
def getAllFilesFromDirectory (E : Env σ) :
    Nat → String → List String → Bool →
      Async (Shared σ) ρ (Option (Except JsError (List String)))
  | 0, _, _, _ => pure none
  | depth + 1, dirPath, extensions, includeHidden => do
    let failure := JsError.fileSystemError ("Error scanning directory: " ++ dirPath) dirPath "scan"
    if !(← Async.await (fileExists E dirPath)) then pure (some (.ok []))
    else
      match ← Async.await (getStats E dirPath) with
      | .error _ => pure (some (.error failure))
      | .ok stats =>
        if !stats.isDirectory then pure (some (.ok []))
        else
          match ← Async.await (readDirectory E dirPath) with
          | .error _ => pure (some (.error failure))
          | .ok entries =>
            scanEntries E
              (fun sub => getAllFilesFromDirectory E depth sub extensions includeHidden)
              dirPath extensions includeHidden entries []

/-- `getFileHash(filePath)`; its first `await` is that of
`import('node:crypto')`. -/
def getFileHash (E : Env σ) (filePath : String) :
    Async (Shared σ) ρ (Except JsError String) := do
  Async.await (pure ())
  match ← Async.await (readFile E filePath) with
  | .ok content => pure (.ok (md5 content))
  | .error e => pure (.error e)

/-- `hasFileContentChanged(filePath)` of `this.cache`. -/
def hasFileContentChanged (E : Env σ) (filePath : String) : Async (Shared σ) ρ Bool := do
  match ← Async.await (getFileHash E filePath) with
  | .error _ => pure true
  | .ok currentHash =>
    let s ← Async.get
    match CacheManager.getFileHash E.path s.processor.cache filePath with
    | none =>
      Async.modify
        (Shared.withCache (fun c => CacheManager.setFileHash E.path c filePath currentHash))
      pure true
    | some cachedHash =>
      if cachedHash = "" then do
        Async.modify
          (Shared.withCache (fun c => CacheManager.setFileHash E.path c filePath currentHash))
        pure true
      else if currentHash ≠ cachedHash then do
        Async.modify
          (Shared.withCache (fun c => CacheManager.setFileHash E.path c filePath currentHash))
        pure true
      else pure false

/-- `setCache(filePath, result, operation)` of `this.cache`. -/
def setCache (E : Env σ) (filePath : String) (result : CacheRecord) (operation : String) :
    Async (Shared σ) ρ Unit := do
  let cacheKey := CacheManager.generateCacheKey E.path filePath operation
  match ← Async.await (getStats E filePath) with
  | .ok stats =>
    Async.modify (Shared.withCache (fun c =>
      { c with cache := c.cache.set cacheKey result,
               fileTimestamps := c.fileTimestamps.set cacheKey stats.mtime }))
  | .error _ => pure ()

/-- The `while` loop of `analyzeDependencies` (lines 36-52), over the matches
of the regular expression. -/
def addIfExists (E : Env σ) (srcDir : String) :
    List (String × String) → JsSet → Async (Shared σ) ρ JsSet
  | [], dependencies => pure dependencies
  | m :: rest, dependencies => do
    let dependencyPath := E.path.join [srcDir, m.1, m.2 ++ "." ++ m.1]
    match ← Async.await (getStats E dependencyPath) with
    | .ok _ => addIfExists E srcDir rest (JsSet.add dependencies dependencyPath)
    | .error _ => addIfExists E srcDir rest dependencies

/-- `analyzeDependencies(jsFilePath, srcDir)` of `this.dependencyTracker`. -/
def analyzeDependencies (E : Env σ) (jsFilePath srcDir : String) :
    Async (Shared σ) ρ DepCacheValue := do
  let cacheKey := jsFilePath ++ ":" ++ srcDir
  let s ← Async.get
  match s.processor.dependencyTracker.dependencyCache.get cacheKey with
  | some v => pure v
  | none =>
    match ← Async.await (readFile E jsFilePath) with
    | .error _ => pure (.deps [])
    | .ok content =>
      let dependencies ← addIfExists E srcDir (placeholders content) []
      Async.modify (Shared.withTracker (fun t =>
        { t with dependencyCache := t.dependencyCache.set cacheKey (.deps dependencies) }))
      pure (.deps dependencies)

/-- The `for` loop of `shouldRegenerateJsFile` (lines 153-174): between the
`await` of `getStats` and the update of `dependencyCache` there is no other
`await`. -/
def checkDependencies (E : Env σ) : List String → Async (Shared σ) ρ Bool
  | [] => pure false
  | depPath :: rest => do
    match ← Async.await (getStats E depPath) with
    | .error _ => pure true
    | .ok stats =>
      let s ← Async.get
      match s.processor.dependencyTracker.dependencyCache.get ("dep:" ++ depPath) with
      | some (.stats cachedStats) =>
        if stats.mtime ≠ cachedStats.mtime then do
          Async.modify (Shared.withTracker (fun t =>
            { t with dependencyCache := t.dependencyCache.set ("dep:" ++ depPath) (.stats stats) }))
          pure true
        else checkDependencies E rest
      | some (.deps _) => pure true
      | none =>
        Async.modify (Shared.withTracker (fun t =>
          { t with dependencyCache := t.dependencyCache.set ("dep:" ++ depPath) (.stats stats) }))
        pure true

/-- Lines 141-145 of `shouldRegenerateJsFile`: the entry is analysed and
registered when it has no forward set. A cached value that is not a set makes
`new Set(dependencies)` throw. -/
def registerIfAbsent (E : Env σ) (jsFilePath srcDir : String) :
    Async (Shared σ) ρ (Except JsError Unit) := do
  let s ← Async.get
  if s.processor.dependencyTracker.dependencies.has (E.path.resolve jsFilePath) then
    pure (.ok ())
  else
    match ← Async.await (analyzeDependencies E jsFilePath srcDir) with
    | .deps dependencies =>
      Async.modify (Shared.withTracker (fun t =>
        DependencyTracker.registerDependencies E.path t jsFilePath dependencies))
      pure (.ok ())
    | .stats _ => pure (.error (.typeError "object is not iterable"))

/-- `shouldRegenerateJsFile(jsFilePath, srcDir)` of `this.dependencyTracker`:
the value returned, or the error thrown. -/
def shouldRegenerateJsFile (E : Env σ) (jsFilePath srcDir : String) :
    Async (Shared σ) ρ (Except JsError Bool) := do
  match ← registerIfAbsent E jsFilePath srcDir with
  | .error e => pure (.error e)
  | .ok _ =>
    let s ← Async.get
    match s.processor.dependencyTracker.dependencies.get (E.path.resolve jsFilePath) with
    | none => pure (.ok false)
    | some dependencies =>
      if dependencies.size = 0 then pure (.ok false)
      else do
        let changed ← checkDependencies E dependencies
        pure (.ok changed)

/-- The `for` loop of `processWithPlugins` (lines 171-189): the content, or the
`PluginError` thrown. A plugin reads the file system when its promise is
settled. -/
def runPlugins (E : Env σ) : List String → String → Async (Shared σ) ρ (Except JsError String)
  | [], processedContent => pure (.ok processedContent)
  | file :: rest, processedContent => do
    let fileName := E.path.basenameExt file (E.path.extname file)
    let fileExt := removeFirstDot (E.path.extname file)
    let thrown (message : String) : JsError :=
      .pluginError ("Plugin " ++ fileExt ++ " failed: " ++ message) fileExt file
    let s ← Async.get
    match s.processor.plugins fileExt with
    | none => pure (.error (thrown "this.plugins[fileExt] is not a function"))
    | some plugin =>
      match ← Async.await (fsRead (fun w => plugin w processedContent file fileName fileExt)) with
      | .ok out => runPlugins E rest out
      | .error message => pure (.error (thrown message))

/-- `processWithPlugins(content, srcDir, sourceFile)`; `none` when the directory
scan does not return within `depth`. -/
def processWithPlugins (E : Env σ) (depth : Nat) (content srcDir sourceFile : String) :
    Async (Shared σ) ρ (Option (Except JsError String)) := do
  match ← Async.await (getAllFilesFromDirectory E depth srcDir [] false) with
  | none => pure none
  | some (.error e) =>
    pure (some (.error (.buildError ("Plugin processing failed: " ++ e.message) sourceFile)))
  | some (.ok allFiles) =>
    let s ← Async.get
    let supportFiles := allFiles.filter (FileProcessor.isSupportFile E s.processor)
    if supportFiles.length = 0 then pure (some (.ok content))
    else do
      let processed ← runPlugins E supportFiles content
      pure (some processed)

/-- `transformWithBabel(code, sourceFile)`: the promise is settled by the
callback of `babel.transform`. -/
def transformWithBabel (E : Env σ) (code sourceFile : String) :
    Async (Shared σ) ρ (Except JsError String) :=
  Async.promise (fun s => (s, FileProcessor.transformWithBabel E code sourceFile))

/-- `minifyCode(code, sourceFile)`, which has no `await`. -/
def minifyCode (E : Env σ) (code sourceFile : String) :
    Async (Shared σ) ρ (Except JsError String) :=
  pure (FileProcessor.minifyCode E code sourceFile)

/-- `processFile(sourceFile, distDir, srcDir)`: how the call ends. -/
def processFile (E : Env σ) (depth : Nat) (sourceFile distDir srcDir : String) :
    Async (Shared σ) ρ Outcome := do
  let fileChanged ← Async.await (hasFileContentChanged E sourceFile)
  match ← Async.await (shouldRegenerateJsFile E sourceFile srcDir) with
  | .error e => pure (.failed e)
  | .ok dependenciesChanged =>
    if !fileChanged && !dependenciesChanged then pure .skipped
    else
      match ← Async.await (getStats E sourceFile) with
      | .error e => pure (.failed e)
      | .ok stats =>
        if stats.isDirectory then pure .directory
        else
          let fileName := E.path.basenameExt sourceFile ".js"
          let distFile := E.path.join [distDir, fileName ++ ".js"]
          match ← Async.await (readFile E sourceFile) with
          | .error e => pure (.failed e)
          | .ok sourceData =>
            match ← Async.await (processWithPlugins E depth sourceData srcDir sourceFile) with
            | none => pure .unfinished
            | some (.error e) => pure (.failed e)
            | some (.ok processedData) =>
              match ← Async.await (transformWithBabel E processedData sourceFile) with
              | .error e => pure (.failed e)
              | .ok babelCode =>
                let s ← Async.get
                let minified ←
                  if s.processor.debug then pure (.ok babelCode)
                  else Async.await (minifyCode E babelCode sourceFile)
                match minified with
                | .error e => pure (.failed e)
                | .ok finalCode =>
                  match ← Async.await (writeFile E distFile finalCode) with
                  | .error e => pure (.failed e)
                  | .ok _ =>
                    let s1 ← Async.get
                    let record : CacheRecord :=
                      { processed := true, timestamp := E.now s1.world,
                        size := jsLength finalCode }
                    Async.await (setCache E sourceFile record "default")
                    Async.modify (fun s2 => { s2 with processor :=
                      { s2.processor with
                        processedFiles := JsSet.add s2.processor.processedFiles sourceFile } })
                    pure (.generated distFile finalCode)

/-- What `processAllFiles` did: the error its own `catch` handled, if any, the
arguments of the `processFile` calls it started, how each ended (`none` for a
call that is still suspended when the schedule ends), and the processor and
file system afterwards. -/
structure BatchResult (σ : Type) where
  error : Option JsError
  called : List String
  outcomes : List (Option Outcome)
  processor : FileProcessor σ
  world : σ

/-- `processAllFiles(sourceDir, distDir, srcDir)`: `jsFiles.map` starts the
`processFile` calls in the order of the listing, each running to its first
`await`; `Promise.all` then waits for them, while they are resumed in the order
of the schedule. -/
def processAllFiles (E : Env σ) (fp : FileProcessor σ) (depth : Nat) (s : σ)
    (sourceDir distDir srcDir : String) (schedule : List Nat) : BatchResult σ :=
  match FileSystemUtils.readDirectory E.fs s sourceDir with
  | .error e => ⟨some e, [], [], fp, s⟩
  | .ok files =>
    let jsFiles := files.filter (fun file => jsEndsWith file ".js")
    if jsFiles.length = 0 then ⟨none, [], [], fp, s⟩
    else
      let paths := jsFiles.map (fun file => E.path.join [sourceDir, file])
      match startAll (paths.map (fun file => processFile E depth file distDir srcDir)) ⟨fp, s⟩ with
      | (s1, started) =>
        match runSchedule schedule s1 started with
        | (s2, ended) => ⟨none, paths, results ended, s2.processor, s2.world⟩

end Interleaved

/-! ## A POSIX instance of `node:path` -/

namespace Posix

/-- The segments of a path between its slashes. -/
def splitSlash : List Char → List (List Char)
  | [] => [[]]
  | c :: cs =>
    if c = '/' then [] :: splitSlash cs
    else
      match splitSlash cs with
      | [] => [[c]]
      | seg :: segs => (c :: seg) :: segs

/-- The segments joined with slashes. -/
def joinSlash : List (List Char) → List Char
  | [] => []
  | [seg] => seg
  | seg :: rest => seg ++ '/' :: joinSlash rest

/-- Normalisation of a segment list: empty and `.` segments are dropped, `..`
removes the segment before it (and is kept at the front of a relative path). -/
def normalizeSegments (allowAboveRoot : Bool) :
    List (List Char) → List (List Char) → List (List Char)
  | stack, [] => stack.reverse
  | stack, seg :: rest =>
    if seg = [] ∨ seg = ['.'] then normalizeSegments allowAboveRoot stack rest
    else if seg = ['.', '.'] then
      match stack with
      | top :: below =>
        if top = ['.', '.'] then normalizeSegments allowAboveRoot (seg :: stack) rest
        else normalizeSegments allowAboveRoot below rest
      | [] =>
        if allowAboveRoot then normalizeSegments allowAboveRoot [seg] rest
        else normalizeSegments allowAboveRoot [] rest
    else normalizeSegments allowAboveRoot (seg :: stack) rest

/-- `path.resolve(p)` in the working directory `cwd` (an absolute path). -/
def resolveChars (cwd p : List Char) : List Char :=
  let full := if p.head? = some '/' then p else cwd ++ '/' :: p
  '/' :: joinSlash (normalizeSegments false [] (splitSlash full))

/-- `path.normalize(p)`. -/
def normalizeChars (p : List Char) : List Char :=
  let isAbsolute := p.head? = some '/'
  let trailing := p.getLast? = some '/'
  let body := joinSlash (normalizeSegments (!decide isAbsolute) [] (splitSlash p))
  if body = [] then
    if isAbsolute then ['/'] else if trailing then ['.', '/'] else ['.']
  else
    (if isAbsolute then ['/'] else []) ++ body ++ (if trailing then ['/'] else [])

/-- `path.join(...parts)`. -/
def joinChars (parts : List (List Char)) : List Char :=
  match parts.filter (fun part => !part.isEmpty) with
  | [] => ['.']
  | kept => normalizeChars (joinSlash kept)

/-- A path without its trailing slashes. -/
def stripTrailingSlashes (p : List Char) : List Char :=
  (p.reverse.dropWhile (fun c => c = '/')).reverse

/-- `path.basename(p)`. -/
def basenameChars (p : List Char) : List Char :=
  ((stripTrailingSlashes p).reverse.takeWhile (fun c => c ≠ '/')).reverse

/-- `path.basename(p, ext)`. -/
def basenameExtChars (p ext : List Char) : List Char :=
  let base := basenameChars p
  if ext = [] then base
  else if p = ext then []
  else if ext.reverse.isPrefixOf base.reverse && decide (base ≠ ext) then
    base.take (base.length - ext.length)
  else base

/-- `path.extname(p)`. -/
def extnameChars (p : List Char) : List Char :=
  let base := basenameChars p
  if base = ['.', '.'] then []
  else
    match base.reverse.dropWhile (fun c => c ≠ '.') with
    | [] => []
    | [_] => []
    | _ :: _ :: _ => '.' :: (base.reverse.takeWhile (fun c => c ≠ '.')).reverse

/-- `path.dirname(p)`. -/
def dirnameChars (p : List Char) : List Char :=
  let q := stripTrailingSlashes p
  if q = [] then (if p = [] then ['.'] else ['/'])
  else if '/' ∈ q then
    let d := stripTrailingSlashes (q.reverse.dropWhile (fun c => c ≠ '/')).reverse
    if d = [] then ['/'] else d
  else ['.']

/-- A segment of a normalised absolute path. -/
def Clean (seg : List Char) : Prop :=
  seg ≠ [] ∧ seg ≠ ['.'] ∧ seg ≠ ['.', '.'] ∧ '/' ∉ seg

end Posix

/-- The POSIX `node:path` in the working directory `cwd`. -/
def posixPath (cwd : String) : NodePath where
  resolve p := String.mk (Posix.resolveChars cwd.data p.data)
  join parts := String.mk (Posix.joinChars (parts.map String.data))
  basename p := String.mk (Posix.basenameChars p.data)
  basenameExt p ext := String.mk (Posix.basenameExtChars p.data ext.data)
  extname p := String.mk (Posix.extnameChars p.data)
  dirname p := String.mk (Posix.dirnameChars p.data)

/-! ## An in-memory instance of `node:fs/promises` -/

/-- A file or a directory: `entries` is what `readdir` lists. -/
structure MemNode where
  isDir : Bool
  content : String
  entries : List String
  mtime : Nat
  readable : Bool
  writable : Bool
deriving DecidableEq, Repr

/-- A file system: nodes by absolute normalised path, and a clock. -/
structure MemWorld where
  nodes : JsMap MemNode
  clock : Nat
deriving DecidableEq, Repr

namespace MemWorld

/-- A readable and writable file. -/
def file (content : String) (mtime : Nat) : MemNode := ⟨false, content, [], mtime, true, true⟩

/-- A readable and writable directory. -/
def dir (entries : List String) (mtime : Nat) : MemNode := ⟨true, "", entries, mtime, true, true⟩

/-- `mkdir(p, \x7b recursive: true \x7d)` on a resolved path: the missing
directories are created from the nearest existing ancestor down. -/
def mkdirAll (P : NodePath) : Nat → MemWorld → String → MemWorld × Bool
  | 0, w, p => (w, (w.nodes.get p).any (fun n => n.isDir))
  | fuel + 1, w, p =>
    match w.nodes.get p with
    | some n => (w, n.isDir)
    | none =>
      let parent := P.dirname p
      match mkdirAll P fuel w parent with
      | (w1, false) => (w1, false)
      | (w1, true) =>
        match w1.nodes.get parent with
        | some d =>
          if d.writable then
            let d1 := { d with entries := d.entries ++ [P.basename p], mtime := w1.clock + 1 }
            (⟨(w1.nodes.set parent d1).set p (dir [] (w1.clock + 1)), w1.clock + 1⟩, true)
          else (w1, false)
        | none => (w1, false)

/-- `writeFile(p, content)` on a resolved path. -/
def write (P : NodePath) (w : MemWorld) (p content : String) : MemWorld × Bool :=
  let parent := P.dirname p
  match w.nodes.get p with
  | some n =>
    if n.isDir || !n.writable then (w, false)
    else (⟨w.nodes.set p { n with content := content, mtime := w.clock + 1 }, w.clock + 1⟩, true)
  | none =>
    match w.nodes.get parent with
    | some d =>
      if d.isDir && d.writable then
        let d1 := { d with entries := d.entries ++ [P.basename p], mtime := w.clock + 1 }
        (⟨(w.nodes.set parent d1).set p (file content (w.clock + 1)), w.clock + 1⟩, true)
      else (w, false)
    | none => (w, false)

/-- The in-memory file system as `node:fs/promises`. -/
def nodeFs (P : NodePath) : NodeFs MemWorld where
  stat w p := (w.nodes.get (P.resolve p)).map (fun n => ⟨n.mtime, n.isDir, !n.isDir⟩)
  readFile w p :=
    match w.nodes.get (P.resolve p) with
    | some n => if n.isDir || !n.readable then none else some n.content
    | none => none
  readdir w p :=
    match w.nodes.get (P.resolve p) with
    | some n => if n.isDir && n.readable then some n.entries else none
    | none => none
  access w p := w.nodes.has (P.resolve p)
  mkdir w p := mkdirAll P (P.resolve p).length w (P.resolve p)
  writeFile w p content := write P w (P.resolve p) content

end MemWorld

/-! ## A concrete project, with the mocks of `tests/unit/fileProcessor.test.js` -/

/-- The libraries over the in-memory file system in the working directory
`/w`, with the Babel and UglifyJS mocks of the unit tests. -/
def memEnv : Env MemWorld where
  path := posixPath "/w"
  fs := MemWorld.nodeFs (posixPath "/w")
  now w := w.clock
  babel code _ := .ok ("transformed_" ++ code)
  uglify code := .ok ⟨none, "minified_" ++ code⟩

/-- The `mockPlugins` of the unit tests. -/
def mockPlugins : String → Option (Plugin MemWorld)
  | "css" => some (fun _ content _ _ _ => .ok (content ++ "/* processed css */"))
  | "html" => some (fun _ content _ _ _ => .ok (content ++ "<!-- processed html -->"))
  | "js" => some (fun _ content _ _ _ => .ok (content ++ "// processed js"))
  | "svg" => some (fun _ content _ _ _ => .ok (content ++ "<svg><!-- processed svg --></svg>"))
  | _ => none

/-- The `mockPlugins` with `css` rejecting, as `mockRejectedValueOnce` makes it. -/
def rejectingPlugins : String → Option (Plugin MemWorld)
  | "css" => some (fun _ _ _ _ _ => .error "Plugin failed")
  | ext => mockPlugins ext

/-- A project `/w` whose entry `source/main.js` has the given content, with the
fragments `src/css/a.css` and `src/css/b.css` and an empty `dist`. -/
def project (mainJs : String) : MemWorld :=
  { nodes :=
      [("/", MemWorld.dir ["w"] 1),
       ("/w", MemWorld.dir ["source", "src", "dist"] 1),
       ("/w/source", MemWorld.dir ["main.js"] 1),
       ("/w/source/main.js", MemWorld.file mainJs 1),
       ("/w/src", MemWorld.dir ["css"] 1),
       ("/w/src/css", MemWorld.dir ["a.css", "b.css"] 1),
       ("/w/src/css/a.css", MemWorld.file ".a\x7bcolor:red\x7d" 1),
       ("/w/src/css/b.css", MemWorld.file ".b\x7bcolor:blue\x7d" 1),
       ("/w/dist", MemWorld.dir [] 1)],
    clock := 1 }

/-- The entry with a placeholder for each of the two fragments. -/
def twoFragments : String := "\x7b\x7bcss/a\x7d\x7d \x7b\x7bcss/b\x7d\x7d"

/-- `processFile` on the entry of the project. -/
abbrev processMain (fp : FileProcessor MemWorld) (w : MemWorld) : ProcessResult MemWorld :=
  FileProcessor.processFile memEnv fp 8 w "/w/source/main.js" "/w/dist" "/w/src"

/-- The world of one file `/w/a.txt` with the given content and modification
time 1. -/
def oneFile (content : String) : MemWorld :=
  { nodes := [("/", MemWorld.dir ["w"] 1), ("/w", MemWorld.dir ["a.txt"] 1),
              ("/w/a.txt", MemWorld.file content 1)],
    clock := 1 }

/-- The first `processFile` of a new processor on the two-fragment entry. -/
def firstBuild : ProcessResult MemWorld :=
  processMain (FileProcessor.new mockPlugins false) (project twoFragments)

/-- The first `processFile` of a new processor whose `css` plugin rejects. -/
def failedBuild : ProcessResult MemWorld :=
  processMain (FileProcessor.new rejectingPlugins false) (project twoFragments)

/-- The first `processFile` of a new processor whose `css` plugin rejects, on an
entry without placeholders. -/
def failedPlainBuild : ProcessResult MemWorld :=
  processMain (FileProcessor.new rejectingPlugins false) (project "console.log(1)")

/-- The file system after the entry is rewritten with a new content. -/
def editMain (w : MemWorld) (mainJs : String) : MemWorld :=
  { nodes := w.nodes.set "/w/source/main.js" (MemWorld.file mainJs (w.clock + 1)),
    clock := w.clock + 1 }

/-- Tracker calls that register two entries on the fragment `a.css`. -/
def twoEntries : List DependencyTracker.Call :=
  [.register "/w/source/main.js" ["/w/src/css/a.css", "/w/src/css/b.css"],
   .register "/w/source/other.js" ["/w/src/css/a.css"]]

/-- A processor whose tracker has seen the calls of `twoEntries`. -/
def twoEntriesProcessor : FileProcessor MemWorld :=
  { FileProcessor.new mockPlugins false with
    dependencyTracker := DependencyTracker.run memEnv.path twoEntries }

/-- The dependency is on disk and `dependencyCache` holds stats of it with
its present modification time: the one case in which the loop of
`shouldRegenerateJsFile` goes on to the next dependency. -/
def DependencyTracker.isRecorded {σ : Type} (F : NodeFs σ) (s : σ) (t : DependencyTracker)
    (depPath : String) : Bool :=
  match F.stat s depPath, t.dependencyCache.get ("dep:" ++ depPath) with
  | some stats, some (.stats cachedStats) => stats.mtime == cachedStats.mtime
  | _, _ => false

/-! ## A project of two entries that share a fragment -/

/-- The libraries of `memEnv`, with a Babel that rejects a code with `@@`. -/
def strictEnv : Env MemWorld :=
  { memEnv with
    babel := fun code _ =>
      if jsIncludes code "@@" then .error "Unexpected character" else .ok ("transformed_" ++ code) }

/-- A `css` plugin that rejects a style sheet with the word `invalid` and
appends any other one to the data, in a comment. -/
def strictPlugins : String → Option (Plugin MemWorld)
  | "css" => some (fun w data file _ _ =>
      match memEnv.fs.readFile w file with
      | none => .error "CSS plugin failed"
      | some css =>
        if jsIncludes css "invalid" then .error "CSS plugin failed"
        else .ok (data ++ "/*" ++ css ++ "*/"))
  | _ => none

/-- A project `/w` with the entries `source/a.js` (which Babel rejects) and
`source/b.js`, both with a placeholder for the fragment `src/css/f.css`, whose
content and modification time are given. -/
def sharedProject (fCss : String) (mtime : Nat) : MemWorld :=
  { nodes :=
      [("/", MemWorld.dir ["w"] 1),
       ("/w", MemWorld.dir ["source", "src", "dist"] 1),
       ("/w/source", MemWorld.dir ["a.js", "b.js"] 1),
       ("/w/source/a.js", MemWorld.file "@@ \x7b\x7bcss/f\x7d\x7d" 1),
       ("/w/source/b.js", MemWorld.file "\x7b\x7bcss/f\x7d\x7d" 1),
       ("/w/src", MemWorld.dir ["css"] 1),
       ("/w/src/css", MemWorld.dir ["f.css"] 1),
       ("/w/src/css/f.css", MemWorld.file fCss mtime),
       ("/w/dist", MemWorld.dir [] 1)],
    clock := 2 }

/-- The processor after a first `processAllFiles`, in which the fragment is
invalid; each of the two calls in turn is resumed. -/
def afterInvalidBatch : FileProcessor MemWorld :=
  (Interleaved.processAllFiles strictEnv (FileProcessor.new strictPlugins false) 8
    (sharedProject "invalid css syntax \x7b" 1) "/w/source" "/w/dist" "/w/src"
    (inTurn 2 100)).processor

/-! ## Further states of the project -/

/-- A project `/w` with the one fragment `src/js/u.js` of the given content. -/
def jsFragment (content : String) : MemWorld :=
  { nodes :=
      [("/", MemWorld.dir ["w"] 1),
       ("/w", MemWorld.dir ["src"] 1),
       ("/w/src", MemWorld.dir ["js"] 1),
       ("/w/src/js", MemWorld.dir ["u.js"] 1),
       ("/w/src/js/u.js", MemWorld.file content 1)],
    clock := 1 }

/-- The project after `src/css/b.css` is deleted. -/
def withoutB (w : MemWorld) : MemWorld :=
  { nodes := (w.nodes.delete "/w/src/css/b.css").set "/w/src/css"
      (MemWorld.dir ["a.css"] (w.clock + 1)),
    clock := w.clock + 1 }

/-- The project after `src/css/a.css` is given a new content and its former
modification time. -/
def restyled (w : MemWorld) : MemWorld :=
  { w with nodes := w.nodes.set "/w/src/css/a.css" (MemWorld.file ".a\x7bcolor:green\x7d" 1) }

/-- The first `processFile` of a new processor on an entry with one
placeholder. -/
def singleBuild : ProcessResult MemWorld :=
  processMain (FileProcessor.new mockPlugins false) (project "\x7b\x7bcss/a\x7d\x7d")

/-! ## Files with names that share a prefix -/

/-- A directory `/w` with the files `a`, `a:b`, `a.js` and `a.json`. -/
def twoNames : MemWorld :=
  { nodes :=
      [("/", MemWorld.dir ["w"] 1),
       ("/w", MemWorld.dir ["a", "a:b", "a.js", "a.json"] 1),
       ("/w/a", MemWorld.file "1" 1),
       ("/w/a:b", MemWorld.file "2" 1),
       ("/w/a.js", MemWorld.file "3" 1),
       ("/w/a.json", MemWorld.file "4" 1)],
    clock := 1 }

/-- A cache manager with a record for `/w/a.js` and one for `/w/a.json`. -/
def twoRecords : CacheManager String :=
  CacheManager.setCache (posixPath "/w") (MemWorld.nodeFs (posixPath "/w")) twoNames
    (CacheManager.setCache (posixPath "/w") (MemWorld.nodeFs (posixPath "/w")) twoNames
      CacheManager.new "/w/a.js" "script" "default")
    "/w/a.json" "data" "default"

/-- A project `/w` whose fragments directory has a hidden file, a file with an
extension without plugin and a file without extension. -/
def unsupportedFragments : MemWorld :=
  { nodes :=
      [("/", MemWorld.dir ["w"] 1),
       ("/w", MemWorld.dir ["src"] 1),
       ("/w/src", MemWorld.dir [".hidden.css", "unsupported.xyz", "README"] 1),
       ("/w/src/.hidden.css", MemWorld.file "hidden content" 1),
       ("/w/src/unsupported.xyz", MemWorld.file "unsupported content" 1),
       ("/w/src/README", MemWorld.file "read me" 1)],
    clock := 1 }

/-! # Theorems -/

/-! ## The POSIX `resolve` maps its results to themselves -/

namespace Posix

theorem splitSlash_ne_nil (cs : List Char) : splitSlash cs ≠ [] := by
  induction cs with
  | nil => simp [splitSlash]
  | cons c cs ih =>
    unfold splitSlash
    split
    · simp
    · split <;> simp

theorem splitSlash_noSlash (cs : List Char) : ∀ seg ∈ splitSlash cs, '/' ∉ seg := by
  induction cs with
  | nil => simp [splitSlash]
  | cons c cs ih =>
    intro seg hseg
    unfold splitSlash at hseg
    split at hseg
    · rcases List.mem_cons.mp hseg with h | h
      · simp [h]
      · exact ih seg h
    · rename_i hc
      split at hseg
      · rename_i hnil
        exact absurd hnil (splitSlash_ne_nil cs)
      · rename_i seg0 segs heq
        rcases List.mem_cons.mp hseg with h | h
        · subst h
          have h0 : '/' ∉ seg0 := ih seg0 (by simp [heq])
          intro hmem
          rcases List.mem_cons.mp hmem with h1 | h1
          · exact hc h1.symm
          · exact h0 h1
        · exact ih seg (by simp [heq, h])

theorem splitSlash_of_noSlash (seg : List Char) (h : '/' ∉ seg) : splitSlash seg = [seg] := by
  induction seg with
  | nil => simp [splitSlash]
  | cons c seg ih =>
    have hc : c ≠ '/' := fun hc => h (by simp [hc])
    have hs : '/' ∉ seg := fun hs => h (List.mem_cons_of_mem _ hs)
    simp [splitSlash, hc, ih hs]

theorem splitSlash_append_slash (seg rest : List Char) (h : '/' ∉ seg) :
    splitSlash (seg ++ '/' :: rest) = seg :: splitSlash rest := by
  induction seg with
  | nil => simp [splitSlash]
  | cons c seg ih =>
    have hc : c ≠ '/' := fun hc => h (by simp [hc])
    have hs : '/' ∉ seg := fun hs => h (List.mem_cons_of_mem _ hs)
    simp [splitSlash, hc, ih hs]

theorem splitSlash_joinSlash (segs : List (List Char)) (hne : segs ≠ [])
    (h : ∀ seg ∈ segs, '/' ∉ seg) : splitSlash (joinSlash segs) = segs := by
  induction segs with
  | nil => exact absurd rfl hne
  | cons seg rest ih =>
    cases rest with
    | nil => simpa [joinSlash] using splitSlash_of_noSlash seg (h seg (by simp))
    | cons seg2 rest2 =>
      have hseg : '/' ∉ seg := h seg (by simp)
      have hrest : ∀ x ∈ seg2 :: rest2, '/' ∉ x := fun x hx => h x (List.mem_cons_of_mem _ hx)
      simp only [joinSlash]
      rw [splitSlash_append_slash seg _ hseg, ih (by simp) hrest]

theorem normalizeSegments_clean (stack input : List (List Char))
    (hstack : ∀ x ∈ stack, Clean x) (hinput : ∀ x ∈ input, '/' ∉ x) :
    ∀ x ∈ normalizeSegments false stack input, Clean x := by
  induction input generalizing stack with
  | nil => simpa [normalizeSegments] using hstack
  | cons seg rest ih =>
    have hrest : ∀ x ∈ rest, '/' ∉ x := fun x hx => hinput x (List.mem_cons_of_mem _ hx)
    unfold normalizeSegments
    split
    · exact ih stack hstack hrest
    · rename_i h1
      split
      · rename_i h2
        cases stack with
        | nil => simpa using ih [] (by simp) hrest
        | cons top below =>
          have htop : top ≠ ['.', '.'] := (hstack top (by simp)).2.2.1
          simp only [htop, if_false]
          exact ih below (fun x hx => hstack x (List.mem_cons_of_mem _ hx)) hrest
      · rename_i h2
        refine ih (seg :: stack) ?_ hrest
        intro x hx
        rcases List.mem_cons.mp hx with h | h
        · subst h
          exact ⟨fun h3 => h1 (Or.inl h3), fun h3 => h1 (Or.inr h3), h2,
            hinput x (by simp)⟩
        · exact hstack x h

theorem normalizeSegments_of_clean (b : Bool) (stack segs : List (List Char))
    (h : ∀ x ∈ segs, Clean x) : normalizeSegments b stack segs = stack.reverse ++ segs := by
  induction segs generalizing stack with
  | nil => simp [normalizeSegments]
  | cons seg rest ih =>
    obtain ⟨h1, h2, h3, _⟩ := h seg (by simp)
    have hrest : ∀ x ∈ rest, Clean x := fun x hx => h x (List.mem_cons_of_mem _ hx)
    unfold normalizeSegments
    simp only [h1, h2, h3, or_self, if_false]
    rw [ih (seg :: stack) hrest]
    simp

theorem resolveChars_idem (cwd p : List Char) :
    resolveChars cwd (resolveChars cwd p) = resolveChars cwd p := by
  have key : ∀ segs : List (List Char), (∀ x ∈ segs, Clean x) →
      resolveChars cwd ('/' :: joinSlash segs) = '/' :: joinSlash segs := by
    intro segs hclean
    unfold resolveChars
    simp only [List.head?_cons, if_true]
    cases segs with
    | nil => simp [joinSlash, splitSlash, normalizeSegments]
    | cons seg rest =>
      have hsplit : splitSlash ('/' :: joinSlash (seg :: rest)) = [] :: seg :: rest := by
        have := splitSlash_joinSlash (seg :: rest) (by simp) (fun x hx => (hclean x hx).2.2.2)
        simp [splitSlash, this]
      rw [hsplit]
      have hnorm : normalizeSegments false [] ([] :: seg :: rest) = seg :: rest := by
        unfold normalizeSegments
        simp only [true_or, if_true]
        simpa using normalizeSegments_of_clean false [] (seg :: rest) hclean
      rw [hnorm]
  exact key _ (normalizeSegments_clean [] _ (by simp) (splitSlash_noSlash _))

end Posix

theorem posixPath_lawful (cwd : String) : (posixPath cwd).Lawful := by
  intro p
  show String.mk (Posix.resolveChars cwd.data (Posix.resolveChars cwd.data p.data)) = _
  rw [Posix.resolveChars_idem]
  rfl

theorem posixPath_resolve_relative :
    (posixPath "/w").resolve "a/../b/./c.js" = "/w/b/c.js" := by decide

theorem posixPath_join_fragment :
    (posixPath "/w").join ["/w/src", "css", "a.css"] = "/w/src/css/a.css" := by decide

theorem posixPath_extname_fragment :
    (posixPath "/w").extname "/w/src/css/a.css" = ".css" ∧
      (posixPath "/w").extname "/w/src/.hidden" = "" := by decide

theorem posixPath_basename_entry :
    (posixPath "/w").basenameExt "/w/source/main.js" ".js" = "main" ∧
      (posixPath "/w").dirname "/w/dist/main.js" = "/w/dist" := by decide

/-! ## Lemmas on the collections -/

namespace JsMap

variable {β : Type}

theorem get_set_self (m : JsMap β) (k : String) (v : β) : (m.set k v).get k = some v := by
  induction m with
  | nil => simp [set, get]
  | cons e m ih =>
    obtain ⟨k', v'⟩ := e
    by_cases h : k' = k
    · simp [set, get, h]
    · simp [set, get, h, ih]

theorem get_set_of_ne (m : JsMap β) (k k2 : String) (v : β) (h : k ≠ k2) :
    (m.set k v).get k2 = m.get k2 := by
  induction m with
  | nil => simp [set, get, h]
  | cons e m ih =>
    obtain ⟨k', v'⟩ := e
    by_cases h1 : k' = k
    · subst h1
      simp [set, get, h]
    · by_cases h2 : k' = k2
      · subst h2
        simp [set, get, h1]
      · simp [set, get, h1, h2, ih]

theorem get_delete_self (m : JsMap β) (k : String) : (m.delete k).get k = none := by
  induction m with
  | nil => simp [delete, get]
  | cons e m ih =>
    obtain ⟨k', v'⟩ := e
    by_cases h : k' = k
    · simp [delete, h, ih]
    · simp [delete, get, h, ih]

theorem get_delete_of_ne (m : JsMap β) (k k2 : String) (h : k ≠ k2) :
    (m.delete k).get k2 = m.get k2 := by
  induction m with
  | nil => simp [delete, get]
  | cons e m ih =>
    obtain ⟨k', v'⟩ := e
    by_cases h1 : k' = k
    · subst h1
      simp [delete, get, h, ih]
    · by_cases h2 : k' = k2
      · subst h2
        simp [delete, get, h1]
      · simp [delete, get, h1, h2, ih]

theorem members_set (m : JsMap JsSet) (k k2 : String) (v : JsSet) :
    (m.set k v).members k2 = if k = k2 then v else m.members k2 := by
  unfold members
  by_cases h : k = k2
  · subst h
    simp [get_set_self]
  · simp [h, get_set_of_ne m k k2 v h]

theorem members_delete (m : JsMap JsSet) (k k2 : String) :
    (m.delete k).members k2 = if k = k2 then [] else m.members k2 := by
  unfold members
  by_cases h : k = k2
  · subst h
    simp [get_delete_self]
  · simp [h, get_delete_of_ne m k k2 h]

end JsMap

namespace JsSet

theorem mem_add (s : JsSet) (x y : String) : y ∈ add s x ↔ y ∈ s ∨ y = x := by
  unfold add
  by_cases h : x ∈ s
  · simp only [h, if_true]
    constructor
    · exact Or.inl
    · rintro (h1 | h1)
      · exact h1
      · exact h1 ▸ h
  · simp [h]

theorem mem_delete (s : JsSet) (x y : String) : y ∈ delete s x ↔ y ∈ s ∧ y ≠ x := by
  simp [delete]

theorem mem_foldl_add (l : List String) (s : JsSet) (y : String) :
    y ∈ l.foldl add s ↔ y ∈ s ∨ y ∈ l := by
  induction l generalizing s with
  | nil => simp
  | cons x l ih =>
    simp only [List.foldl_cons, ih, mem_add, List.mem_cons]
    tauto

theorem mem_ofList (l : List String) (y : String) : y ∈ ofList l ↔ y ∈ l := by
  simp [ofList, mem_foldl_add]

end JsSet

/-! ## The edge maps of the tracker -/

namespace DependencyTracker

theorem members_removeReverse (P : NodePath) (r : String) (rev : JsMap JsSet)
    (depPath G : String) :
    (removeReverse P r rev depPath).members G =
      if P.resolve depPath = G then JsSet.delete (rev.members G) r else rev.members G := by
  simp only [removeReverse]
  cases hget : rev.get (P.resolve depPath) with
  | none =>
    by_cases h : P.resolve depPath = G
    · subst h
      simp [JsMap.members, hget, JsSet.delete]
    · simp [h]
  | some s =>
    have hm : rev.members (P.resolve depPath) = s := by simp [JsMap.members, hget]
    by_cases hs : (JsSet.delete s r).size = 0
    · have h0 : JsSet.delete s r = [] := List.length_eq_zero.mp hs
      simp only [hs, if_true, JsMap.members_delete]
      by_cases h : P.resolve depPath = G
      · subst h
        simp [hm, h0]
      · simp [h]
    · simp only [hs, if_false, JsMap.members_set]
      by_cases h : P.resolve depPath = G
      · subst h
        simp [hm]
      · simp [h]

theorem mem_foldl_removeReverse (P : NodePath) (r : String) (deps : List String)
    (rev : JsMap JsSet) (E G : String) :
    E ∈ (deps.foldl (removeReverse P r) rev).members G ↔
      E ∈ rev.members G ∧ ¬ (E = r ∧ ∃ F ∈ deps, P.resolve F = G) := by
  induction deps generalizing rev with
  | nil => simp
  | cons d deps ih =>
    simp only [List.foldl_cons, ih, members_removeReverse, List.mem_cons]
    by_cases h : P.resolve d = G
    · simp only [h, if_true, JsSet.mem_delete]
      constructor
      · rintro ⟨⟨h1, h2⟩, _⟩
        exact ⟨h1, fun h3 => h2 h3.1⟩
      · rintro ⟨h1, h2⟩
        have h3 : E ≠ r := fun h3 => h2 ⟨h3, d, Or.inl rfl, h⟩
        exact ⟨⟨h1, h3⟩, fun h4 => h3 h4.1⟩
    · simp only [h, if_false]
      constructor
      · rintro ⟨h1, h2⟩
        refine ⟨h1, ?_⟩
        rintro ⟨h3, F, hF | hF, hG⟩
        · exact h (hF ▸ hG)
        · exact h2 ⟨h3, F, hF, hG⟩
      · rintro ⟨h1, h2⟩
        exact ⟨h1, fun ⟨h3, F, hF, hG⟩ => h2 ⟨h3, F, Or.inr hF, hG⟩⟩

theorem members_addReverse (P : NodePath) (r : String) (rev : JsMap JsSet)
    (depPath G : String) :
    (addReverse P r rev depPath).members G =
      if P.resolve depPath = G then JsSet.add (rev.members G) r else rev.members G := by
  simp only [addReverse]
  by_cases hhas : rev.has (P.resolve depPath) = true
  · simp only [hhas, if_true, JsMap.members_set]
    by_cases h : P.resolve depPath = G
    · subst h
      simp
    · simp [h]
  · have hnone : rev.get (P.resolve depPath) = none := by
      simpa [JsMap.has] using hhas
    have hm : rev.members (P.resolve depPath) = [] := by simp [JsMap.members, hnone]
    simp only [hhas, JsMap.members_set]
    by_cases h : P.resolve depPath = G
    · subst h
      simp [hm, JsMap.members_set]
    · simp [h, JsMap.members_set]

theorem mem_foldl_addReverse (P : NodePath) (r : String) (deps : List String)
    (rev : JsMap JsSet) (E G : String) :
    E ∈ (deps.foldl (addReverse P r) rev).members G ↔
      E ∈ rev.members G ∨ (E = r ∧ ∃ F ∈ deps, P.resolve F = G) := by
  induction deps generalizing rev with
  | nil => simp
  | cons d deps ih =>
    simp only [List.foldl_cons, ih, members_addReverse, List.mem_cons]
    by_cases h : P.resolve d = G
    · simp only [h, if_true, JsSet.mem_add]
      constructor
      · rintro ((h1 | h1) | ⟨h1, F, hF, hG⟩)
        · exact Or.inl h1
        · exact Or.inr ⟨h1, d, Or.inl rfl, h⟩
        · exact Or.inr ⟨h1, F, Or.inr hF, hG⟩
      · rintro (h1 | ⟨h1, F, hF | hF, hG⟩)
        · exact Or.inl (Or.inl h1)
        · exact Or.inl (Or.inr h1)
        · exact Or.inr ⟨h1, F, hF, hG⟩
    · simp only [h, if_false]
      constructor
      · rintro (h1 | ⟨h1, F, hF, hG⟩)
        · exact Or.inl h1
        · exact Or.inr ⟨h1, F, Or.inr hF, hG⟩
      · rintro (h1 | ⟨h1, F, hF | hF, hG⟩)
        · exact Or.inl h1
        · exact absurd (hF ▸ hG) h
        · exact Or.inr ⟨h1, F, hF, hG⟩

theorem removeDependencies_reverse (P : NodePath) (t : DependencyTracker) (js : String) :
    (removeDependencies P t js).reverseDependencies =
      (t.dependencies.members (P.resolve js)).foldl (removeReverse P (P.resolve js))
        t.reverseDependencies := by
  unfold removeDependencies JsMap.members
  cases h : t.dependencies.get (P.resolve js) <;> simp [h]

theorem removeDependencies_forward (P : NodePath) (t : DependencyTracker) (js E : String) :
    (removeDependencies P t js).dependencies.members E =
      if P.resolve js = E then [] else t.dependencies.members E := by
  simp [removeDependencies, JsMap.members_delete]

theorem consistent_removeDependencies (P : NodePath) (t : DependencyTracker) (js : String)
    (h : Consistent P t) : Consistent P (removeDependencies P t js) := by
  intro E G
  rw [removeDependencies_reverse, mem_foldl_removeReverse, removeDependencies_forward, h E G]
  by_cases hE : P.resolve js = E
  · subst hE
    simp
  · simp only [hE, if_false]
    constructor
    · exact fun h1 => h1.1
    · exact fun h1 => ⟨h1, fun h2 => hE h2.1.symm⟩

theorem registerDependencies_forward (P : NodePath) (hP : P.Lawful) (t : DependencyTracker)
    (js : String) (D : List String) (E : String) :
    (registerDependencies P t js D).dependencies.members E =
      if P.resolve js = E then JsSet.ofList D else t.dependencies.members E := by
  simp only [registerDependencies, JsMap.members_set, removeDependencies_forward,
    hP js]
  by_cases hE : P.resolve js = E <;> simp [hE]

theorem registerDependencies_reverse (P : NodePath) (hP : P.Lawful) (t : DependencyTracker)
    (js : String) (D : List String) (E G : String) :
    E ∈ (registerDependencies P t js D).reverseDependencies.members G ↔
      E ∈ (removeDependencies P t js).reverseDependencies.members G ∨
        (E = P.resolve js ∧ ∃ F ∈ D, P.resolve F = G) := by
  have h : (registerDependencies P t js D).reverseDependencies =
      D.foldl (addReverse P (P.resolve js))
        (removeDependencies P t (P.resolve js)).reverseDependencies := rfl
  rw [h, mem_foldl_addReverse]
  simp only [removeDependencies, hP js]

theorem consistent_registerDependencies (P : NodePath) (hP : P.Lawful) (t : DependencyTracker)
    (js : String) (D : List String) (h : Consistent P t) :
    Consistent P (registerDependencies P t js D) := by
  intro E G
  rw [registerDependencies_reverse P hP, registerDependencies_forward P hP,
    consistent_removeDependencies P t js h E G, removeDependencies_forward]
  by_cases hE : P.resolve js = E
  · subst hE
    simp [JsSet.mem_ofList]
  · simp only [hE, if_false]
    constructor
    · rintro (h1 | ⟨h1, _⟩)
      · exact h1
      · exact absurd h1.symm hE
    · exact Or.inl

theorem consistent_run (P : NodePath) (hP : P.Lawful) (calls : List Call) :
    Consistent P (run P calls) := by
  unfold run
  induction calls using List.reverseRecOn with
  | nil =>
    intro E G
    simp [new, JsMap.members, JsMap.get]
  | append_singleton calls c ih =>
    rw [List.foldl_append]
    simp only [List.foldl_cons, List.foldl_nil]
    cases c with
    | register js deps => exact consistent_registerDependencies P hP _ js deps ih
    | remove js => exact consistent_removeDependencies P _ js ih
    | invalidate p =>
      exact consistent_removeDependencies P _ (P.resolve p) (fun E G => ih E G)
    | clear =>
      intro E G
      simp [step, clearCache, JsMap.members, JsMap.get]

end DependencyTracker

/-! ## Change detection (`CacheManager.hasFileContentChanged`) -/

theorem Md5.hexChars_ne_nil (content : String) : Md5.hexChars content ≠ [] := by
  unfold Md5.hexChars Md5.digest
  simp [Md5.leBytes]

theorem md5_of_abc :
    md5 "" = "d41d8cd98f00b204e9800998ecf8427e" ∧
      md5 "abc" = "900150983cd24fb0d6963f7d28e17f72" := by
  decide!

theorem placeholders_of_twoFragments :
    placeholders twoFragments = [("css", "a"), ("css", "b")] ∧
      placeholders "a \x7b\x7b b \x7b\x7bcss/a\x7d\x7d\x7d" = [(" b \x7b\x7bcss", "a")] := by
  decide

theorem md5_ne_empty (content : String) : md5 content ≠ "" := by
  intro h
  have h1 : (md5 content).data = [] := by rw [h]
  exact Md5.hexChars_ne_nil content h1

namespace CacheManager

variable {ρ σ : Type}

theorem getFileHash_setFileHash (P : NodePath) (c : CacheManager ρ) (filePath hash : String) :
    getFileHash P (setFileHash P c filePath hash) filePath = some hash := by
  simp [getFileHash, setFileHash, JsMap.get_set_self]

theorem fileSystem_getFileHash_of_readFile (F : NodeFs σ) (s : σ) (filePath content : String)
    (h : F.readFile s filePath = some content) :
    FileSystemUtils.getFileHash F s filePath = .ok (md5 content) := by
  simp [FileSystemUtils.getFileHash, FileSystemUtils.readFile, h]

theorem hasFileContentChanged_commits (P : NodePath) (F : NodeFs σ) (s : σ)
    (c : CacheManager ρ) (filePath content : String)
    (h : F.readFile s filePath = some content) :
    getFileHash P (hasFileContentChanged P F s c filePath).2 filePath = some (md5 content) := by
  unfold hasFileContentChanged
  rw [fileSystem_getFileHash_of_readFile F s filePath content h]
  cases hc : getFileHash P c filePath with
  | none => simp [getFileHash_setFileHash]
  | some cached =>
    by_cases h1 : cached = ""
    · simp [h1, getFileHash_setFileHash]
    · by_cases h2 : md5 content = cached
      · simp [h1, h2, hc]
      · simp [h1, h2, getFileHash_setFileHash]

theorem hasFileContentChanged_of_stored (P : NodePath) (F : NodeFs σ) (s : σ)
    (c : CacheManager ρ) (filePath content stored : String)
    (h : F.readFile s filePath = some content) (hc : getFileHash P c filePath = some stored)
    (hne : stored ≠ "") :
    (hasFileContentChanged P F s c filePath).1 = decide (md5 content ≠ stored) := by
  unfold hasFileContentChanged
  rw [fileSystem_getFileHash_of_readFile F s filePath content h]
  by_cases h2 : md5 content = stored <;> simp [hc, hne, h2]

theorem hasFileContentChanged_records (P : NodePath) (F : NodeFs σ) (s : σ)
    (c : CacheManager ρ) (filePath : String) :
    (hasFileContentChanged P F s c filePath).2.cache = c.cache ∧
      (hasFileContentChanged P F s c filePath).2.fileTimestamps = c.fileTimestamps := by
  unfold hasFileContentChanged
  split
  · exact ⟨rfl, rfl⟩
  · split
    · exact ⟨rfl, rfl⟩
    · split
      · exact ⟨rfl, rfl⟩
      · split <;> exact ⟨rfl, rfl⟩

end CacheManager

/-! ## Claims on change detection -/

/-- C8, as the code has it: once `hasFileContentChanged` has observed a path,
the next call on that path returns true whenever the MD5 digest of the file's
new content differs from the digest of the observed content; the modification
time is not consulted. -/
theorem hasFileContentChanged_detects_digest_change {ρ σ : Type} (P : NodePath)
    (F : NodeFs σ) (before after : σ) (c : CacheManager ρ) (filePath old new : String)
    (hold : F.readFile before filePath = some old)
    (hnew : F.readFile after filePath = some new)
    (hdiff : md5 new ≠ md5 old) :
    (CacheManager.hasFileContentChanged P F after
      (CacheManager.hasFileContentChanged P F before c filePath).2 filePath).1 = true := by
  rw [CacheManager.hasFileContentChanged_of_stored P F after _ filePath new (md5 old) hnew
    (CacheManager.hasFileContentChanged_commits P F before c filePath old hold)
    (md5_ne_empty old)]
  simpa using hdiff

/-- Witness of C8 as amended: `abc` rewritten to `abd`, modification time
unchanged, is reported as changed. -/
theorem hasFileContentChanged_detects_digest_change_witness :
    (CacheManager.hasFileContentChanged memEnv.path memEnv.fs (oneFile "abd")
      (CacheManager.hasFileContentChanged memEnv.path memEnv.fs (oneFile "abc")
        (CacheManager.new : CacheManager CacheRecord) "/w/a.txt").2 "/w/a.txt").1 = true :=
  hasFileContentChanged_detects_digest_change memEnv.path memEnv.fs (oneFile "abc")
    (oneFile "abd") CacheManager.new "/w/a.txt" "abc" "abd" (by decide) (by decide)
    (by decide!)

/-- C8 fails as stated: two 72-byte texts that differ in one byte have the same
MD5 digest, so after the first is observed, a file rewritten to the second
(same modification time) is reported as unchanged. -/
theorem hasFileContentChanged_misses_collision :
    "TEXTCOLLBYfGiJUETHQ4hAcKSMd5zYpgqf1YRDhkmxHkhPWptrkoyz28wnI9V0aHeAuaKnak" ≠
      "TEXTCOLLBYfGiJUETHQ4hEcKSMd5zYpgqf1YRDhkmxHkhPWptrkoyz28wnI9V0aHeAuaKnak" ∧
    (CacheManager.hasFileContentChanged memEnv.path memEnv.fs
      (oneFile "TEXTCOLLBYfGiJUETHQ4hEcKSMd5zYpgqf1YRDhkmxHkhPWptrkoyz28wnI9V0aHeAuaKnak")
      (CacheManager.hasFileContentChanged memEnv.path memEnv.fs
        (oneFile "TEXTCOLLBYfGiJUETHQ4hAcKSMd5zYpgqf1YRDhkmxHkhPWptrkoyz28wnI9V0aHeAuaKnak")
        (CacheManager.new : CacheManager CacheRecord) "/w/a.txt").2 "/w/a.txt").1 = false := by
  decide!

/-- C9: for a readable file, after `hasFileContentChanged` the stored hash of the
path is the MD5 digest of the file's content, and a second call with the
content unchanged returns false. -/
theorem hasFileContentChanged_commits_fingerprint {ρ σ : Type} (P : NodePath) (F : NodeFs σ)
    (s s2 : σ) (c : CacheManager ρ) (filePath content : String)
    (h : F.readFile s filePath = some content)
    (h2 : F.readFile s2 filePath = some content) :
    CacheManager.getFileHash P (CacheManager.hasFileContentChanged P F s c filePath).2 filePath
        = some (md5 content) ∧
      (CacheManager.hasFileContentChanged P F s2
        (CacheManager.hasFileContentChanged P F s c filePath).2 filePath).1 = false := by
  refine ⟨CacheManager.hasFileContentChanged_commits P F s c filePath content h, ?_⟩
  rw [CacheManager.hasFileContentChanged_of_stored P F s2 _ filePath content (md5 content) h2
    (CacheManager.hasFileContentChanged_commits P F s c filePath content h)
    (md5_ne_empty content)]
  simp

/-- Witness of C9 on the file `/w/a.txt` with content `abc`. -/
theorem hasFileContentChanged_commits_fingerprint_witness :
    CacheManager.getFileHash memEnv.path
        (CacheManager.hasFileContentChanged memEnv.path memEnv.fs (oneFile "abc")
          (CacheManager.new : CacheManager CacheRecord) "/w/a.txt").2 "/w/a.txt"
        = some (md5 "abc") ∧
      (CacheManager.hasFileContentChanged memEnv.path memEnv.fs (oneFile "abc")
        (CacheManager.hasFileContentChanged memEnv.path memEnv.fs (oneFile "abc")
          (CacheManager.new : CacheManager CacheRecord) "/w/a.txt").2 "/w/a.txt").1 = false :=
  hasFileContentChanged_commits_fingerprint memEnv.path memEnv.fs (oneFile "abc")
    (oneFile "abc") CacheManager.new "/w/a.txt" "abc" (by decide) (by decide)

/-- C10: for every cache state and every readable path without a stored hash,
`hasFileContentChanged` returns true. -/
theorem hasFileContentChanged_first_observation {ρ σ : Type} (P : NodePath) (F : NodeFs σ)
    (s : σ) (c : CacheManager ρ) (filePath content : String)
    (h : F.readFile s filePath = some content)
    (hnone : CacheManager.getFileHash P c filePath = none) :
    (CacheManager.hasFileContentChanged P F s c filePath).1 = true := by
  unfold CacheManager.hasFileContentChanged
  rw [CacheManager.fileSystem_getFileHash_of_readFile F s filePath content h]
  simp [hnone]

/-- Witness of C10: a new cache and the file `/w/a.txt`. -/
theorem hasFileContentChanged_first_observation_witness :
    (CacheManager.hasFileContentChanged memEnv.path memEnv.fs (oneFile "abc")
      (CacheManager.new : CacheManager CacheRecord) "/w/a.txt").1 = true :=
  hasFileContentChanged_first_observation memEnv.path memEnv.fs (oneFile "abc")
    CacheManager.new "/w/a.txt" "abc" (by decide) (by decide)

/-! ## Claims on the edge maps -/

namespace FileProcessor

variable {σ : Type}

theorem processEach_outcomes (E : Env σ) (depth : Nat) (distDir srcDir : String)
    (files : List String) (acc : ChangeResult σ) :
    ∀ o ∈ acc.outcomes, o ∈ (processEach E depth distDir srcDir files acc).outcomes := by
  induction files generalizing acc with
  | nil => simp [processEach]
  | cons f rest ih =>
    intro o ho
    unfold processEach
    simp only []
    split
    · simp [ho]
    · exact ih _ o (by simp [ho])

theorem processEach_called (E : Env σ) (depth : Nat) (distDir srcDir : String)
    (files : List String) (acc : ChangeResult σ) :
    (∃ rest, acc.called ++ files = (processEach E depth distDir srcDir files acc).called ++ rest) ∧
      (Outcome.unfinished ∉ (processEach E depth distDir srcDir files acc).outcomes →
        (processEach E depth distDir srcDir files acc).called = acc.called ++ files) := by
  induction files generalizing acc with
  | nil => simp [processEach]
  | cons f rest ih =>
    unfold processEach
    simp only []
    split
    · rename_i hu
      refine ⟨⟨rest, by simp⟩, fun hno => absurd ?_ hno⟩
      simp [hu]
    · obtain ⟨⟨more, h1⟩, h2⟩ := ih
        ⟨acc.called ++ [f],
          acc.outcomes ++ [(processFile E acc.processor depth acc.world f distDir srcDir).outcome],
          (processFile E acc.processor depth acc.world f distDir srcDir).processor,
          (processFile E acc.processor depth acc.world f distDir srcDir).world⟩
      refine ⟨⟨more, ?_⟩, fun hno => ?_⟩
      · rw [← h1]
        simp
      · rw [h2 hno]
        simp

theorem processSrcFileChange_called (E : Env σ) (fp : FileProcessor σ) (depth : Nat) (s : σ)
    (changedFilePath distDir srcDir : String) :
    (∃ rest, DependencyTracker.getAffectedJsFiles E.path fp.dependencyTracker changedFilePath
        = (processSrcFileChange E fp depth s changedFilePath distDir srcDir).called ++ rest) ∧
      (Outcome.unfinished ∉
          (processSrcFileChange E fp depth s changedFilePath distDir srcDir).outcomes →
        (processSrcFileChange E fp depth s changedFilePath distDir srcDir).called =
          DependencyTracker.getAffectedJsFiles E.path fp.dependencyTracker changedFilePath) := by
  unfold processSrcFileChange
  by_cases h : (DependencyTracker.getAffectedJsFiles E.path fp.dependencyTracker
      changedFilePath).size = 0
  · have h0 : DependencyTracker.getAffectedJsFiles E.path fp.dependencyTracker
        changedFilePath = [] := List.length_eq_zero.mp h
    simp [h0, JsSet.size]
  · simp only [h, if_false]
    simpa using processEach_called E depth distDir srcDir
      (DependencyTracker.getAffectedJsFiles E.path fp.dependencyTracker changedFilePath)
      ⟨[], [], fp, s⟩

end FileProcessor

theorem DependencyTracker.getAffectedJsFiles_eq_members (P : NodePath) (t : DependencyTracker)
    (F : String) :
    DependencyTracker.getAffectedJsFiles P t F = t.reverseDependencies.members (P.resolve F) := by
  simp only [DependencyTracker.getAffectedJsFiles, JsMap.members]
  cases h : t.reverseDependencies.get (P.resolve F) <;> rfl

/-- C1 fails as stated: after `registerDependencies('source/a.js',
['src/css/x.css'])` on a new tracker in the working directory `/w`, the entry
is in the reverse set of the resolved fragment path `/w/src/css/x.css`, while
the forward set of the entry holds the path as given, `src/css/x.css`, and not
the resolved one. -/
theorem edges_differ_on_relative_path :
    (posixPath "/w").resolve "src/css/x.css" = "/w/src/css/x.css" ∧
    (DependencyTracker.run (posixPath "/w")
        [.register "source/a.js" ["src/css/x.css"]]).dependencies.members "/w/source/a.js"
      = ["src/css/x.css"] ∧
    ¬ ((posixPath "/w").resolve "src/css/x.css" ∈ (DependencyTracker.run (posixPath "/w")
          [.register "source/a.js" ["src/css/x.css"]]).dependencies.members "/w/source/a.js" ↔
        "/w/source/a.js" ∈ (DependencyTracker.run (posixPath "/w")
          [.register "source/a.js" ["src/css/x.css"]]).reverseDependencies.members
            ((posixPath "/w").resolve "src/css/x.css")) := by
  decide

/-- C1, as the code has it: after any sequence of `registerDependencies`,
`removeDependencies`, `invalidateDependencyCache` and `clearCache` calls on a
new tracker, for every entry `E` and resolved fragment path `G`, `E` is in the
reverse set of `G` if and only if the forward set of `E` holds a path, as it
was registered, that resolves to `G`. -/
theorem edges_consistent (P : NodePath) (hP : P.Lawful)
    (calls : List DependencyTracker.Call) (E G : String) :
    E ∈ (DependencyTracker.run P calls).reverseDependencies.members G ↔
      ∃ F ∈ (DependencyTracker.run P calls).dependencies.members E, P.resolve F = G :=
  DependencyTracker.consistent_run P hP calls E G

/-- Witness of C1 as amended: two entries registered on one fragment, one by
relative paths and one by absolute paths, the second then removed: the first is
in the reverse set of the fragment, and its forward set holds the relative
path. -/
theorem edges_consistent_witness :
    "/w/source/a.js" ∈ (DependencyTracker.run (posixPath "/w")
        [.register "source/a.js" ["src/css/x.css"],
         .register "/w/source/b.js" ["/w/src/css/x.css"],
         .remove "source/b.js"]).reverseDependencies.members "/w/src/css/x.css" ∧
      ∃ F ∈ (DependencyTracker.run (posixPath "/w")
        [.register "source/a.js" ["src/css/x.css"],
         .register "/w/source/b.js" ["/w/src/css/x.css"],
         .remove "source/b.js"]).dependencies.members "/w/source/a.js",
        (posixPath "/w").resolve F = "/w/src/css/x.css" :=
  ⟨by decide,
    (edges_consistent (posixPath "/w") (posixPath_lawful "/w")
      [.register "source/a.js" ["src/css/x.css"],
       .register "/w/source/b.js" ["/w/src/css/x.css"],
       .remove "source/b.js"] "/w/source/a.js" "/w/src/css/x.css").mp (by decide)⟩

/-- C6: in every tracker state whose two maps hold the same edges (every state
reached from a new tracker), `getAffectedJsFiles(F)` holds exactly the entries
whose forward set has a path resolving to the file `F`, and
`processSrcFileChange(F)` calls `processFile` on the members of
`getAffectedJsFiles(F)` in order and on nothing else: on all of them when every
call returns (on none when the set is empty). -/
theorem getAffectedJsFiles_exact {σ : Type} (E : Env σ) (fp : FileProcessor σ)
    (ht : DependencyTracker.Consistent E.path fp.dependencyTracker) (depth : Nat) (s : σ)
    (F distDir srcDir : String) :
    (∀ J, J ∈ DependencyTracker.getAffectedJsFiles E.path fp.dependencyTracker F
        ↔ ∃ F2 ∈ fp.dependencyTracker.dependencies.members J,
            E.path.resolve F2 = E.path.resolve F) ∧
      (∃ rest, DependencyTracker.getAffectedJsFiles E.path fp.dependencyTracker F
        = (FileProcessor.processSrcFileChange E fp depth s F distDir srcDir).called ++ rest) ∧
      (Outcome.unfinished ∉
          (FileProcessor.processSrcFileChange E fp depth s F distDir srcDir).outcomes →
        (FileProcessor.processSrcFileChange E fp depth s F distDir srcDir).called
          = DependencyTracker.getAffectedJsFiles E.path fp.dependencyTracker F) := by
  have h := FileProcessor.processSrcFileChange_called E fp depth s F distDir srcDir
  refine ⟨fun J => ?_, h.1, h.2⟩
  rw [DependencyTracker.getAffectedJsFiles_eq_members]
  exact ht J _

/-- Witness of C6: two entries registered on `a.css`, one of them also on
`b.css`; a change of `a.css` calls `processFile` on both, in order. -/
theorem getAffectedJsFiles_exact_witness :
    (FileProcessor.processSrcFileChange memEnv twoEntriesProcessor 8 (project twoFragments)
        "/w/src/css/a.css" "/w/dist" "/w/src").called
      = ["/w/source/main.js", "/w/source/other.js"] :=
  ((getAffectedJsFiles_exact memEnv twoEntriesProcessor
    (DependencyTracker.consistent_run memEnv.path (posixPath_lawful "/w") twoEntries)
    8 (project twoFragments) "/w/src/css/a.css" "/w/dist" "/w/src").2.2
      (by decide!)).trans (by decide)

/-- C7: in every tracker state whose two maps hold the same edges (every state
reached from a new tracker), after `registerDependencies(E, D)` the forward set
of `E` has exactly the members of `D`, whatever it had before, and `E` is in
`getAffectedJsFiles(F)` if and only if a member of `D` resolves to the file
`F`. -/
theorem registerDependencies_replaces (P : NodePath) (hP : P.Lawful) (t : DependencyTracker)
    (ht : DependencyTracker.Consistent P t) (E : String) (D : List String) :
    (DependencyTracker.registerDependencies P t E D).dependencies.get (P.resolve E)
        = some (JsSet.ofList D) ∧
      (∀ F, F ∈ (DependencyTracker.registerDependencies P t E D).dependencies.members
          (P.resolve E) ↔ F ∈ D) ∧
      (∀ F, P.resolve E ∈ DependencyTracker.getAffectedJsFiles P
          (DependencyTracker.registerDependencies P t E D) F
        ↔ ∃ F2 ∈ D, P.resolve F2 = P.resolve F) := by
  have hfwd := DependencyTracker.registerDependencies_forward P hP t E D (P.resolve E)
  simp only [if_true] at hfwd
  refine ⟨?_, fun F => ?_, fun F => ?_⟩
  · simp [DependencyTracker.registerDependencies, JsMap.get_set_self]
  · rw [hfwd, JsSet.mem_ofList]
  · rw [DependencyTracker.getAffectedJsFiles_eq_members]
    have hcons := DependencyTracker.consistent_registerDependencies P hP t E D ht
      (P.resolve E) (P.resolve F)
    rw [hcons, hfwd]
    simp [JsSet.mem_ofList]

/-- Witness of C7: an entry registered on `x.css` and `y.css` is registered
again on `y.css` alone, by relative paths. -/
theorem registerDependencies_replaces_witness :
    (posixPath "/w").resolve "source/a.js" ∈ DependencyTracker.getAffectedJsFiles (posixPath "/w")
        (DependencyTracker.registerDependencies (posixPath "/w")
          (DependencyTracker.run (posixPath "/w")
            [.register "source/a.js" ["src/css/x.css", "src/css/y.css"]])
          "source/a.js" ["src/css/y.css"]) "/w/src/css/y.css" ∧
      ¬ (posixPath "/w").resolve "source/a.js" ∈ DependencyTracker.getAffectedJsFiles
        (posixPath "/w")
        (DependencyTracker.registerDependencies (posixPath "/w")
          (DependencyTracker.run (posixPath "/w")
            [.register "source/a.js" ["src/css/x.css", "src/css/y.css"]])
          "source/a.js" ["src/css/y.css"]) "/w/src/css/x.css" :=
  ⟨((registerDependencies_replaces (posixPath "/w") (posixPath_lawful "/w") _
      (DependencyTracker.consistent_run (posixPath "/w") (posixPath_lawful "/w")
        [.register "source/a.js" ["src/css/x.css", "src/css/y.css"]]) "source/a.js"
      ["src/css/y.css"]).2.2 "/w/src/css/y.css").mpr (by decide),
   fun h => absurd (((registerDependencies_replaces (posixPath "/w") (posixPath_lawful "/w") _
      (DependencyTracker.consistent_run (posixPath "/w") (posixPath_lawful "/w")
        [.register "source/a.js" ["src/css/x.css", "src/css/y.css"]]) "source/a.js"
      ["src/css/y.css"]).2.2 "/w/src/css/x.css").mp h) (by decide)⟩

/-! ## `processFile`: what each stage leaves unchanged -/

namespace DependencyTracker

variable {σ : Type}

theorem checkDependencies_edges (F : NodeFs σ) (s : σ) (t : DependencyTracker)
    (deps : List String) :
    (checkDependencies F s t deps).2.dependencies = t.dependencies ∧
      (checkDependencies F s t deps).2.reverseDependencies = t.reverseDependencies := by
  induction deps with
  | nil => exact ⟨rfl, rfl⟩
  | cons d rest ih =>
    unfold checkDependencies
    cases hs : FileSystemUtils.getStats F s d with
    | error _ => simp [hs]
    | ok stats =>
      cases hg : t.dependencyCache.get ("dep:" ++ d) with
      | none => simp [hs, hg]
      | some v =>
        cases v with
        | deps _ => simp [hs, hg]
        | stats cached =>
          by_cases hm : stats.mtime = cached.mtime
          · simpa [hs, hg, hm] using ih
          · simp [hs, hg, hm]

theorem registerIfAbsent_error (P : NodePath) (F : NodeFs σ) (s : σ)
    (t : DependencyTracker) (jsFilePath srcDir : String) (e : JsError)
    (h : registerIfAbsent P F s t jsFilePath srcDir = .error e) :
    e = .typeError "object is not iterable" := by
  unfold registerIfAbsent at h
  by_cases hhas : t.dependencies.has (P.resolve jsFilePath) = true
  · simp [hhas] at h
  · simp only [hhas] at h
    rcases ha : analyzeDependencies P F s t jsFilePath srcDir with ⟨v, t1⟩
    rw [ha] at h
    cases v with
    | deps d => simp at h
    | stats st => simpa using h.symm

theorem shouldRegenerateJsFile_error (P : NodePath) (F : NodeFs σ) (s : σ)
    (t : DependencyTracker) (jsFilePath srcDir : String) (e : JsError)
    (h : (shouldRegenerateJsFile P F s t jsFilePath srcDir).1 = .error e) :
    e = .typeError "object is not iterable" := by
  unfold shouldRegenerateJsFile at h
  cases hr : registerIfAbsent P F s t jsFilePath srcDir with
  | error e2 =>
    rw [hr] at h
    simp only [Except.error.injEq] at h
    subst h
    exact registerIfAbsent_error P F s t jsFilePath srcDir _ hr
  | ok t2 =>
    rw [hr] at h
    cases hg : t2.dependencies.get (P.resolve jsFilePath) with
    | none => simp [hg] at h
    | some deps =>
      by_cases h0 : deps.size = 0 <;> simp [hg, h0] at h

theorem shouldRegenerateJsFile_edges (P : NodePath) (F : NodeFs σ) (s : σ)
    (t : DependencyTracker) (jsFilePath srcDir : String)
    (h : t.dependencies.has (P.resolve jsFilePath) = true) :
    (shouldRegenerateJsFile P F s t jsFilePath srcDir).2.dependencies = t.dependencies ∧
      (shouldRegenerateJsFile P F s t jsFilePath srcDir).2.reverseDependencies
        = t.reverseDependencies := by
  have hr : registerIfAbsent P F s t jsFilePath srcDir = .ok t := by
    simp [registerIfAbsent, h]
  unfold shouldRegenerateJsFile
  rw [hr]
  cases hg : t.dependencies.get (P.resolve jsFilePath) with
  | none => simp [hg]
  | some deps =>
    by_cases h0 : deps.size = 0
    · simp [hg, h0]
    · simpa [hg, h0] using checkDependencies_edges F s t deps

end DependencyTracker

namespace FileProcessor

variable {σ : Type}

theorem minified_error (E : Env σ) (debug : Bool) (babelCode sourceFile : String)
    (e : JsError)
    (h : (if debug = true then Except.ok babelCode else minifyCode E babelCode sourceFile)
      = .error e) : ∃ m, e = .buildError m sourceFile := by
  by_cases hd : debug = true
  · simp [hd] at h
  · simp only [hd, if_false] at h
    unfold minifyCode at h
    cases hu : E.uglify babelCode with
    | ok result =>
      simp only [hu] at h
      cases he : result.error with
      | none => simp [he] at h
      | some m2 =>
        simp only [he] at h
        exact ⟨_, by simpa using h.symm⟩
    | error m2 =>
      simp only [hu] at h
      exact ⟨_, by simpa using h.symm⟩

theorem transformWithBabel_error (E : Env σ) (code sourceFile : String) (e : JsError)
    (h : transformWithBabel E code sourceFile = .error e) :
    ∃ m, e = .buildError m sourceFile := by
  unfold transformWithBabel at h
  cases hb : E.babel code sourceFile with
  | ok _ => simp [hb] at h
  | error m =>
    simp only [hb] at h
    exact ⟨_, by simpa using h.symm⟩

theorem writeFile_error (P : NodePath) (F : NodeFs σ) (s s1 : σ) (filePath content : String)
    (e : JsError) (h : FileSystemUtils.writeFile P F s filePath content = (s1, .error e)) :
    e = .fileSystemError ("Cannot write file: " ++ filePath) filePath "write" := by
  unfold FileSystemUtils.writeFile at h
  simp only [] at h
  rcases he : FileSystemUtils.ensureDirectoryExists F s (P.dirname filePath) true with ⟨s0, r0⟩
  cases r0 with
  | error _ =>
    simp only [he, Prod.mk.injEq, Except.error.injEq] at h
    exact h.2.symm
  | ok _ =>
    simp only [he] at h
    rcases hw : F.writeFile s0 filePath content with ⟨s2, b⟩
    cases b with
    | true => simp [hw] at h
    | false =>
      simp only [hw, Prod.mk.injEq, Except.error.injEq] at h
      exact h.2.symm

/-- The three ways `emit` ends. -/
theorem emit_cases (E : Env σ) (fp : FileProcessor σ) (s : σ)
    (sourceFile distFile processedData : String) (calls : List (String × String)) :
    (∃ m, emit E fp s sourceFile distFile processedData calls
        = ⟨.failed (.buildError m sourceFile), fp, s, calls, []⟩) ∨
      (∃ s1 finalCode, emit E fp s sourceFile distFile processedData calls
        = ⟨.failed (.fileSystemError ("Cannot write file: " ++ distFile) distFile "write"),
            fp, s1, calls, [(distFile, finalCode)]⟩) ∨
      (∃ s1 finalCode cache, cache.fileHashes = fp.cache.fileHashes ∧
        emit E fp s sourceFile distFile processedData calls
          = ⟨.generated distFile finalCode,
              { fp with cache := cache,
                        processedFiles := JsSet.add fp.processedFiles sourceFile },
              s1, calls, [(distFile, finalCode)]⟩) := by
  unfold emit
  cases hb : transformWithBabel E processedData sourceFile with
  | error e =>
    obtain ⟨m, rfl⟩ := transformWithBabel_error E _ _ e hb
    exact Or.inl ⟨m, rfl⟩
  | ok babelCode =>
    simp only []
    cases hm : (if fp.debug = true then Except.ok babelCode
        else minifyCode E babelCode sourceFile) with
    | error e =>
      obtain ⟨m, rfl⟩ := minified_error E _ _ _ e hm
      exact Or.inl ⟨m, rfl⟩
    | ok finalCode =>
      simp only []
      rcases hw : FileSystemUtils.writeFile E.path E.fs s distFile finalCode with ⟨s1, res⟩
      cases res with
      | error e =>
        have he := writeFile_error E.path E.fs s s1 distFile finalCode e hw
        subst he
        exact Or.inr (Or.inl ⟨s1, finalCode, rfl⟩)
      | ok u =>
        refine Or.inr (Or.inr ⟨s1, finalCode, _, ?_, rfl⟩)
        simp only [CacheManager.setCache]
        cases FileSystemUtils.getStats E.fs s1 sourceFile <;> rfl

theorem runPlugins_error (E : Env σ) (fp : FileProcessor σ) (s : σ) (files : List String)
    (content : String) (calls : List (String × String)) (e : JsError)
    (h : (runPlugins E fp s files content calls).1 = .error e) :
    ∃ m x y, e = .pluginError m x y := by
  induction files generalizing content calls with
  | nil => simp [runPlugins] at h
  | cons f rest ih =>
    unfold runPlugins at h
    simp only [] at h
    cases hp : fp.plugins (removeFirstDot (E.path.extname f)) with
    | none =>
      simp only [hp, Except.error.injEq] at h
      exact ⟨_, _, _, h.symm⟩
    | some plugin =>
      simp only [hp] at h
      cases hr : plugin s content f (E.path.basenameExt f (E.path.extname f))
          (removeFirstDot (E.path.extname f)) with
      | ok out =>
        simp only [hr] at h
        exact ih _ _ h
      | error m =>
        simp only [hr, Except.error.injEq] at h
        exact ⟨_, _, _, h.symm⟩

theorem processWithPlugins_error (E : Env σ) (fp : FileProcessor σ) (depth : Nat) (s : σ)
    (content srcDir sourceFile : String) (e : JsError) (calls : List (String × String))
    (h : processWithPlugins E fp depth s content srcDir sourceFile = some (.error e, calls)) :
    (∃ m, e = .buildError m sourceFile) ∨ ∃ m x y, e = .pluginError m x y := by
  unfold processWithPlugins at h
  cases hg : FileSystemUtils.getAllFilesFromDirectory E.path E.fs s depth srcDir [] false with
  | none => simp [hg] at h
  | some r =>
    cases r with
    | error e2 =>
      simp only [hg, Option.some.injEq, Prod.mk.injEq, Except.error.injEq] at h
      exact Or.inl ⟨_, h.1.symm⟩
    | ok allFiles =>
      simp only [hg] at h
      by_cases h0 : (allFiles.filter (isSupportFile E fp)).length = 0
      · simp [h0] at h
      · simp only [h0, if_false, Option.some.injEq] at h
        refine Or.inr (runPlugins_error E fp s (allFiles.filter (isSupportFile E fp))
          content [] e ?_)
        rw [h]

/-- The ways `build` ends. -/
theorem build_cases (E : Env σ) (fp : FileProcessor σ) (depth : Nat) (s : σ)
    (sourceFile distDir srcDir : String) :
    (∃ m p op, build E fp depth s sourceFile distDir srcDir
        = ⟨.failed (.fileSystemError m p op), fp, s, [], []⟩) ∨
      build E fp depth s sourceFile distDir srcDir = ⟨.directory, fp, s, [], []⟩ ∨
      build E fp depth s sourceFile distDir srcDir = ⟨.unfinished, fp, s, [], []⟩ ∨
      (∃ content m calls, E.fs.readFile s sourceFile = some content ∧
        build E fp depth s sourceFile distDir srcDir
          = ⟨.failed (.buildError m sourceFile), fp, s, calls, []⟩) ∨
      (∃ content m x y calls, E.fs.readFile s sourceFile = some content ∧
        build E fp depth s sourceFile distDir srcDir
          = ⟨.failed (.pluginError m x y), fp, s, calls, []⟩) ∨
      (∃ content distFile processed calls, E.fs.readFile s sourceFile = some content ∧
        build E fp depth s sourceFile distDir srcDir
          = emit E fp s sourceFile distFile processed calls) := by
  unfold build
  cases hs : FileSystemUtils.getStats E.fs s sourceFile with
  | error e =>
    have : ∃ m p op, e = .fileSystemError m p op := by
      unfold FileSystemUtils.getStats at hs
      cases hst : E.fs.stat s sourceFile with
      | some _ => simp [hst] at hs
      | none =>
        simp only [hst] at hs
        exact ⟨_, _, _, by simpa using hs.symm⟩
    obtain ⟨m, p, op, rfl⟩ := this
    exact Or.inl ⟨m, p, op, rfl⟩
  | ok stats =>
    simp only []
    by_cases hd : stats.isDirectory = true
    · simp [hd]
    · simp only [hd, if_false]
      cases hr : FileSystemUtils.readFile E.fs s sourceFile with
      | error e =>
        have : ∃ m p op, e = .fileSystemError m p op := by
          unfold FileSystemUtils.readFile at hr
          cases hrd : E.fs.readFile s sourceFile with
          | some _ => simp [hrd] at hr
          | none =>
            simp only [hrd] at hr
            exact ⟨_, _, _, by simpa using hr.symm⟩
        obtain ⟨m, p, op, rfl⟩ := this
        exact Or.inl ⟨m, p, op, rfl⟩
      | ok sourceData =>
        have hread : E.fs.readFile s sourceFile = some sourceData := by
          unfold FileSystemUtils.readFile at hr
          cases hrd : E.fs.readFile s sourceFile with
          | some c =>
            simp only [hrd] at hr
            simpa using hr
          | none => simp [hrd] at hr
        simp only []
        cases hp : processWithPlugins E fp depth s sourceData srcDir sourceFile with
        | none => exact Or.inr (Or.inr (Or.inl rfl))
        | some r =>
          rcases r with ⟨res, calls⟩
          cases res with
          | error e =>
            rcases processWithPlugins_error E fp depth s _ _ _ e calls hp with
              ⟨m, rfl⟩ | ⟨m, x, y, rfl⟩
            · exact Or.inr (Or.inr (Or.inr (Or.inl ⟨sourceData, m, calls, hread, rfl⟩)))
            · exact Or.inr (Or.inr (Or.inr (Or.inr (Or.inl
                ⟨sourceData, m, x, y, calls, hread, rfl⟩))))
          | ok processedData =>
            exact Or.inr (Or.inr (Or.inr (Or.inr (Or.inr
              ⟨sourceData, _, processedData, calls, hread, rfl⟩))))

theorem build_outcome_ne_skipped (E : Env σ) (fp : FileProcessor σ) (depth : Nat) (s : σ)
    (sourceFile distDir srcDir : String) :
    (build E fp depth s sourceFile distDir srcDir).outcome ≠ .skipped := by
  rcases build_cases E fp depth s sourceFile distDir srcDir with
    ⟨m, p, op, h⟩ | h | h | ⟨c, m, calls, _, h⟩ | ⟨c, m, x, y, calls, _, h⟩ |
    ⟨c, d, pr, calls, _, h⟩
  · rw [h]; simp
  · rw [h]; simp
  · rw [h]; simp
  · rw [h]; simp
  · rw [h]; simp
  · rw [h]
    rcases emit_cases E fp s sourceFile d pr calls with
      ⟨m, h2⟩ | ⟨s1, fc, h2⟩ | ⟨s1, fc, cache, _, h2⟩
    · rw [h2]; simp
    · rw [h2]; simp
    · rw [h2]; simp

theorem build_processor (E : Env σ) (fp : FileProcessor σ) (depth : Nat) (s : σ)
    (sourceFile distDir srcDir : String) :
    (build E fp depth s sourceFile distDir srcDir).processor.dependencyTracker
        = fp.dependencyTracker ∧
      (build E fp depth s sourceFile distDir srcDir).processor.cache.fileHashes
        = fp.cache.fileHashes := by
  rcases build_cases E fp depth s sourceFile distDir srcDir with
    ⟨m, p, op, h⟩ | h | h | ⟨c, m, calls, _, h⟩ | ⟨c, m, x, y, calls, _, h⟩ |
    ⟨c, d, pr, calls, _, h⟩
  · rw [h]; exact ⟨rfl, rfl⟩
  · rw [h]; exact ⟨rfl, rfl⟩
  · rw [h]; exact ⟨rfl, rfl⟩
  · rw [h]; exact ⟨rfl, rfl⟩
  · rw [h]; exact ⟨rfl, rfl⟩
  · rw [h]
    rcases emit_cases E fp s sourceFile d pr calls with
      ⟨m, h2⟩ | ⟨s1, fc, h2⟩ | ⟨s1, fc, cache, hc, h2⟩
    · rw [h2]; exact ⟨rfl, rfl⟩
    · rw [h2]; exact ⟨rfl, rfl⟩
    · rw [h2]; exact ⟨rfl, hc⟩

theorem build_pluginError (E : Env σ) (fp : FileProcessor σ) (depth : Nat) (s : σ)
    (sourceFile distDir srcDir m x y : String)
    (h : (build E fp depth s sourceFile distDir srcDir).outcome = .failed (.pluginError m x y)) :
    (build E fp depth s sourceFile distDir srcDir).processor = fp ∧
      (build E fp depth s sourceFile distDir srcDir).world = s ∧
      (build E fp depth s sourceFile distDir srcDir).writes = [] ∧
      ∃ content, E.fs.readFile s sourceFile = some content := by
  rcases build_cases E fp depth s sourceFile distDir srcDir with
    ⟨m2, p, op, h2⟩ | h2 | h2 | ⟨c, m2, calls, _, h2⟩ | ⟨c, m2, x2, y2, calls, hc, h2⟩ |
    ⟨c, d, pr, calls, _, h2⟩
  · rw [h2] at h; simp at h
  · rw [h2] at h; simp at h
  · rw [h2] at h; simp at h
  · rw [h2] at h; simp at h
  · rw [h2]; exact ⟨rfl, rfl, rfl, c, hc⟩
  · rw [h2] at h
    rcases emit_cases E fp s sourceFile d pr calls with
      ⟨m3, h3⟩ | ⟨s1, fc, h3⟩ | ⟨s1, fc, cache, _, h3⟩
    · rw [h3] at h; simp at h
    · rw [h3] at h; simp at h
    · rw [h3] at h; simp at h

end FileProcessor

namespace FileProcessor

variable {σ : Type}

theorem processFile_eq (E : Env σ) (fp : FileProcessor σ) (depth : Nat) (s : σ)
    (sourceFile distDir srcDir : String) :
    processFile E fp depth s sourceFile distDir srcDir =
      match (DependencyTracker.shouldRegenerateJsFile E.path E.fs s fp.dependencyTracker
          sourceFile srcDir).1 with
      | .error e =>
        ⟨.failed e,
          { fp with
            cache := (CacheManager.hasFileContentChanged E.path E.fs s fp.cache sourceFile).2,
            dependencyTracker := (DependencyTracker.shouldRegenerateJsFile E.path E.fs s
              fp.dependencyTracker sourceFile srcDir).2 }, s, [], []⟩
      | .ok dependenciesChanged =>
        if (!(CacheManager.hasFileContentChanged E.path E.fs s fp.cache sourceFile).1
            && !dependenciesChanged) = true then
          ⟨.skipped,
            { fp with
              cache := (CacheManager.hasFileContentChanged E.path E.fs s fp.cache sourceFile).2,
              dependencyTracker := (DependencyTracker.shouldRegenerateJsFile E.path E.fs s
                fp.dependencyTracker sourceFile srcDir).2 }, s, [], []⟩
        else
          build E
            { fp with
              cache := (CacheManager.hasFileContentChanged E.path E.fs s fp.cache sourceFile).2,
              dependencyTracker := (DependencyTracker.shouldRegenerateJsFile E.path E.fs s
                fp.dependencyTracker sourceFile srcDir).2 }
            depth s sourceFile distDir srcDir := by
  unfold processFile
  rcases CacheManager.hasFileContentChanged E.path E.fs s fp.cache sourceFile with ⟨b, c⟩
  rcases DependencyTracker.shouldRegenerateJsFile E.path E.fs s fp.dependencyTracker
    sourceFile srcDir with ⟨r, t⟩
  cases r <;> rfl

theorem processFile_processor (E : Env σ) (fp : FileProcessor σ) (depth : Nat) (s : σ)
    (sourceFile distDir srcDir : String) :
    (processFile E fp depth s sourceFile distDir srcDir).processor.dependencyTracker
        = (DependencyTracker.shouldRegenerateJsFile E.path E.fs s fp.dependencyTracker
            sourceFile srcDir).2 ∧
      (processFile E fp depth s sourceFile distDir srcDir).processor.cache.fileHashes
        = (CacheManager.hasFileContentChanged E.path E.fs s fp.cache sourceFile).2.fileHashes := by
  rw [processFile_eq]
  cases (DependencyTracker.shouldRegenerateJsFile E.path E.fs s fp.dependencyTracker
      sourceFile srcDir).1 with
  | error e => exact ⟨rfl, rfl⟩
  | ok b =>
    simp only []
    split
    · exact ⟨rfl, rfl⟩
    · exact build_processor E _ depth s sourceFile distDir srcDir

theorem processFile_edges (E : Env σ) (fp : FileProcessor σ) (depth : Nat) (s : σ)
    (sourceFile distDir srcDir : String)
    (h : fp.dependencyTracker.dependencies.has (E.path.resolve sourceFile) = true) :
    (processFile E fp depth s sourceFile distDir srcDir).processor.dependencyTracker.dependencies
        = fp.dependencyTracker.dependencies ∧
      (processFile E fp depth s sourceFile distDir
          srcDir).processor.dependencyTracker.reverseDependencies
        = fp.dependencyTracker.reverseDependencies := by
  rw [(processFile_processor E fp depth s sourceFile distDir srcDir).1]
  exact DependencyTracker.shouldRegenerateJsFile_edges E.path E.fs s _ sourceFile srcDir h

end FileProcessor

/-! ## `processFile` keeps the edge maps consistent -/

namespace DependencyTracker

variable {σ : Type}

theorem analyzeDependencies_edges (P : NodePath) (F : NodeFs σ) (s : σ) (t : DependencyTracker)
    (jsFilePath srcDir : String) :
    (analyzeDependencies P F s t jsFilePath srcDir).2.dependencies = t.dependencies ∧
      (analyzeDependencies P F s t jsFilePath srcDir).2.reverseDependencies
        = t.reverseDependencies := by
  simp only [analyzeDependencies]
  cases hc : t.dependencyCache.get (jsFilePath ++ ":" ++ srcDir) with
  | some v => simp [hc]
  | none =>
    cases hr : FileSystemUtils.readFile F s jsFilePath with
    | error e => simp [hc, hr]
    | ok content => simp [hc, hr]

theorem consistent_of_edges (P : NodePath) (t t2 : DependencyTracker)
    (h1 : t2.dependencies = t.dependencies)
    (h2 : t2.reverseDependencies = t.reverseDependencies) (h : Consistent P t) :
    Consistent P t2 := by
  intro E G
  rw [h1, h2]
  exact h E G

theorem consistent_shouldRegenerateJsFile (P : NodePath) (hP : P.Lawful) (F : NodeFs σ) (s : σ)
    (t : DependencyTracker) (jsFilePath srcDir : String) (h : Consistent P t) :
    Consistent P (shouldRegenerateJsFile P F s t jsFilePath srcDir).2 := by
  unfold shouldRegenerateJsFile
  cases hr : registerIfAbsent P F s t jsFilePath srcDir with
  | error e => simpa [hr] using h
  | ok t2 =>
    have h2 : Consistent P t2 := by
      unfold registerIfAbsent at hr
      by_cases hhas : t.dependencies.has (P.resolve jsFilePath) = true
      · simp only [hhas, if_true, Except.ok.injEq] at hr
        exact hr ▸ h
      · simp only [hhas] at hr
        have hedges := analyzeDependencies_edges P F s t jsFilePath srcDir
        rcases ha : analyzeDependencies P F s t jsFilePath srcDir with ⟨v, t1⟩
        rw [ha] at hr hedges
        cases v with
        | stats st => simp at hr
        | deps d =>
          simp only [Bool.false_eq_true, if_false, Except.ok.injEq] at hr
          rw [← hr]
          exact consistent_registerDependencies P hP t1 jsFilePath d
            (consistent_of_edges P t t1 hedges.1 hedges.2 h)
    simp only [hr]
    cases hg : t2.dependencies.get (P.resolve jsFilePath) with
    | none => simpa [hg] using h2
    | some deps =>
      by_cases h0 : deps.size = 0
      · simpa [hg, h0] using h2
      · simp only [hg, h0, if_false]
        have hc := checkDependencies_edges F s t2 deps
        exact consistent_of_edges P t2 _ hc.1 hc.2 h2

end DependencyTracker

theorem FileProcessor.consistent_processFile {σ : Type} (E : Env σ) (hP : E.path.Lawful)
    (fp : FileProcessor σ) (depth : Nat) (s : σ) (sourceFile distDir srcDir : String)
    (h : DependencyTracker.Consistent E.path fp.dependencyTracker) :
    DependencyTracker.Consistent E.path
      (FileProcessor.processFile E fp depth s sourceFile distDir srcDir).processor.dependencyTracker
      := by
  rw [(FileProcessor.processFile_processor E fp depth s sourceFile distDir srcDir).1]
  exact DependencyTracker.consistent_shouldRegenerateJsFile E.path hP E.fs s _ sourceFile srcDir h

/-! ## Claims on `processFile` -/

/-- C2, the code at a failing input: the entry references two fragments; the
first `processFile` generates the output, and the second one, with nothing
modified in between, again calls the plugin on both fragments and writes the
(same) output. -/
theorem processFile_second_call_rebuilds :
    firstBuild.outcome = .generated "/w/dist/main.js"
        "minified_transformed_\x7b\x7bcss/a\x7d\x7d \x7b\x7bcss/b\x7d\x7d/* processed css *//* processed css */" ∧
      (processMain firstBuild.processor firstBuild.world).outcome = firstBuild.outcome ∧
      (processMain firstBuild.processor firstBuild.world).pluginCalls
        = [("css", "/w/src/css/a.css"), ("css", "/w/src/css/b.css")] ∧
      (processMain firstBuild.processor firstBuild.world).writes = firstBuild.writes ∧
      firstBuild.writes ≠ [] := by
  decide!

/-- C3 fails as stated: on a new processor, a `processFile` that fails in the
`css` plugin has stored the entry's fingerprint and registered its edges. -/
theorem processFile_failure_commits_hash_and_edges :
    failedBuild.outcome
        = .failed (.pluginError "Plugin css failed: Plugin failed" "css" "/w/src/css/a.css") ∧
      CacheManager.getFileHash memEnv.path
        (FileProcessor.new rejectingPlugins false).cache "/w/source/main.js" = none ∧
      CacheManager.getFileHash memEnv.path failedBuild.processor.cache "/w/source/main.js"
        = some "7e99835edc41172a77a2c8ca4a5acfcf" ∧
      (FileProcessor.new rejectingPlugins false).dependencyTracker.dependencies.get
        "/w/source/main.js" = none ∧
      failedBuild.processor.dependencyTracker.dependencies.get "/w/source/main.js"
        = some ["/w/src/css/a.css", "/w/src/css/b.css"] ∧
      DependencyTracker.getAffectedJsFiles memEnv.path failedBuild.processor.dependencyTracker
        "/w/src/css/a.css" = ["/w/source/main.js"] := by
  decide!

/-- C3, as the code has it: when `processFile(E)` fails because a plugin call
fails, every cache record and timestamp, `processedFiles` and the file system
are as before the call and nothing is written; the stored fingerprint of `E`
is the digest of its current content; and the edge maps are as before the call
when `E` already had a forward set. -/
theorem processFile_plugin_failure {σ : Type} (E : Env σ) (fp : FileProcessor σ) (depth : Nat)
    (s : σ) (sourceFile distDir srcDir m x y : String)
    (h : (FileProcessor.processFile E fp depth s sourceFile distDir srcDir).outcome
      = .failed (.pluginError m x y)) :
    (FileProcessor.processFile E fp depth s sourceFile distDir srcDir).processor.cache.cache
        = fp.cache.cache ∧
      (FileProcessor.processFile E fp depth s sourceFile distDir
          srcDir).processor.cache.fileTimestamps = fp.cache.fileTimestamps ∧
      (FileProcessor.processFile E fp depth s sourceFile distDir srcDir).processor.processedFiles
        = fp.processedFiles ∧
      (FileProcessor.processFile E fp depth s sourceFile distDir srcDir).world = s ∧
      (FileProcessor.processFile E fp depth s sourceFile distDir srcDir).writes = [] ∧
      (∃ content, E.fs.readFile s sourceFile = some content ∧
        CacheManager.getFileHash E.path
          (FileProcessor.processFile E fp depth s sourceFile distDir srcDir).processor.cache
          sourceFile = some (md5 content)) ∧
      (fp.dependencyTracker.dependencies.has (E.path.resolve sourceFile) = true →
        (FileProcessor.processFile E fp depth s sourceFile distDir
            srcDir).processor.dependencyTracker.dependencies
          = fp.dependencyTracker.dependencies ∧
        (FileProcessor.processFile E fp depth s sourceFile distDir
            srcDir).processor.dependencyTracker.reverseDependencies
          = fp.dependencyTracker.reverseDependencies) := by
  rw [FileProcessor.processFile_eq] at h ⊢
  cases hsr : (DependencyTracker.shouldRegenerateJsFile E.path E.fs s fp.dependencyTracker
      sourceFile srcDir).1 with
  | error e =>
    have he := DependencyTracker.shouldRegenerateJsFile_error E.path E.fs s _ _ _ e hsr
    subst he
    simp [hsr] at h
  | ok b =>
    simp only [hsr] at h ⊢
    split at h
    · simp at h
    · rename_i hskip
      rw [if_neg hskip]
      obtain ⟨hp, hw, hwr, content, hread⟩ :=
        FileProcessor.build_pluginError E _ depth s sourceFile distDir srcDir m x y h
      have hrec := CacheManager.hasFileContentChanged_records E.path E.fs s fp.cache
        sourceFile
      rw [hp]
      refine ⟨hrec.1, hrec.2, rfl, hw, hwr, ⟨content, hread, ?_⟩, fun hhas => ?_⟩
      · exact CacheManager.hasFileContentChanged_commits E.path E.fs s fp.cache sourceFile
          content hread
      · exact DependencyTracker.shouldRegenerateJsFile_edges E.path E.fs s _ sourceFile
          srcDir hhas

/-- Witness of C3 as amended: the failing call of `failedBuild`, repeated on
the processor it leaves (which has the edges registered). -/
theorem processFile_plugin_failure_witness :
    (FileProcessor.processFile memEnv failedBuild.processor 8 failedBuild.world
        "/w/source/main.js" "/w/dist" "/w/src").outcome
        = .failed (.pluginError "Plugin css failed: Plugin failed" "css" "/w/src/css/a.css") ∧
      (FileProcessor.processFile memEnv failedBuild.processor 8 failedBuild.world
        "/w/source/main.js" "/w/dist" "/w/src").world = failedBuild.world ∧
      (FileProcessor.processFile memEnv failedBuild.processor 8 failedBuild.world
        "/w/source/main.js" "/w/dist" "/w/src").processor.dependencyTracker.dependencies
        = failedBuild.processor.dependencyTracker.dependencies :=
  have hfail : (FileProcessor.processFile memEnv failedBuild.processor 8 failedBuild.world
      "/w/source/main.js" "/w/dist" "/w/src").outcome
      = .failed (.pluginError "Plugin css failed: Plugin failed" "css" "/w/src/css/a.css") := by
    decide!
  have hhas : failedBuild.processor.dependencyTracker.dependencies.has
      (memEnv.path.resolve "/w/source/main.js") = true := by
    decide!
  have h := processFile_plugin_failure memEnv failedBuild.processor 8 failedBuild.world
    "/w/source/main.js" "/w/dist" "/w/src" "Plugin css failed: Plugin failed" "css"
    "/w/src/css/a.css" hfail
  ⟨hfail, h.2.2.2.1, (h.2.2.2.2.2.2 hhas).1⟩

/-- C4 fails as stated: the entry has no placeholder and the `css` plugin
rejects, so the first `processFile` fails; with the file system unchanged, the
next `processFile` skips the entry and calls no plugin. -/
theorem processFile_failed_entry_is_skipped :
    failedPlainBuild.outcome
        = .failed (.pluginError "Plugin css failed: Plugin failed" "css" "/w/src/css/a.css") ∧
      failedPlainBuild.world = project "console.log(1)" ∧
      (processMain failedPlainBuild.processor failedPlainBuild.world).outcome = .skipped ∧
      (processMain failedPlainBuild.processor failedPlainBuild.world).pluginCalls = [] := by
  decide!

/-- C4, as the code has it: after a `processFile(E)` that failed, with `E`
readable and its content unchanged, the next `processFile(E)` skips `E` exactly
when `shouldRegenerateJsFile` returns false (no failure is remembered); in
particular it skips `E` when the forward set of `E` is empty. -/
theorem processFile_after_failure {σ : Type} (E : Env σ) (fp : FileProcessor σ) (depth : Nat)
    (s s2 : σ) (sourceFile distDir srcDir content : String) (e : JsError)
    (_hfail : (FileProcessor.processFile E fp depth s sourceFile distDir srcDir).outcome
      = .failed e)
    (hread : E.fs.readFile s sourceFile = some content)
    (hread2 : E.fs.readFile s2 sourceFile = some content) :
    ((FileProcessor.processFile E
          (FileProcessor.processFile E fp depth s sourceFile distDir srcDir).processor
          depth s2 sourceFile distDir srcDir).outcome = .skipped ↔
        (DependencyTracker.shouldRegenerateJsFile E.path E.fs s2
          (FileProcessor.processFile E fp depth s sourceFile distDir
            srcDir).processor.dependencyTracker sourceFile srcDir).1 = .ok false) ∧
      ((FileProcessor.processFile E fp depth s sourceFile distDir
          srcDir).processor.dependencyTracker.dependencies.get (E.path.resolve sourceFile)
          = some [] →
        (FileProcessor.processFile E
          (FileProcessor.processFile E fp depth s sourceFile distDir srcDir).processor
          depth s2 sourceFile distDir srcDir).outcome = .skipped) := by
  have hstored : CacheManager.getFileHash E.path
      (FileProcessor.processFile E fp depth s sourceFile distDir srcDir).processor.cache
      sourceFile = some (md5 content) := by
    have h1 := (FileProcessor.processFile_processor E fp depth s sourceFile distDir srcDir).2
    have h2 := CacheManager.hasFileContentChanged_commits E.path E.fs s fp.cache sourceFile
      content hread
    simp only [CacheManager.getFileHash] at h2 ⊢
    rw [h1]
    exact h2
  have hunchanged : (CacheManager.hasFileContentChanged E.path E.fs s2
      (FileProcessor.processFile E fp depth s sourceFile distDir srcDir).processor.cache
      sourceFile).1 = false := by
    rw [CacheManager.hasFileContentChanged_of_stored E.path E.fs s2 _ sourceFile content
      (md5 content) hread2 hstored (md5_ne_empty content)]
    simp
  have hiff : (FileProcessor.processFile E
        (FileProcessor.processFile E fp depth s sourceFile distDir srcDir).processor
        depth s2 sourceFile distDir srcDir).outcome = .skipped ↔
      (DependencyTracker.shouldRegenerateJsFile E.path E.fs s2
        (FileProcessor.processFile E fp depth s sourceFile distDir
          srcDir).processor.dependencyTracker sourceFile srcDir).1 = .ok false := by
    rw [FileProcessor.processFile_eq]
    cases hsr : (DependencyTracker.shouldRegenerateJsFile E.path E.fs s2
        (FileProcessor.processFile E fp depth s sourceFile distDir
          srcDir).processor.dependencyTracker sourceFile srcDir).1 with
    | error e2 => simp
    | ok b =>
      simp only [hunchanged]
      cases b with
      | false => simp
      | true =>
        simp only [Bool.not_false, Bool.not_true, Bool.and_false, Bool.false_eq_true,
          if_false, Except.ok.injEq]
        constructor
        · intro h
          exact absurd h (FileProcessor.build_outcome_ne_skipped E _ depth s2 sourceFile
            distDir srcDir)
        · intro h
          exact absurd h (by simp)
  refine ⟨hiff, fun hget => hiff.mpr ?_⟩
  have hhas : (FileProcessor.processFile E fp depth s sourceFile distDir
      srcDir).processor.dependencyTracker.dependencies.has (E.path.resolve sourceFile)
      = true := by
    simp [JsMap.has, hget]
  simp [DependencyTracker.shouldRegenerateJsFile, DependencyTracker.registerIfAbsent, hhas,
    hget, JsSet.size]

/-- Witness of C4 as amended: the failed build of the entry without
placeholders, then the next call on the unchanged file system. -/
theorem processFile_after_failure_witness :
    (FileProcessor.processFile memEnv
        (FileProcessor.processFile memEnv (FileProcessor.new rejectingPlugins false) 8
          (project "console.log(1)") "/w/source/main.js" "/w/dist" "/w/src").processor
        8 (project "console.log(1)") "/w/source/main.js" "/w/dist" "/w/src").outcome
      = .skipped :=
  (processFile_after_failure memEnv (FileProcessor.new rejectingPlugins false) 8
    (project "console.log(1)") (project "console.log(1)") "/w/source/main.js" "/w/dist"
    "/w/src" "console.log(1)"
    (.pluginError "Plugin css failed: Plugin failed" "css" "/w/src/css/a.css")
    (by decide!) (by decide!) (by decide!)).2 (by decide!)

/-- C5 fails as stated: after a first build registered the edges to `a.css` and
`b.css`, the entry is rewritten to reference `a.css` only; the next
`processFile` succeeds and `getAffectedJsFiles(b.css)` still holds the entry. -/
theorem processFile_keeps_stale_edge :
    placeholders "\x7b\x7bcss/a\x7d\x7d" = [("css", "a")] ∧
      (processMain firstBuild.processor
        (editMain firstBuild.world "\x7b\x7bcss/a\x7d\x7d")).outcome
        = .generated "/w/dist/main.js"
            "minified_transformed_\x7b\x7bcss/a\x7d\x7d/* processed css *//* processed css */" ∧
      "/w/source/main.js" ∈ DependencyTracker.getAffectedJsFiles memEnv.path
        (processMain firstBuild.processor
          (editMain firstBuild.world "\x7b\x7bcss/a\x7d\x7d")).processor.dependencyTracker
        "/w/src/css/b.css" := by
  decide!

/-- C5, as the code has it: when `E` already has a forward set, `processFile(E)`
leaves the forward and the reverse map as they were, whatever the content of
`E` now is and however the call ends, so `getAffectedJsFiles(F)` is the same
after the call as before it: edges are analysed and registered only for an
entry without a forward set. -/
theorem processFile_keeps_registered_edges {σ : Type} (E : Env σ) (fp : FileProcessor σ)
    (depth : Nat) (s : σ) (sourceFile distDir srcDir : String)
    (h : fp.dependencyTracker.dependencies.has (E.path.resolve sourceFile) = true) :
    (FileProcessor.processFile E fp depth s sourceFile distDir
        srcDir).processor.dependencyTracker.dependencies = fp.dependencyTracker.dependencies ∧
      (FileProcessor.processFile E fp depth s sourceFile distDir
        srcDir).processor.dependencyTracker.reverseDependencies
        = fp.dependencyTracker.reverseDependencies ∧
      ∀ F, DependencyTracker.getAffectedJsFiles E.path
          (FileProcessor.processFile E fp depth s sourceFile distDir
            srcDir).processor.dependencyTracker F
        = DependencyTracker.getAffectedJsFiles E.path fp.dependencyTracker F := by
  obtain ⟨h1, h2⟩ := FileProcessor.processFile_edges E fp depth s sourceFile distDir srcDir h
  refine ⟨h1, h2, fun F => ?_⟩
  simp only [DependencyTracker.getAffectedJsFiles, h2]

/-- Witness of C5 as amended: the rebuild of the rewritten entry. -/
theorem processFile_keeps_registered_edges_witness :
    DependencyTracker.getAffectedJsFiles memEnv.path
        (FileProcessor.processFile memEnv firstBuild.processor 8
          (editMain firstBuild.world "\x7b\x7bcss/a\x7d\x7d") "/w/source/main.js" "/w/dist"
          "/w/src").processor.dependencyTracker "/w/src/css/b.css"
      = DependencyTracker.getAffectedJsFiles memEnv.path firstBuild.processor.dependencyTracker
          "/w/src/css/b.css" :=
  (processFile_keeps_registered_edges memEnv firstBuild.processor 8
    (editMain firstBuild.world "\x7b\x7bcss/a\x7d\x7d") "/w/source/main.js" "/w/dist"
    "/w/src" (by decide!)).2.2 "/w/src/css/b.css"

/-! ## Claims on failures -/

/-- C11: for every cache state and every path that cannot be read,
`hasFileContentChanged` returns `true` (it returns a value, the error of the
read is caught) and the cache manager afterwards is the one before: the stored
hashes, the cache records and the timestamps are unchanged. -/
theorem hasFileContentChanged_fail_open {ρ σ : Type} (P : NodePath) (F : NodeFs σ) (s : σ)
    (c : CacheManager ρ) (filePath : String) (h : F.readFile s filePath = none) :
    CacheManager.hasFileContentChanged P F s c filePath = (true, c) := by
  simp [CacheManager.hasFileContentChanged, FileSystemUtils.getFileHash,
    FileSystemUtils.readFile, h]

/-- Witness of C11: a path that does not exist, on a cache manager that holds
a hash. -/
theorem hasFileContentChanged_fail_open_witness :
    (MemWorld.nodeFs (posixPath "/w")).readFile (oneFile "abc") "/w/missing.txt" = none ∧
      CacheManager.hasFileContentChanged (posixPath "/w") (MemWorld.nodeFs (posixPath "/w"))
          (oneFile "abc")
          (CacheManager.setFileHash (posixPath "/w") (CacheManager.new : CacheManager CacheRecord)
            "/w/a.txt" "h")
          "/w/missing.txt"
        = (true, CacheManager.setFileHash (posixPath "/w") CacheManager.new "/w/a.txt" "h") :=
  ⟨by decide, hasFileContentChanged_fail_open _ _ _ _ _ (by decide)⟩

namespace FileProcessor

variable {σ : Type}

theorem build_transformer_failure (E : Env σ) (fp : FileProcessor σ) (depth : Nat) (s : σ)
    (sourceFile distDir srcDir : String)
    (h : (∃ m x y, (build E fp depth s sourceFile distDir srcDir).outcome
          = .failed (.pluginError m x y)) ∨
      ∃ m f, (build E fp depth s sourceFile distDir srcDir).outcome
          = .failed (.buildError m f)) :
    (build E fp depth s sourceFile distDir srcDir).world = s ∧
      (build E fp depth s sourceFile distDir srcDir).writes = [] := by
  rcases build_cases E fp depth s sourceFile distDir srcDir with
    ⟨m2, p, op, h2⟩ | h2 | h2 | ⟨c, m2, calls, _, h2⟩ | ⟨c, m2, x2, y2, calls, hc, h2⟩ |
    ⟨c, d, pr, calls, _, h2⟩
  · rw [h2]; exact ⟨rfl, rfl⟩
  · rw [h2]; exact ⟨rfl, rfl⟩
  · rw [h2]; exact ⟨rfl, rfl⟩
  · rw [h2]; exact ⟨rfl, rfl⟩
  · rw [h2]; exact ⟨rfl, rfl⟩
  · rw [h2] at h ⊢
    rcases emit_cases E fp s sourceFile d pr calls with
      ⟨m3, h3⟩ | ⟨s1, fc, h3⟩ | ⟨s1, fc, cache, _, h3⟩
    · rw [h3]; exact ⟨rfl, rfl⟩
    · rw [h3] at h; simp at h
    · rw [h3] at h; simp at h

end FileProcessor

/-- C13: if `processFile` ends with the error of a plugin call (`PluginError`)
or of the Babel or minification step (`BuildError`), the file system after the
call is the one before it and `FileSystemUtils.writeFile` was not called. -/
theorem processFile_transformer_failure_writes_nothing {σ : Type} (E : Env σ)
    (fp : FileProcessor σ) (depth : Nat) (s : σ) (sourceFile distDir srcDir : String)
    (h : (∃ m x y, (FileProcessor.processFile E fp depth s sourceFile distDir srcDir).outcome
          = .failed (.pluginError m x y)) ∨
      ∃ m f, (FileProcessor.processFile E fp depth s sourceFile distDir srcDir).outcome
          = .failed (.buildError m f)) :
    (FileProcessor.processFile E fp depth s sourceFile distDir srcDir).world = s ∧
      (FileProcessor.processFile E fp depth s sourceFile distDir srcDir).writes = [] := by
  rw [FileProcessor.processFile_eq] at h ⊢
  cases hsr : (DependencyTracker.shouldRegenerateJsFile E.path E.fs s fp.dependencyTracker
      sourceFile srcDir).1 with
  | error e => exact ⟨rfl, rfl⟩
  | ok b =>
    rw [hsr] at h
    simp only [] at h ⊢
    split
    · exact ⟨rfl, rfl⟩
    · rename_i hskip
      rw [if_neg hskip] at h
      exact FileProcessor.build_transformer_failure E _ depth s sourceFile distDir srcDir h

/-- Witness of C13: the Babel step rejects the entry `a.js` of the shared
project. -/
theorem processFile_transformer_failure_writes_nothing_witness :
    (FileProcessor.processFile strictEnv (FileProcessor.new strictPlugins false) 8
        (sharedProject ".f" 1) "/w/source/a.js" "/w/dist" "/w/src").outcome
      = .failed (.buildError "Babel transformation failed: Unexpected character"
          "/w/source/a.js") ∧
    (FileProcessor.processFile strictEnv (FileProcessor.new strictPlugins false) 8
        (sharedProject ".f" 1) "/w/source/a.js" "/w/dist" "/w/src").world
      = sharedProject ".f" 1 ∧
    (FileProcessor.processFile strictEnv (FileProcessor.new strictPlugins false) 8
        (sharedProject ".f" 1) "/w/source/a.js" "/w/dist" "/w/src").writes = [] :=
  ⟨by decide!,
    processFile_transformer_failure_writes_nothing strictEnv _ 8 _ _ _ _
      (Or.inr ⟨"Babel transformation failed: Unexpected character", "/w/source/a.js",
        by decide!⟩)⟩

/-! ## Claims on the substitution -/

/-- C14, the code at a failing input: `replaceContent` on the data `{{css/a}}`, with the content
`x$&y`, returns `x{{css/a}}y`: the content is read as a replacement
pattern, in which `$&` stands for the matched token, so the result is not the
data with the token replaced by the content verbatim (which is `x$&y`), and it
contains the token although the content does not. -/
theorem replaceContent_expands_replacement_patterns :
    replaceContent "\x7b\x7bcss/a\x7d\x7d" "a" "css" "x$&y" = some "x\x7b\x7bcss/a\x7d\x7dy" ∧
      jsIncludes "x$&y" (placeholderToken "css" "a") = false ∧
      jsIncludes "x\x7b\x7bcss/a\x7d\x7dy" (placeholderToken "css" "a") = true := by
  decide

/-- C15, the code at a failing input: `handleJsFile` on the data `/* {{js/u}} */ and {{js/u}}`,
with the fragment `var s = '$&';`, replaces the comment-wrapped token by
`var s = '/* {{js/u}} */';` and not by the fragment content: the
content is read as a replacement pattern, in which `$&` stands for the matched
text. The bare token is left as it is. -/
theorem handleJsFile_expands_replacement_patterns
    (fallback : String → String → String → String → Option String) :
    handleJsFile memEnv.fs fallback (jsFragment "var s = '$&';")
        "/* \x7b\x7bjs/u\x7d\x7d */ and \x7b\x7bjs/u\x7d\x7d" "/w/src/js/u.js" "u" "js"
      = some (.ok "var s = '/* \x7b\x7bjs/u\x7d\x7d */'; and \x7b\x7bjs/u\x7d\x7d") := by
  rfl

/-! ## `processWithPlugins`: the plugin calls -/

namespace FileProcessor

variable {σ : Type}

theorem runPlugins_calls (E : Env σ) (fp : FileProcessor σ) (s : σ) (files : List String)
    (content : String) (calls : List (String × String)) (out : String)
    (h : (runPlugins E fp s files content calls).1 = .ok out) :
    (runPlugins E fp s files content calls).2
      = calls ++ files.map (fun file => (removeFirstDot (E.path.extname file), file)) := by
  induction files generalizing content calls with
  | nil => simp [runPlugins]
  | cons f rest ih =>
    unfold runPlugins at h ⊢
    simp only [] at h ⊢
    cases hp : fp.plugins (removeFirstDot (E.path.extname f)) with
    | none => simp [hp] at h
    | some plugin =>
      simp only [hp] at h ⊢
      cases hr : plugin s content f (E.path.basenameExt f (E.path.extname f))
          (removeFirstDot (E.path.extname f)) with
      | ok out2 =>
        simp only [hr] at h ⊢
        rw [ih _ _ h]
        simp
      | error m => simp [hr] at h

theorem runPlugins_ok (E : Env σ) (fp : FileProcessor σ) (s : σ) (files : List String)
    (hsupport : ∀ file ∈ files, (fp.plugins (removeFirstDot (E.path.extname file))).isSome)
    (hplugins : ∀ file ∈ files, ∀ plugin,
      fp.plugins (removeFirstDot (E.path.extname file)) = some plugin →
        ∀ data, ∃ out, plugin s data file (E.path.basenameExt file (E.path.extname file))
          (removeFirstDot (E.path.extname file)) = .ok out)
    (content : String) (calls : List (String × String)) :
    ∃ out, (runPlugins E fp s files content calls).1 = .ok out := by
  induction files generalizing content calls with
  | nil => exact ⟨content, rfl⟩
  | cons f rest ih =>
    unfold runPlugins
    simp only []
    cases hp : fp.plugins (removeFirstDot (E.path.extname f)) with
    | none =>
      have := hsupport f (List.mem_cons_self _ _)
      simp [hp] at this
    | some plugin =>
      obtain ⟨out, hout⟩ := hplugins f (List.mem_cons_self _ _) plugin hp content
      simp only [hout]
      exact ih (fun g hg => hsupport g (List.mem_cons_of_mem _ hg))
        (fun g hg => hplugins g (List.mem_cons_of_mem _ hg)) _ _

theorem isSupportFile_plugin (E : Env σ) (fp : FileProcessor σ) (file : String)
    (h : isSupportFile E fp file = true) :
    (fp.plugins (removeFirstDot (E.path.extname file))).isSome := by
  unfold isSupportFile at h
  simp only [] at h
  split at h
  · simp at h
  · split at h
    · simp at h
    · exact h

end FileProcessor

/-! ## Claims on `processWithPlugins` -/

/-- C16 fails as stated: on an entry without any placeholder,
`processFile` calls the `css` plugin on `a.css` and on `b.css`, the two files
of the fragments directory. -/
theorem processWithPlugins_calls_unreferenced_fragments :
    placeholders "console.log(1)" = [] ∧
      (FileProcessor.processFile memEnv (FileProcessor.new mockPlugins false) 8
          (project "console.log(1)") "/w/source/main.js" "/w/dist" "/w/src").pluginCalls
        = [("css", "/w/src/css/a.css"), ("css", "/w/src/css/b.css")] := by
  decide!

/-- C16, as the code has it: when `processWithPlugins` succeeds, its plugin calls are one
call for each file of the fragments directory that passes the filter of the
method (not hidden, with an extension that has a plugin), in the order of the
directory scan, whatever the content is and whatever it references. -/
theorem processWithPlugins_calls_every_support_file {σ : Type} (E : Env σ)
    (fp : FileProcessor σ) (depth : Nat) (s : σ) (content srcDir sourceFile : String)
    (allFiles : List String) (out : String) (calls : List (String × String))
    (hscan : FileSystemUtils.getAllFilesFromDirectory E.path E.fs s depth srcDir [] false
      = some (.ok allFiles))
    (h : FileProcessor.processWithPlugins E fp depth s content srcDir sourceFile
      = some (.ok out, calls)) :
    calls = (allFiles.filter (FileProcessor.isSupportFile E fp)).map
      (fun file => (removeFirstDot (E.path.extname file), file)) := by
  unfold FileProcessor.processWithPlugins at h
  simp only [hscan] at h
  by_cases h0 : (allFiles.filter (FileProcessor.isSupportFile E fp)).length = 0
  · simp only [h0, if_true, Option.some.injEq, Prod.mk.injEq] at h
    rw [← h.2, List.length_eq_zero.mp h0]
    rfl
  · simp only [h0, if_false, Option.some.injEq] at h
    have h1 : (FileProcessor.runPlugins E fp s (allFiles.filter (FileProcessor.isSupportFile E fp))
        content []).1 = .ok out := by rw [h]
    have h2 := FileProcessor.runPlugins_calls E fp s _ content [] out h1
    rw [h] at h2
    simpa using h2

/-- Witness of C16 as amended: the entry references `b.css` before `a.css`; the calls are
on `a.css`, then on `b.css`. -/
theorem processWithPlugins_calls_every_support_file_witness :
    FileProcessor.processWithPlugins memEnv (FileProcessor.new mockPlugins false) 8
        (project "") "\x7b\x7bcss/b\x7d\x7d \x7b\x7bcss/a\x7d\x7d" "/w/src" "/w/source/main.js"
      = some (.ok ("\x7b\x7bcss/b\x7d\x7d \x7b\x7bcss/a\x7d\x7d"
          ++ "/* processed css *//* processed css */"),
          [("css", "/w/src/css/a.css"), ("css", "/w/src/css/b.css")]) ∧
    [("css", "/w/src/css/a.css"), ("css", "/w/src/css/b.css")]
      = (["/w/src/css/a.css", "/w/src/css/b.css"].filter
          (FileProcessor.isSupportFile memEnv (FileProcessor.new mockPlugins false))).map
        (fun file => (removeFirstDot (memEnv.path.extname file), file)) :=
  ⟨by decide!,
    processWithPlugins_calls_every_support_file memEnv (FileProcessor.new mockPlugins false) 8
      (project "") "\x7b\x7bcss/b\x7d\x7d \x7b\x7bcss/a\x7d\x7d" "/w/src" "/w/source/main.js"
      ["/w/src/css/a.css", "/w/src/css/b.css"]
      ("\x7b\x7bcss/b\x7d\x7d \x7b\x7bcss/a\x7d\x7d" ++ "/* processed css *//* processed css */")
      _ (by decide!) (by decide!)⟩

/-- C17 fails as stated: the entry has a placeholder for
`css/missing`, no file `src/css/missing.css` exists, and `processFile`
generates the output, with the placeholder in it. -/
theorem processFile_builds_with_missing_fragment :
    memEnv.fs.stat (project "\x7b\x7bcss/missing\x7d\x7d") "/w/src/css/missing.css" = none ∧
      (FileProcessor.processFile memEnv (FileProcessor.new mockPlugins false) 8
          (project "\x7b\x7bcss/missing\x7d\x7d") "/w/source/main.js" "/w/dist" "/w/src").outcome
        = .generated "/w/dist/main.js"
            ("minified_transformed_\x7b\x7bcss/missing\x7d\x7d"
              ++ "/* processed css *//* processed css */") := by
  decide!

/-- C17, as the code has it: a placeholder whose fragment file does not exist makes
nothing fail. When the scan of the fragments directory succeeds and each plugin
succeeds on the files that exist, `processWithPlugins` succeeds for every
content, whatever placeholders it has. -/
theorem processWithPlugins_succeeds_for_every_content {σ : Type} (E : Env σ)
    (fp : FileProcessor σ) (depth : Nat) (s : σ) (srcDir sourceFile : String)
    (allFiles : List String)
    (hscan : FileSystemUtils.getAllFilesFromDirectory E.path E.fs s depth srcDir [] false
      = some (.ok allFiles))
    (hplugins : ∀ file ∈ allFiles, ∀ plugin,
      fp.plugins (removeFirstDot (E.path.extname file)) = some plugin →
        ∀ data, ∃ out, plugin s data file (E.path.basenameExt file (E.path.extname file))
          (removeFirstDot (E.path.extname file)) = .ok out)
    (content : String) :
    ∃ out calls, FileProcessor.processWithPlugins E fp depth s content srcDir sourceFile
      = some (.ok out, calls) := by
  unfold FileProcessor.processWithPlugins
  simp only [hscan]
  by_cases h0 : (allFiles.filter (FileProcessor.isSupportFile E fp)).length = 0
  · exact ⟨content, [], by simp [h0]⟩
  · simp only [h0, if_false]
    obtain ⟨out, hout⟩ := FileProcessor.runPlugins_ok E fp s
      (allFiles.filter (FileProcessor.isSupportFile E fp))
      (fun file hf => FileProcessor.isSupportFile_plugin E fp file (List.mem_filter.mp hf).2
        |> fun h => by simpa using h)
      (fun file hf => hplugins file (List.mem_filter.mp hf).1) content []
    refine ⟨out, (FileProcessor.runPlugins E fp s
      (allFiles.filter (FileProcessor.isSupportFile E fp)) content []).2, ?_⟩
    rw [← hout]

/-- Witness of C17 as amended: the project, whose plugins never fail, and an entry with a
placeholder for a fragment that does not exist. -/
theorem processWithPlugins_succeeds_for_every_content_witness :
    FileSystemUtils.getAllFilesFromDirectory memEnv.path memEnv.fs (project "") 8 "/w/src" []
        false = some (.ok ["/w/src/css/a.css", "/w/src/css/b.css"]) ∧
      memEnv.fs.stat (project "") "/w/src/css/missing.css" = none ∧
      ∃ out calls, FileProcessor.processWithPlugins memEnv (FileProcessor.new mockPlugins false) 8
          (project "") "\x7b\x7bcss/missing\x7d\x7d" "/w/src" "/w/source/main.js"
        = some (.ok out, calls) :=
  ⟨by decide!, by decide,
    processWithPlugins_succeeds_for_every_content memEnv (FileProcessor.new mockPlugins false) 8
      (project "") "/w/src" "/w/source/main.js" ["/w/src/css/a.css", "/w/src/css/b.css"]
      (by decide!)
      (by
        intro file hf plugin hp data
        simp only [List.mem_cons, List.mem_singleton, List.not_mem_nil, or_false] at hf
        rcases hf with rfl | rfl
        · have he : removeFirstDot (memEnv.path.extname "/w/src/css/a.css") = "css" := by decide
          rw [he] at hp ⊢
          simp only [FileProcessor.new, mockPlugins, Option.some.injEq] at hp
          subst hp
          exact ⟨_, rfl⟩
        · have he : removeFirstDot (memEnv.path.extname "/w/src/css/b.css") = "css" := by decide
          rw [he] at hp ⊢
          simp only [FileProcessor.new, mockPlugins, Option.some.injEq] at hp
          subst hp
          exact ⟨_, rfl⟩)
      "\x7b\x7bcss/missing\x7d\x7d"⟩

/-! ## What a call of `processFile` leaves to the next one -/

theorem ne_dep_key_of_not_startsWith (key d : String) (h : jsStartsWith key "dep:" = false) :
    key ≠ "dep:" ++ d := by
  intro hk
  subst hk
  revert h
  simp [jsStartsWith, String.data_append]

namespace CacheManager

variable {ρ σ : Type}

theorem hasFileContentChanged_fileHashes_of_ne (P : NodePath) (F : NodeFs σ) (s : σ)
    (c : CacheManager ρ) (filePath key : String) (h : P.resolve filePath ≠ key) :
    (hasFileContentChanged P F s c filePath).2.fileHashes.get key = c.fileHashes.get key := by
  unfold hasFileContentChanged
  cases FileSystemUtils.getFileHash F s filePath with
  | error _ => rfl
  | ok currentHash =>
    simp only []
    cases getFileHash P c filePath with
    | none => exact JsMap.get_set_of_ne _ _ _ _ h
    | some cachedHash =>
      simp only []
      split
      · exact JsMap.get_set_of_ne _ _ _ _ h
      · split
        · exact JsMap.get_set_of_ne _ _ _ _ h
        · rfl

theorem hasFileContentChanged_fst_congr (P : NodePath) (F : NodeFs σ) (s : σ)
    (c c2 : CacheManager ρ) (filePath : String)
    (h : c2.fileHashes.get (P.resolve filePath) = c.fileHashes.get (P.resolve filePath)) :
    (hasFileContentChanged P F s c2 filePath).1 = (hasFileContentChanged P F s c filePath).1 := by
  unfold hasFileContentChanged getFileHash
  rw [h]
  cases FileSystemUtils.getFileHash F s filePath with
  | error _ => rfl
  | ok currentHash =>
    simp only []
    cases c.fileHashes.get (P.resolve filePath) with
    | none => rfl
    | some cachedHash =>
      simp only []
      split
      · rfl
      · split <;> rfl

end CacheManager

namespace DependencyTracker

variable {σ : Type}

theorem checkDependencies_cache (F : NodeFs σ) (s : σ) (t : DependencyTracker)
    (deps : List String) (key : String) (h : ∀ d ∈ deps, key ≠ "dep:" ++ d) :
    (checkDependencies F s t deps).2.dependencyCache.get key = t.dependencyCache.get key := by
  induction deps with
  | nil => rfl
  | cons d rest ih =>
    have hd : "dep:" ++ d ≠ key := fun h2 => h d (List.mem_cons_self _ _) h2.symm
    unfold checkDependencies
    cases hs : FileSystemUtils.getStats F s d with
    | error _ => simp
    | ok stats =>
      cases hg : t.dependencyCache.get ("dep:" ++ d) with
      | none => simpa using JsMap.get_set_of_ne _ _ _ _ hd
      | some v =>
        cases v with
        | deps _ => simp
        | stats cached =>
          by_cases hm : stats.mtime = cached.mtime
          · simpa [hm] using ih (fun d2 hd2 => h d2 (List.mem_cons_of_mem _ hd2))
          · simpa [hm] using JsMap.get_set_of_ne _ _ _ _ hd

theorem isRecorded_congr (F : NodeFs σ) (s : σ) (t t2 : DependencyTracker) (d : String)
    (h : t2.dependencyCache.get ("dep:" ++ d) = t.dependencyCache.get ("dep:" ++ d)) :
    isRecorded F s t2 d = isRecorded F s t d := by
  unfold isRecorded
  rw [h]

theorem checkDependencies_fst_eq_any (F : NodeFs σ) (s : σ) (t : DependencyTracker)
    (deps : List String) :
    (checkDependencies F s t deps).1 = deps.any (fun d => !isRecorded F s t d) := by
  induction deps with
  | nil => rfl
  | cons d rest ih =>
    unfold checkDependencies
    simp only [List.any_cons, isRecorded, FileSystemUtils.getStats]
    cases hs : F.stat s d with
    | none => simp
    | some stats =>
      cases hg : t.dependencyCache.get ("dep:" ++ d) with
      | none => simp
      | some v =>
        cases v with
        | deps _ => simp
        | stats cached =>
          by_cases hm : stats.mtime = cached.mtime
          · simpa [hm] using ih
          · simp [hm]

theorem checkDependencies_fst_congr (F : NodeFs σ) (s : σ) (t t2 : DependencyTracker)
    (deps : List String)
    (h : ∀ d ∈ deps,
      t2.dependencyCache.get ("dep:" ++ d) = t.dependencyCache.get ("dep:" ++ d)) :
    (checkDependencies F s t2 deps).1 = (checkDependencies F s t deps).1 := by
  rw [checkDependencies_fst_eq_any, checkDependencies_fst_eq_any]
  induction deps with
  | nil => rfl
  | cons d rest ih =>
    simp only [List.any_cons]
    rw [isRecorded_congr F s t t2 d (h d (List.mem_cons_self _ _)),
      ih (fun d2 hd2 => h d2 (List.mem_cons_of_mem _ hd2))]

theorem analyzeDependencies_cache (P : NodePath) (F : NodeFs σ) (s : σ) (t : DependencyTracker)
    (jsFilePath srcDir key : String) (h : jsFilePath ++ ":" ++ srcDir ≠ key) :
    (analyzeDependencies P F s t jsFilePath srcDir).2.dependencyCache.get key
      = t.dependencyCache.get key := by
  simp only [analyzeDependencies]
  cases hc : t.dependencyCache.get (jsFilePath ++ ":" ++ srcDir) with
  | some v => simp
  | none =>
    cases hr : FileSystemUtils.readFile F s jsFilePath with
    | error e => simp
    | ok content => simpa using JsMap.get_set_of_ne _ _ _ _ h

theorem analyzeDependencies_congr (P : NodePath) (F : NodeFs σ) (s : σ)
    (t t2 : DependencyTracker) (jsFilePath srcDir : String)
    (h : t2.dependencyCache.get (jsFilePath ++ ":" ++ srcDir)
      = t.dependencyCache.get (jsFilePath ++ ":" ++ srcDir)) :
    (analyzeDependencies P F s t2 jsFilePath srcDir).1
      = (analyzeDependencies P F s t jsFilePath srcDir).1 := by
  simp only [analyzeDependencies, h]
  cases hc : t.dependencyCache.get (jsFilePath ++ ":" ++ srcDir) with
  | some v => simp
  | none =>
    cases hr : FileSystemUtils.readFile F s jsFilePath with
    | error e => simp
    | ok content => simp

theorem registerDependencies_cache (P : NodePath) (t : DependencyTracker) (jsFilePath : String)
    (deps : List String) :
    (registerDependencies P t jsFilePath deps).dependencyCache = t.dependencyCache := rfl

theorem registerDependencies_get_self (P : NodePath) (t : DependencyTracker)
    (jsFilePath : String) (deps : List String) :
    (registerDependencies P t jsFilePath deps).dependencies.get (P.resolve jsFilePath)
      = some (JsSet.ofList deps) := by
  simp [registerDependencies, JsMap.get_set_self]

theorem registerDependencies_get_of_ne (P : NodePath) (hP : P.Lawful) (t : DependencyTracker)
    (jsFilePath : String) (deps : List String) (key : String)
    (h : P.resolve jsFilePath ≠ key) :
    (registerDependencies P t jsFilePath deps).dependencies.get key = t.dependencies.get key := by
  simp only [registerDependencies, removeDependencies, hP jsFilePath]
  rw [JsMap.get_set_of_ne _ _ _ _ h, JsMap.get_delete_of_ne _ _ _ h]

end DependencyTracker

namespace DependencyTracker

variable {σ : Type}

/-- The three ways `registerIfAbsent` ends. -/
theorem registerIfAbsent_cases (P : NodePath) (F : NodeFs σ) (s : σ) (t : DependencyTracker)
    (jsFilePath srcDir : String) :
    (t.dependencies.has (P.resolve jsFilePath) = true ∧
        registerIfAbsent P F s t jsFilePath srcDir = .ok t) ∨
      (t.dependencies.has (P.resolve jsFilePath) = false ∧
        ∃ st, (analyzeDependencies P F s t jsFilePath srcDir).1 = .stats st ∧
          registerIfAbsent P F s t jsFilePath srcDir
            = .error (.typeError "object is not iterable")) ∨
      (t.dependencies.has (P.resolve jsFilePath) = false ∧
        ∃ found, (analyzeDependencies P F s t jsFilePath srcDir).1 = .deps found ∧
          registerIfAbsent P F s t jsFilePath srcDir
            = .ok (registerDependencies P (analyzeDependencies P F s t jsFilePath srcDir).2
                jsFilePath found)) := by
  unfold registerIfAbsent
  by_cases hhas : t.dependencies.has (P.resolve jsFilePath) = true
  · exact Or.inl ⟨hhas, by simp [hhas]⟩
  · have hf : t.dependencies.has (P.resolve jsFilePath) = false := by simpa using hhas
    simp only [hf]
    rcases ha : analyzeDependencies P F s t jsFilePath srcDir with ⟨v, t1⟩
    cases v with
    | stats st => exact Or.inr (Or.inl ⟨trivial, st, rfl, by simp⟩)
    | deps found => exact Or.inr (Or.inr ⟨trivial, found, rfl, by simp⟩)

theorem shouldRegenerateJsFile_of_ok (P : NodePath) (F : NodeFs σ) (s : σ)
    (t t2 : DependencyTracker) (jsFilePath srcDir : String)
    (h : registerIfAbsent P F s t jsFilePath srcDir = .ok t2) :
    shouldRegenerateJsFile P F s t jsFilePath srcDir
      = (.ok (checkDependencies F s t2 (t2.dependencies.members (P.resolve jsFilePath))).1,
          (checkDependencies F s t2 (t2.dependencies.members (P.resolve jsFilePath))).2) := by
  unfold shouldRegenerateJsFile
  rw [h]
  simp only [JsMap.members]
  cases hg : t2.dependencies.get (P.resolve jsFilePath) with
  | none => simp [checkDependencies]
  | some deps =>
    by_cases h0 : deps.size = 0
    · have : deps = [] := List.length_eq_zero.mp h0
      subst this
      simp [checkDependencies, JsSet.size]
    · simp [h0]

theorem shouldRegenerateJsFile_of_error (P : NodePath) (F : NodeFs σ) (s : σ)
    (t : DependencyTracker) (jsFilePath srcDir : String) (e : JsError)
    (h : registerIfAbsent P F s t jsFilePath srcDir = .error e) :
    shouldRegenerateJsFile P F s t jsFilePath srcDir = (.error e, t) := by
  unfold shouldRegenerateJsFile
  rw [h]

theorem registerIfAbsent_get_of_ne (P : NodePath) (hP : P.Lawful) (F : NodeFs σ) (s : σ)
    (t t2 : DependencyTracker) (jsFilePath srcDir key : String)
    (h : registerIfAbsent P F s t jsFilePath srcDir = .ok t2)
    (hne : P.resolve jsFilePath ≠ key) :
    t2.dependencies.get key = t.dependencies.get key := by
  rcases registerIfAbsent_cases P F s t jsFilePath srcDir with
    ⟨_, h2⟩ | ⟨_, st, _, h2⟩ | ⟨_, found, _, h2⟩
  · rw [h2] at h
    simp only [Except.ok.injEq] at h
    rw [← h]
  · rw [h2] at h
    simp at h
  · rw [h2] at h
    simp only [Except.ok.injEq] at h
    rw [← h, registerDependencies_get_of_ne P hP _ _ _ _ hne,
      (analyzeDependencies_edges P F s t jsFilePath srcDir).1]

theorem registerIfAbsent_cache (P : NodePath) (F : NodeFs σ) (s : σ)
    (t t2 : DependencyTracker) (jsFilePath srcDir key : String)
    (h : registerIfAbsent P F s t jsFilePath srcDir = .ok t2)
    (hne : jsFilePath ++ ":" ++ srcDir ≠ key) :
    t2.dependencyCache.get key = t.dependencyCache.get key := by
  rcases registerIfAbsent_cases P F s t jsFilePath srcDir with
    ⟨_, h2⟩ | ⟨_, st, _, h2⟩ | ⟨_, found, _, h2⟩
  · rw [h2] at h
    simp only [Except.ok.injEq] at h
    rw [← h]
  · rw [h2] at h
    simp at h
  · rw [h2] at h
    simp only [Except.ok.injEq] at h
    rw [← h, registerDependencies_cache, analyzeDependencies_cache P F s t _ _ _ hne]

theorem shouldRegenerateJsFile_get_of_ne (P : NodePath) (hP : P.Lawful) (F : NodeFs σ) (s : σ)
    (t : DependencyTracker) (jsFilePath srcDir key : String)
    (hne : P.resolve jsFilePath ≠ key) :
    (shouldRegenerateJsFile P F s t jsFilePath srcDir).2.dependencies.get key
      = t.dependencies.get key := by
  cases hr : registerIfAbsent P F s t jsFilePath srcDir with
  | error e => rw [shouldRegenerateJsFile_of_error P F s t _ _ e hr]
  | ok t2 =>
    rw [shouldRegenerateJsFile_of_ok P F s t t2 _ _ hr]
    simp only []
    rw [(checkDependencies_edges F s t2 _).1,
      registerIfAbsent_get_of_ne P hP F s t t2 _ _ _ hr hne]

theorem shouldRegenerateJsFile_cache (P : NodePath) (F : NodeFs σ) (s : σ)
    (t : DependencyTracker) (jsFilePath srcDir key : String)
    (hne : jsFilePath ++ ":" ++ srcDir ≠ key)
    (hdeps : ∀ d ∈ (shouldRegenerateJsFile P F s t jsFilePath srcDir).2.dependencies.members
      (P.resolve jsFilePath), key ≠ "dep:" ++ d) :
    (shouldRegenerateJsFile P F s t jsFilePath srcDir).2.dependencyCache.get key
      = t.dependencyCache.get key := by
  cases hr : registerIfAbsent P F s t jsFilePath srcDir with
  | error e => rw [shouldRegenerateJsFile_of_error P F s t _ _ e hr]
  | ok t2 =>
    rw [shouldRegenerateJsFile_of_ok P F s t t2 _ _ hr] at hdeps ⊢
    simp only [JsMap.members] at hdeps ⊢
    rw [(checkDependencies_edges F s t2 _).1] at hdeps
    rw [checkDependencies_cache F s t2 _ key hdeps,
      registerIfAbsent_cache P F s t t2 _ _ _ hr hne]

/-- The value of `shouldRegenerateJsFile` on two trackers that agree on the
forward set of the entry, on its cached analysis and on the stats of its
fragments. -/
theorem shouldRegenerateJsFile_fst_congr (P : NodePath) (F : NodeFs σ) (s : σ)
    (t t2 : DependencyTracker) (jsFilePath srcDir : String)
    (hfw : t2.dependencies.get (P.resolve jsFilePath) = t.dependencies.get (P.resolve jsFilePath))
    (hkey : t2.dependencyCache.get (jsFilePath ++ ":" ++ srcDir)
      = t.dependencyCache.get (jsFilePath ++ ":" ++ srcDir))
    (hnodep : ∀ d, jsFilePath ++ ":" ++ srcDir ≠ "dep:" ++ d)
    (hdeps : ∀ d ∈ (shouldRegenerateJsFile P F s t jsFilePath srcDir).2.dependencies.members
        (P.resolve jsFilePath),
      t2.dependencyCache.get ("dep:" ++ d) = t.dependencyCache.get ("dep:" ++ d)) :
    (shouldRegenerateJsFile P F s t2 jsFilePath srcDir).1
      = (shouldRegenerateJsFile P F s t jsFilePath srcDir).1 := by
  have hhas : t2.dependencies.has (P.resolve jsFilePath)
      = t.dependencies.has (P.resolve jsFilePath) := by simp [JsMap.has, hfw]
  have han := analyzeDependencies_congr P F s t t2 jsFilePath srcDir hkey
  rcases registerIfAbsent_cases P F s t jsFilePath srcDir with
    ⟨h1, h2⟩ | ⟨h1, st, ha, h2⟩ | ⟨h1, found, ha, h2⟩
  · have h3 : registerIfAbsent P F s t2 jsFilePath srcDir = .ok t2 := by
      simp [registerIfAbsent, hhas, h1]
    rw [shouldRegenerateJsFile_of_ok P F s t t _ _ h2] at hdeps ⊢
    rw [shouldRegenerateJsFile_of_ok P F s t2 t2 _ _ h3]
    simp only [JsMap.members] at hdeps ⊢
    rw [(checkDependencies_edges F s t _).1] at hdeps
    rw [hfw, checkDependencies_fst_congr F s t t2 _ hdeps]
  · rcases registerIfAbsent_cases P F s t2 jsFilePath srcDir with
      ⟨h3, _⟩ | ⟨_, st2, _, h4⟩ | ⟨_, found2, ha2, _⟩
    · rw [hhas, h1] at h3
      simp at h3
    · rw [shouldRegenerateJsFile_of_error P F s t _ _ _ h2,
        shouldRegenerateJsFile_of_error P F s t2 _ _ _ h4]
    · rw [han, ha] at ha2
      simp at ha2
  · rcases registerIfAbsent_cases P F s t2 jsFilePath srcDir with
      ⟨h3, _⟩ | ⟨_, st2, ha2, _⟩ | ⟨_, found2, ha2, h4⟩
    · rw [hhas, h1] at h3
      simp at h3
    · rw [han, ha] at ha2
      simp at ha2
    · rw [han, ha] at ha2
      simp only [DepCacheValue.deps.injEq] at ha2
      subst ha2
      rw [shouldRegenerateJsFile_of_ok P F s t _ _ _ h2] at hdeps ⊢
      rw [shouldRegenerateJsFile_of_ok P F s t2 _ _ _ h4]
      simp only [JsMap.members, registerDependencies_get_self] at hdeps ⊢
      rw [(checkDependencies_edges F s _ _).1] at hdeps
      simp only [registerDependencies_get_self, Option.getD_some] at hdeps
      simp only [Option.getD_some]
      congr 1
      apply checkDependencies_fst_congr
      intro d hd
      rw [registerDependencies_cache, registerDependencies_cache,
        analyzeDependencies_cache P F s t _ _ _ (hnodep d),
        analyzeDependencies_cache P F s t2 _ _ _ (hnodep d)]
      exact hdeps d hd

/-- No error of `shouldRegenerateJsFile` on a tracker carries over to one that
agrees with it on the forward set of the entry and on its cached analysis. -/
theorem shouldRegenerateJsFile_ok_congr (P : NodePath) (F : NodeFs σ) (s : σ)
    (t t2 : DependencyTracker) (jsFilePath srcDir : String)
    (hfw : t2.dependencies.get (P.resolve jsFilePath) = t.dependencies.get (P.resolve jsFilePath))
    (hkey : t2.dependencyCache.get (jsFilePath ++ ":" ++ srcDir)
      = t.dependencyCache.get (jsFilePath ++ ":" ++ srcDir))
    (b : Bool) (h : (shouldRegenerateJsFile P F s t jsFilePath srcDir).1 = .ok b) :
    ∃ b2, (shouldRegenerateJsFile P F s t2 jsFilePath srcDir).1 = .ok b2 := by
  have hhas : t2.dependencies.has (P.resolve jsFilePath)
      = t.dependencies.has (P.resolve jsFilePath) := by simp [JsMap.has, hfw]
  have han := analyzeDependencies_congr P F s t t2 jsFilePath srcDir hkey
  rcases registerIfAbsent_cases P F s t2 jsFilePath srcDir with
    ⟨_, h4⟩ | ⟨h3, st2, ha2, _⟩ | ⟨_, found2, _, h4⟩
  · rw [shouldRegenerateJsFile_of_ok P F s t2 _ _ _ h4]
    exact ⟨_, rfl⟩
  · rcases registerIfAbsent_cases P F s t jsFilePath srcDir with
      ⟨h1, _⟩ | ⟨_, st, _, h2⟩ | ⟨_, found, ha, _⟩
    · rw [← hhas, h3] at h1
      simp at h1
    · rw [shouldRegenerateJsFile_of_error P F s t _ _ _ h2] at h
      simp at h
    · rw [han, ha] at ha2
      simp at ha2
  · rw [shouldRegenerateJsFile_of_ok P F s t2 _ _ _ h4]
    exact ⟨_, rfl⟩

end DependencyTracker

theorem append_suffix_ne (a b suffix : String) (h : a ≠ b) : a ++ suffix ≠ b ++ suffix := by
  intro h2
  apply h
  have h3 := congrArg String.data h2
  simp only [String.data_append] at h3
  exact String.ext (List.append_cancel_right h3)

theorem append_prefix_ne (head a b : String) (h : a ≠ b) : head ++ a ≠ head ++ b := by
  intro h2
  apply h
  have h3 := congrArg String.data h2
  simp only [String.data_append] at h3
  exact String.ext (List.append_cancel_left h3)

namespace FileProcessor

variable {σ : Type}

theorem isSupportFile_congr (E : Env σ) (fp fp2 : FileProcessor σ)
    (h : fp2.plugins = fp.plugins) : isSupportFile E fp2 = isSupportFile E fp := by
  funext file
  simp [isSupportFile, h]

theorem runPlugins_congr (E : Env σ) (fp fp2 : FileProcessor σ) (s : σ)
    (h : fp2.plugins = fp.plugins) (files : List String) (content : String)
    (calls : List (String × String)) :
    runPlugins E fp2 s files content calls = runPlugins E fp s files content calls := by
  induction files generalizing content calls with
  | nil => rfl
  | cons f rest ih =>
    unfold runPlugins
    simp only [h]
    cases fp.plugins (removeFirstDot (E.path.extname f)) with
    | none => rfl
    | some plugin =>
      simp only []
      cases plugin s content f (E.path.basenameExt f (E.path.extname f))
          (removeFirstDot (E.path.extname f)) with
      | ok out => exact ih _ _
      | error m => rfl

theorem processWithPlugins_congr (E : Env σ) (fp fp2 : FileProcessor σ) (depth : Nat) (s : σ)
    (h : fp2.plugins = fp.plugins) (content srcDir sourceFile : String) :
    processWithPlugins E fp2 depth s content srcDir sourceFile
      = processWithPlugins E fp depth s content srcDir sourceFile := by
  unfold processWithPlugins
  rw [isSupportFile_congr E fp fp2 h]
  cases FileSystemUtils.getAllFilesFromDirectory E.path E.fs s depth srcDir [] false with
  | none => rfl
  | some r =>
    cases r with
    | error e => rfl
    | ok allFiles =>
      simp only []
      rw [runPlugins_congr E fp fp2 s h]

theorem emit_congr (E : Env σ) (fp fp2 : FileProcessor σ) (s : σ)
    (hd : fp2.debug = fp.debug) (sourceFile distFile processedData : String)
    (calls : List (String × String)) :
    (emit E fp2 s sourceFile distFile processedData calls).outcome
        = (emit E fp s sourceFile distFile processedData calls).outcome ∧
      (emit E fp2 s sourceFile distFile processedData calls).world
        = (emit E fp s sourceFile distFile processedData calls).world ∧
      (emit E fp2 s sourceFile distFile processedData calls).pluginCalls
        = (emit E fp s sourceFile distFile processedData calls).pluginCalls ∧
      (emit E fp2 s sourceFile distFile processedData calls).writes
        = (emit E fp s sourceFile distFile processedData calls).writes := by
  unfold emit
  rw [hd]
  cases transformWithBabel E processedData sourceFile with
  | error e => exact ⟨rfl, rfl, rfl, rfl⟩
  | ok babelCode =>
    simp only []
    cases (if fp.debug = true then Except.ok babelCode
        else minifyCode E babelCode sourceFile) with
    | error e => exact ⟨rfl, rfl, rfl, rfl⟩
    | ok finalCode =>
      simp only []
      rcases FileSystemUtils.writeFile E.path E.fs s distFile finalCode with ⟨s1, res⟩
      cases res <;> exact ⟨rfl, rfl, rfl, rfl⟩

theorem build_congr (E : Env σ) (fp fp2 : FileProcessor σ) (depth : Nat) (s : σ)
    (hp : fp2.plugins = fp.plugins) (hd : fp2.debug = fp.debug)
    (sourceFile distDir srcDir : String) :
    (build E fp2 depth s sourceFile distDir srcDir).outcome
        = (build E fp depth s sourceFile distDir srcDir).outcome ∧
      (build E fp2 depth s sourceFile distDir srcDir).world
        = (build E fp depth s sourceFile distDir srcDir).world ∧
      (build E fp2 depth s sourceFile distDir srcDir).pluginCalls
        = (build E fp depth s sourceFile distDir srcDir).pluginCalls ∧
      (build E fp2 depth s sourceFile distDir srcDir).writes
        = (build E fp depth s sourceFile distDir srcDir).writes := by
  unfold build
  cases FileSystemUtils.getStats E.fs s sourceFile with
  | error e => exact ⟨rfl, rfl, rfl, rfl⟩
  | ok stats =>
    simp only []
    by_cases hdir : stats.isDirectory = true
    · simp [hdir]
    · simp only [hdir, if_false]
      cases FileSystemUtils.readFile E.fs s sourceFile with
      | error e => exact ⟨rfl, rfl, rfl, rfl⟩
      | ok sourceData =>
        simp only []
        rw [processWithPlugins_congr E fp fp2 depth s hp]
        cases processWithPlugins E fp depth s sourceData srcDir sourceFile with
        | none => exact ⟨rfl, rfl, rfl, rfl⟩
        | some r =>
          rcases r with ⟨res, calls⟩
          cases res with
          | error e => exact ⟨rfl, rfl, rfl, rfl⟩
          | ok processedData => exact emit_congr E fp fp2 s hd _ _ _ _

theorem build_generated (E : Env σ) (fp : FileProcessor σ) (depth : Nat) (s : σ)
    (sourceFile distDir srcDir distFile finalCode : String)
    (h : (build E fp depth s sourceFile distDir srcDir).outcome
      = .generated distFile finalCode) :
    sourceFile ∈ (build E fp depth s sourceFile distDir srcDir).processor.processedFiles := by
  rcases build_cases E fp depth s sourceFile distDir srcDir with
    ⟨m, p, op, h2⟩ | h2 | h2 | ⟨c, m, calls, _, h2⟩ | ⟨c, m, x, y, calls, _, h2⟩ |
    ⟨c, d, pr, calls, _, h2⟩
  · rw [h2] at h; simp at h
  · rw [h2] at h; simp at h
  · rw [h2] at h; simp at h
  · rw [h2] at h; simp at h
  · rw [h2] at h; simp at h
  · rw [h2] at h ⊢
    rcases emit_cases E fp s sourceFile d pr calls with
      ⟨m, h3⟩ | ⟨s1, fc, h3⟩ | ⟨s1, fc, cache, _, h3⟩
    · rw [h3] at h; simp at h
    · rw [h3] at h; simp at h
    · rw [h3]
      exact (JsSet.mem_add _ _ _).mpr (Or.inr rfl)

theorem build_config (E : Env σ) (fp : FileProcessor σ) (depth : Nat) (s : σ)
    (sourceFile distDir srcDir : String) :
    (build E fp depth s sourceFile distDir srcDir).processor.plugins = fp.plugins ∧
      (build E fp depth s sourceFile distDir srcDir).processor.debug = fp.debug := by
  rcases build_cases E fp depth s sourceFile distDir srcDir with
    ⟨m, p, op, h2⟩ | h2 | h2 | ⟨c, m, calls, _, h2⟩ | ⟨c, m, x, y, calls, _, h2⟩ |
    ⟨c, d, pr, calls, _, h2⟩
  · rw [h2]; exact ⟨rfl, rfl⟩
  · rw [h2]; exact ⟨rfl, rfl⟩
  · rw [h2]; exact ⟨rfl, rfl⟩
  · rw [h2]; exact ⟨rfl, rfl⟩
  · rw [h2]; exact ⟨rfl, rfl⟩
  · rw [h2]
    rcases emit_cases E fp s sourceFile d pr calls with
      ⟨m, h3⟩ | ⟨s1, fc, h3⟩ | ⟨s1, fc, cache, _, h3⟩
    · rw [h3]; exact ⟨rfl, rfl⟩
    · rw [h3]; exact ⟨rfl, rfl⟩
    · rw [h3]; exact ⟨rfl, rfl⟩

theorem processFile_config (E : Env σ) (fp : FileProcessor σ) (depth : Nat) (s : σ)
    (sourceFile distDir srcDir : String) :
    (processFile E fp depth s sourceFile distDir srcDir).processor.plugins = fp.plugins ∧
      (processFile E fp depth s sourceFile distDir srcDir).processor.debug = fp.debug := by
  rw [processFile_eq]
  cases (DependencyTracker.shouldRegenerateJsFile E.path E.fs s fp.dependencyTracker
      sourceFile srcDir).1 with
  | error e => exact ⟨rfl, rfl⟩
  | ok b =>
    simp only []
    split
    · exact ⟨rfl, rfl⟩
    · exact build_config E _ depth s sourceFile distDir srcDir

theorem processEach_pair (E : Env σ) (depth : Nat) (distDir srcDir first second : String)
    (acc : ChangeResult σ)
    (h : (processFile E acc.processor depth acc.world first distDir srcDir).outcome
      ≠ .unfinished) :
    processEach E depth distDir srcDir [first, second] acc =
      ⟨acc.called ++ [first] ++ [second],
        acc.outcomes ++ [(processFile E acc.processor depth acc.world first distDir
          srcDir).outcome]
          ++ [(processFile E
            (processFile E acc.processor depth acc.world first distDir srcDir).processor depth
            (processFile E acc.processor depth acc.world first distDir srcDir).world
            second distDir srcDir).outcome],
        (processFile E
          (processFile E acc.processor depth acc.world first distDir srcDir).processor depth
          (processFile E acc.processor depth acc.world first distDir srcDir).world
          second distDir srcDir).processor,
        (processFile E
          (processFile E acc.processor depth acc.world first distDir srcDir).processor depth
          (processFile E acc.processor depth acc.world first distDir srcDir).world
          second distDir srcDir).world⟩ := by
  simp only [processEach, h, if_false]
  split <;> rfl

end FileProcessor

namespace FileProcessor

variable {σ : Type}

/-- A call on a first entry that leaves the file system as it is, followed by
the call on a second entry that, called alone, generates its output: the second
call ends as it does alone when its content is new or changed, and when the two
entries have no fragment in common. -/
theorem processFile_after_other (E : Env σ) (hP : E.path.Lawful) (fp : FileProcessor σ)
    (depth : Nat) (s : σ) (first second distDir srcDir distFile finalCode : String)
    (hne : E.path.resolve first ≠ E.path.resolve second)
    (hkey : jsStartsWith (second ++ ":" ++ srcDir) "dep:" = false)
    (hworld : (processFile E fp depth s first distDir srcDir).world = s)
    (hown : (processFile E fp depth s second distDir srcDir).outcome
      = .generated distFile finalCode)
    (hind : (CacheManager.hasFileContentChanged E.path E.fs s fp.cache second).1 = true ∨
      (jsStartsWith (first ++ ":" ++ srcDir) "dep:" = false ∧
        ∀ d ∈ (processFile E fp depth s first distDir
            srcDir).processor.dependencyTracker.dependencies.members (E.path.resolve first),
          d ∉ (processFile E fp depth s second distDir
            srcDir).processor.dependencyTracker.dependencies.members
              (E.path.resolve second))) :
    (processFile E (processFile E fp depth s first distDir srcDir).processor depth
        (processFile E fp depth s first distDir srcDir).world second distDir srcDir).outcome
      = .generated distFile finalCode ∧
    (processFile E (processFile E fp depth s first distDir srcDir).processor depth
        (processFile E fp depth s first distDir srcDir).world second distDir srcDir).world
      = (processFile E fp depth s second distDir srcDir).world ∧
    second ∈ (processFile E (processFile E fp depth s first distDir srcDir).processor depth
        (processFile E fp depth s first distDir srcDir).world second distDir
        srcDir).processor.processedFiles := by
  rw [hworld]
  have hstr : first ≠ second := fun h => hne (by rw [h])
  have hkeys : first ++ ":" ++ srcDir ≠ second ++ ":" ++ srcDir := by
    rw [String.append_assoc, String.append_assoc]
    exact append_suffix_ne _ _ _ hstr
  have hnodep : ∀ d, second ++ ":" ++ srcDir ≠ "dep:" ++ d :=
    fun d => ne_dep_key_of_not_startsWith _ d hkey
  have hpA := processFile_processor E fp depth s first distDir srcDir
  have hpB := processFile_processor E fp depth s second distDir srcDir
  have hcfg := processFile_config E fp depth s first distDir srcDir
  -- what the first call leaves of the state the second call reads
  have hfw : (processFile E fp depth s first distDir
        srcDir).processor.dependencyTracker.dependencies.get (E.path.resolve second)
      = fp.dependencyTracker.dependencies.get (E.path.resolve second) := by
    rw [hpA.1]
    exact DependencyTracker.shouldRegenerateJsFile_get_of_ne E.path hP E.fs s _ _ _ _ hne
  have hk : (processFile E fp depth s first distDir
        srcDir).processor.dependencyTracker.dependencyCache.get (second ++ ":" ++ srcDir)
      = fp.dependencyTracker.dependencyCache.get (second ++ ":" ++ srcDir) := by
    rw [hpA.1]
    exact DependencyTracker.shouldRegenerateJsFile_cache E.path E.fs s _ _ _ _ hkeys
      (fun d _ => hnodep d)
  have hfc : (CacheManager.hasFileContentChanged E.path E.fs s
        (processFile E fp depth s first distDir srcDir).processor.cache second).1
      = (CacheManager.hasFileContentChanged E.path E.fs s fp.cache second).1 := by
    apply CacheManager.hasFileContentChanged_fst_congr
    rw [hpA.2]
    exact CacheManager.hasFileContentChanged_fileHashes_of_ne E.path E.fs s _ _ _ hne
  -- the second entry alone
  rw [processFile_eq] at hown
  cases hsr : (DependencyTracker.shouldRegenerateJsFile E.path E.fs s fp.dependencyTracker
      second srcDir).1 with
  | error e =>
    rw [hsr] at hown
    simp at hown
  | ok b =>
    rw [hsr] at hown
    simp only [] at hown
    by_cases hskip : (!(CacheManager.hasFileContentChanged E.path E.fs s fp.cache second).1
        && !b) = true
    · rw [if_pos hskip] at hown
      simp at hown
    · rw [if_neg hskip] at hown
      have hworldB : (processFile E fp depth s second distDir srcDir).world
          = (build E
            { fp with
              cache := (CacheManager.hasFileContentChanged E.path E.fs s fp.cache second).2,
              dependencyTracker := (DependencyTracker.shouldRegenerateJsFile E.path E.fs s
                fp.dependencyTracker second srcDir).2 }
            depth s second distDir srcDir).world := by
        rw [processFile_eq, hsr]
        simp only []
        rw [if_neg hskip]
      -- the second entry after the first
      obtain ⟨b2, hsr2, hb2⟩ : ∃ b2,
          (DependencyTracker.shouldRegenerateJsFile E.path E.fs s
            (processFile E fp depth s first distDir srcDir).processor.dependencyTracker
            second srcDir).1 = .ok b2 ∧
          ((CacheManager.hasFileContentChanged E.path E.fs s fp.cache second).1 = true
            ∨ b2 = b) := by
        rcases hind with hchanged | ⟨hkeyA, hdisj⟩
        · obtain ⟨b2, h2⟩ := DependencyTracker.shouldRegenerateJsFile_ok_congr E.path E.fs s
            fp.dependencyTracker _ second srcDir hfw hk b hsr
          exact ⟨b2, h2, Or.inl hchanged⟩
        · refine ⟨b, ?_, Or.inr rfl⟩
          rw [← hsr]
          apply DependencyTracker.shouldRegenerateJsFile_fst_congr E.path E.fs s
            fp.dependencyTracker _ second srcDir hfw hk hnodep
          intro d hd
          rw [hpA.1]
          apply DependencyTracker.shouldRegenerateJsFile_cache
          · exact ne_dep_key_of_not_startsWith _ d hkeyA
          · intro d2 hd2
            apply append_prefix_ne
            intro hdd
            subst hdd
            rw [← hpA.1] at hd2
            rw [← hpB.1] at hd
            exact hdisj d hd2 hd
      have hskip2 : ¬ (!(CacheManager.hasFileContentChanged E.path E.fs s
            (processFile E fp depth s first distDir srcDir).processor.cache second).1
          && !b2) = true := by
        rw [hfc]
        rcases hb2 with h | h
        · simp [h]
        · rw [h]
          exact hskip
      have hbuild := build_congr E
        { fp with
          cache := (CacheManager.hasFileContentChanged E.path E.fs s fp.cache second).2,
          dependencyTracker := (DependencyTracker.shouldRegenerateJsFile E.path E.fs s
            fp.dependencyTracker second srcDir).2 }
        { (processFile E fp depth s first distDir srcDir).processor with
          cache := (CacheManager.hasFileContentChanged E.path E.fs s
            (processFile E fp depth s first distDir srcDir).processor.cache second).2,
          dependencyTracker := (DependencyTracker.shouldRegenerateJsFile E.path E.fs s
            (processFile E fp depth s first distDir srcDir).processor.dependencyTracker
            second srcDir).2 }
        depth s hcfg.1 hcfg.2 second distDir srcDir
      rw [processFile_eq, hsr2]
      simp only []
      rw [if_neg hskip2, hworldB]
      refine ⟨hbuild.1.trans hown, hbuild.2.1, ?_⟩
      exact build_generated E _ depth s second distDir srcDir distFile finalCode
        (hbuild.1.trans hown)

end FileProcessor

/-! ## Analysis and staleness -/

namespace DependencyTracker

variable {σ : Type}

theorem mem_foldl_addIfExists (P : NodePath) (F : NodeFs σ) (s : σ) (srcDir : String)
    (found : List (String × String)) (acc : JsSet) (p : String) :
    p ∈ found.foldl (addIfExists P F s srcDir) acc ↔
      p ∈ acc ∨ ∃ m ∈ found, p = P.join [srcDir, m.1, m.2 ++ "." ++ m.1] ∧
        (F.stat s p).isSome = true := by
  induction found generalizing acc with
  | nil => simp
  | cons m rest ih =>
    rw [List.foldl_cons, ih]
    cases hst : F.stat s (P.join [srcDir, m.1, m.2 ++ "." ++ m.1]) with
    | none =>
      have hadd : addIfExists P F s srcDir acc m = acc := by
        simp [addIfExists, FileSystemUtils.getStats, hst]
      rw [hadd]
      simp only [List.mem_cons]
      constructor
      · rintro (h | ⟨m2, hm2, h⟩)
        · exact Or.inl h
        · exact Or.inr ⟨m2, Or.inr hm2, h⟩
      · rintro (h | ⟨m2, hm2 | hm2, h⟩)
        · exact Or.inl h
        · subst hm2
          rw [h.1, hst] at h
          simp at h
        · exact Or.inr ⟨m2, hm2, h⟩
    | some st =>
      have hadd : addIfExists P F s srcDir acc m
          = JsSet.add acc (P.join [srcDir, m.1, m.2 ++ "." ++ m.1]) := by
        simp [addIfExists, FileSystemUtils.getStats, hst]
      rw [hadd]
      simp only [List.mem_cons, JsSet.mem_add]
      constructor
      · rintro ((h | h) | ⟨m2, hm2, h⟩)
        · exact Or.inl h
        · exact Or.inr ⟨m, Or.inl rfl, h, by rw [h, hst]; rfl⟩
        · exact Or.inr ⟨m2, Or.inr hm2, h⟩
      · rintro (h | ⟨m2, hm2 | hm2, h⟩)
        · exact Or.inl (Or.inl h)
        · subst hm2
          exact Or.inl (Or.inr h.1)
        · exact Or.inr ⟨m2, hm2, h⟩

end DependencyTracker

/-! ## Claims on the analysis -/

/-- C18, the code at a failing input: on the content `{{title}} {{css/a}}` the regular
expression of `analyzeDependencies` has one match, with the type
`title}} {{css` and the name `a`: the pair of the token
`{{css/a}}`, type `css` and name `a`, is not extracted. -/
theorem placeholders_misses_token_after_braces :
    placeholders "\x7b\x7btitle\x7d\x7d \x7b\x7bcss/a\x7d\x7d"
        = [("title\x7d\x7d \x7b\x7bcss", "a")] ∧
      ("css", "a") ∉ placeholders "\x7b\x7btitle\x7d\x7d \x7b\x7bcss/a\x7d\x7d" := by
  decide

/-- C19 fails as stated: after a first analysis of the entry,
`src/css/b.css` is deleted; the second analysis returns the cached set, with
the path of `b.css` in it. -/
theorem analyzeDependencies_returns_cached_set :
    memEnv.fs.stat (withoutB (project twoFragments)) "/w/src/css/b.css" = none ∧
      (DependencyTracker.analyzeDependencies memEnv.path memEnv.fs
          (withoutB (project twoFragments))
          (DependencyTracker.analyzeDependencies memEnv.path memEnv.fs (project twoFragments)
            DependencyTracker.new "/w/source/main.js" "/w/src").2
          "/w/source/main.js" "/w/src").1
        = .deps ["/w/src/css/a.css", "/w/src/css/b.css"] := by
  decide!

/-- C19, as the code has it: when `dependencyCache` has no value for the entry and the
fragments directory, `analyzeDependencies` returns a set (nothing is thrown);
the set is empty when the entry cannot be read, and otherwise its members are
exactly the paths `path.join(srcDir, type, name.type)` of the extracted pairs
whose file `stat` finds. -/
theorem analyzeDependencies_on_miss {σ : Type} (P : NodePath) (F : NodeFs σ) (s : σ)
    (t : DependencyTracker) (jsFilePath srcDir : String)
    (hmiss : t.dependencyCache.get (jsFilePath ++ ":" ++ srcDir) = none) :
    ∃ found, (DependencyTracker.analyzeDependencies P F s t jsFilePath srcDir).1 = .deps found ∧
      (F.readFile s jsFilePath = none → found = []) ∧
      ∀ content, F.readFile s jsFilePath = some content →
        ∀ p, p ∈ found ↔ ∃ m ∈ placeholders content,
          p = P.join [srcDir, m.1, m.2 ++ "." ++ m.1] ∧ (F.stat s p).isSome = true := by
  unfold DependencyTracker.analyzeDependencies FileSystemUtils.readFile
  simp only [hmiss]
  cases hr : F.readFile s jsFilePath with
  | none => exact ⟨[], rfl, fun _ => rfl, fun content hc => by simp at hc⟩
  | some content =>
    refine ⟨_, rfl, fun h => by simp at h, ?_⟩
    intro c hc p
    simp only [Option.some.injEq] at hc
    subst hc
    rw [DependencyTracker.mem_foldl_addIfExists]
    simp

/-- Witness of C19 as amended: the first analysis of the entry of the project, after
`b.css` is deleted: the path of `a.css` is in the set, the one of `b.css` is
not. -/
theorem analyzeDependencies_on_miss_witness :
    ∃ found, (DependencyTracker.analyzeDependencies memEnv.path memEnv.fs
        (withoutB (project twoFragments)) DependencyTracker.new "/w/source/main.js" "/w/src").1
          = .deps found ∧
      "/w/src/css/a.css" ∈ found ∧ "/w/src/css/b.css" ∉ found := by
  obtain ⟨found, h1, _, h3⟩ := analyzeDependencies_on_miss memEnv.path memEnv.fs
    (withoutB (project twoFragments)) DependencyTracker.new "/w/source/main.js" "/w/src"
    (by decide)
  have hread : memEnv.fs.readFile (withoutB (project twoFragments)) "/w/source/main.js"
      = some twoFragments := by decide
  refine ⟨found, h1, (h3 _ hread _).mpr ⟨("css", "a"), by decide, by decide, by decide⟩,
    fun h => ?_⟩
  obtain ⟨m, _, _, hst⟩ := (h3 _ hread _).mp h
  exact absurd hst (by decide)

/-! ## Claims on staleness -/

/-- C20 fails as stated: after a successful build of an entry with the
fragment `a.css`, the fragment is given another content and its former
modification time; `shouldRegenerateJsFile` returns `false`. -/
theorem shouldRegenerateJsFile_misses_content_change :
    singleBuild.outcome = .generated "/w/dist/main.js"
        "minified_transformed_\x7b\x7bcss/a\x7d\x7d/* processed css *//* processed css */" ∧
      memEnv.fs.readFile singleBuild.world "/w/src/css/a.css" = some ".a\x7bcolor:red\x7d" ∧
      memEnv.fs.readFile (restyled singleBuild.world) "/w/src/css/a.css"
        = some ".a\x7bcolor:green\x7d" ∧
      singleBuild.processor.dependencyTracker.dependencies.get "/w/source/main.js"
        = some ["/w/src/css/a.css"] ∧
      (DependencyTracker.shouldRegenerateJsFile memEnv.path memEnv.fs (restyled singleBuild.world)
          singleBuild.processor.dependencyTracker "/w/source/main.js" "/w/src").1
        = .ok false := by
  decide!

/-- C20, as the code has it: for an entry with a registered edge set,
`shouldRegenerateJsFile` returns `true` exactly when some fragment of the set
is not recorded: it is missing from disk, or `dependencyCache` holds no stats
of it, or its modification time differs from the one of the stats held. In
particular it returns `true` when a fragment of the set is missing. The content
of the fragments is not read. -/
theorem shouldRegenerateJsFile_iff_unrecorded {σ : Type} (P : NodePath) (F : NodeFs σ) (s : σ)
    (t : DependencyTracker) (jsFilePath srcDir : String) (deps : JsSet)
    (hreg : t.dependencies.get (P.resolve jsFilePath) = some deps) :
    (DependencyTracker.shouldRegenerateJsFile P F s t jsFilePath srcDir).1
        = .ok (deps.any (fun d => !DependencyTracker.isRecorded F s t d)) ∧
      ((∃ d ∈ deps, F.stat s d = none) →
        (DependencyTracker.shouldRegenerateJsFile P F s t jsFilePath srcDir).1 = .ok true) := by
  have hr : DependencyTracker.registerIfAbsent P F s t jsFilePath srcDir = .ok t := by
    simp [DependencyTracker.registerIfAbsent, JsMap.has, hreg]
  have h1 : (DependencyTracker.shouldRegenerateJsFile P F s t jsFilePath srcDir).1
      = .ok (deps.any (fun d => !DependencyTracker.isRecorded F s t d)) := by
    unfold DependencyTracker.shouldRegenerateJsFile
    rw [hr]
    simp only [hreg]
    by_cases h0 : deps.size = 0
    · have : deps = [] := List.length_eq_zero.mp h0
      subst this
      simp [JsSet.size]
    · simp only [h0, if_false]
      rw [DependencyTracker.checkDependencies_fst_eq_any]
  refine ⟨h1, ?_⟩
  rintro ⟨d, hd, hst⟩
  rw [h1]
  congr 1
  rw [List.any_eq_true]
  exact ⟨d, hd, by simp [DependencyTracker.isRecorded, hst]⟩

/-- Witness of C20 as amended: the entry built once, then one of its two fragments
deleted. -/
theorem shouldRegenerateJsFile_iff_unrecorded_witness :
    firstBuild.processor.dependencyTracker.dependencies.get
        (memEnv.path.resolve "/w/source/main.js")
      = some ["/w/src/css/a.css", "/w/src/css/b.css"] ∧
    memEnv.fs.stat (withoutB firstBuild.world) "/w/src/css/b.css" = none ∧
    (DependencyTracker.shouldRegenerateJsFile memEnv.path memEnv.fs (withoutB firstBuild.world)
        firstBuild.processor.dependencyTracker "/w/source/main.js" "/w/src").1 = .ok true :=
  ⟨by decide!, by decide!,
    (shouldRegenerateJsFile_iff_unrecorded memEnv.path memEnv.fs (withoutB firstBuild.world)
      firstBuild.processor.dependencyTracker "/w/source/main.js" "/w/src"
      ["/w/src/css/a.css", "/w/src/css/b.css"] (by decide!)).2
      ⟨"/w/src/css/b.css", by decide, by decide!⟩⟩

/-! ## Claims on `processAllFiles` -/

/-- A `processFile` call that is started alone and resumed to its end, on the
entry `b.js` of the project after the fragment is rewritten: it ends as
`FileProcessor.processFile` does, with the same file system, cache records and
`processedFiles`. -/
theorem processFile_alone_agrees :
    results (runSchedule (oneByOne 1 100)
        (startAll [Interleaved.processFile strictEnv 8 "/w/source/b.js" "/w/dist" "/w/src"]
          ⟨afterInvalidBatch, sharedProject ".f\x7b\x7d" 2⟩).1
        (startAll [Interleaved.processFile strictEnv 8 "/w/source/b.js" "/w/dist" "/w/src"]
          ⟨afterInvalidBatch, sharedProject ".f\x7b\x7d" 2⟩).2).2
      = [some (FileProcessor.processFile strictEnv afterInvalidBatch 8
          (sharedProject ".f\x7b\x7d" 2) "/w/source/b.js" "/w/dist" "/w/src").outcome] ∧
    (runSchedule (oneByOne 1 100)
        (startAll [Interleaved.processFile strictEnv 8 "/w/source/b.js" "/w/dist" "/w/src"]
          ⟨afterInvalidBatch, sharedProject ".f\x7b\x7d" 2⟩).1
        (startAll [Interleaved.processFile strictEnv 8 "/w/source/b.js" "/w/dist" "/w/src"]
          ⟨afterInvalidBatch, sharedProject ".f\x7b\x7d" 2⟩).2).1.world
      = (FileProcessor.processFile strictEnv afterInvalidBatch 8
          (sharedProject ".f\x7b\x7d" 2) "/w/source/b.js" "/w/dist" "/w/src").world ∧
    (runSchedule (oneByOne 1 100)
        (startAll [Interleaved.processFile strictEnv 8 "/w/source/b.js" "/w/dist" "/w/src"]
          ⟨afterInvalidBatch, sharedProject ".f\x7b\x7d" 2⟩).1
        (startAll [Interleaved.processFile strictEnv 8 "/w/source/b.js" "/w/dist" "/w/src"]
          ⟨afterInvalidBatch, sharedProject ".f\x7b\x7d" 2⟩).2).1.processor.cache.cache
      = (FileProcessor.processFile strictEnv afterInvalidBatch 8
          (sharedProject ".f\x7b\x7d" 2) "/w/source/b.js" "/w/dist" "/w/src").processor.cache.cache ∧
    (runSchedule (oneByOne 1 100)
        (startAll [Interleaved.processFile strictEnv 8 "/w/source/b.js" "/w/dist" "/w/src"]
          ⟨afterInvalidBatch, sharedProject ".f\x7b\x7d" 2⟩).1
        (startAll [Interleaved.processFile strictEnv 8 "/w/source/b.js" "/w/dist" "/w/src"]
          ⟨afterInvalidBatch, sharedProject ".f\x7b\x7d" 2⟩).2).1.processor.processedFiles
      = (FileProcessor.processFile strictEnv afterInvalidBatch 8
          (sharedProject ".f\x7b\x7d" 2) "/w/source/b.js" "/w/dist" "/w/src").processor.processedFiles := by
  decide!


/-- C12, the code at a failing input: `processAllFiles` runs on the project
while the fragment `f.css` is invalid, and both entries fail in the `css`
plugin; the fragment is then rewritten. On its own, `processFile` on `b.js`
now generates `dist/b.js`. In `processAllFiles`, when each of the two calls in
turn is resumed, and also when the call on `a.js` runs to its end first, the
call on `a.js` sees the new modification time of the fragment, records it and
fails in Babel, and the call on `b.js` finds the recorded time and returns
without building: no error reaches `processAllFiles`, `dist/b.js` is not written
and `b.js` is not added to `processedFiles`. With a Babel that accepts `a.js`
the call on `b.js` returns without building as well; when the call on `b.js`
is one step ahead, it is `b.js` that is built and `a.js` that is left out.
`processSrcFileChange` on the fragment, which awaits its two `processFile`
calls one after the other, leaves `b.js` out in the same way. -/
theorem processAllFiles_skips_entry_sharing_fragment :
    (Interleaved.processAllFiles strictEnv (FileProcessor.new strictPlugins false) 8
        (sharedProject "invalid css syntax \x7b" 1) "/w/source" "/w/dist" "/w/src"
        (inTurn 2 100)).outcomes
      = [some (.failed (.pluginError "Plugin css failed: CSS plugin failed" "css"
          "/w/src/css/f.css")),
         some (.failed (.pluginError "Plugin css failed: CSS plugin failed" "css"
          "/w/src/css/f.css"))] ∧
    (FileProcessor.processFile strictEnv afterInvalidBatch 8 (sharedProject ".f\x7b\x7d" 2)
        "/w/source/b.js" "/w/dist" "/w/src").outcome
      = .generated "/w/dist/b.js" "minified_transformed_\x7b\x7bcss/f\x7d\x7d/*.f\x7b\x7d*/" ∧
    (Interleaved.processAllFiles strictEnv afterInvalidBatch 8 (sharedProject ".f\x7b\x7d" 2)
        "/w/source" "/w/dist" "/w/src" (inTurn 2 100)).error = none ∧
    (Interleaved.processAllFiles strictEnv afterInvalidBatch 8 (sharedProject ".f\x7b\x7d" 2)
        "/w/source" "/w/dist" "/w/src" (inTurn 2 100)).called
      = ["/w/source/a.js", "/w/source/b.js"] ∧
    (Interleaved.processAllFiles strictEnv afterInvalidBatch 8 (sharedProject ".f\x7b\x7d" 2)
        "/w/source" "/w/dist" "/w/src" (inTurn 2 100)).outcomes
      = [some (.failed (.buildError "Babel transformation failed: Unexpected character"
          "/w/source/a.js")), some .skipped] ∧
    FileSystemUtils.fileExists strictEnv.fs
      (Interleaved.processAllFiles strictEnv afterInvalidBatch 8 (sharedProject ".f\x7b\x7d" 2)
        "/w/source" "/w/dist" "/w/src" (inTurn 2 100)).world "/w/dist/b.js" = false ∧
    "/w/source/b.js" ∉ (Interleaved.processAllFiles strictEnv afterInvalidBatch 8
        (sharedProject ".f\x7b\x7d" 2) "/w/source" "/w/dist" "/w/src"
        (inTurn 2 100)).processor.processedFiles ∧
    (Interleaved.processAllFiles strictEnv afterInvalidBatch 8 (sharedProject ".f\x7b\x7d" 2)
        "/w/source" "/w/dist" "/w/src" (oneByOne 2 100)).outcomes
      = [some (.failed (.buildError "Babel transformation failed: Unexpected character"
          "/w/source/a.js")), some .skipped] ∧
    (Interleaved.processAllFiles memEnv afterInvalidBatch 8 (sharedProject ".f\x7b\x7d" 2)
        "/w/source" "/w/dist" "/w/src" (inTurn 2 100)).outcomes
      = [some (.generated "/w/dist/a.js"
          "minified_transformed_@@ \x7b\x7bcss/f\x7d\x7d/*.f\x7b\x7d*/"), some .skipped] ∧
    (Interleaved.processAllFiles strictEnv afterInvalidBatch 8 (sharedProject ".f\x7b\x7d" 2)
        "/w/source" "/w/dist" "/w/src" (1 :: inTurn 2 100)).outcomes
      = [some .skipped,
         some (.generated "/w/dist/b.js"
          "minified_transformed_\x7b\x7bcss/f\x7d\x7d/*.f\x7b\x7d*/")] ∧
    (FileProcessor.processSrcFileChange strictEnv afterInvalidBatch 8
        (sharedProject ".f\x7b\x7d" 2) "/w/src/css/f.css" "/w/dist" "/w/src").called
      = ["/w/source/a.js", "/w/source/b.js"] ∧
    (FileProcessor.processSrcFileChange strictEnv afterInvalidBatch 8
        (sharedProject ".f\x7b\x7d" 2) "/w/src/css/f.css" "/w/dist" "/w/src").outcomes
      = [.failed (.buildError "Babel transformation failed: Unexpected character"
          "/w/source/a.js"), .skipped] := by
  decide!

/-! ## The reverse map has no empty set -/

namespace DependencyTracker

theorem removeReverse_get_ne (P : NodePath) (r : String) (rev : JsMap JsSet) (depPath : String)
    (h : ∀ G, rev.get G ≠ some []) (G : String) :
    (removeReverse P r rev depPath).get G ≠ some [] := by
  simp only [removeReverse]
  cases hget : rev.get (P.resolve depPath) with
  | none => exact h G
  | some s =>
    simp only []
    by_cases h0 : (JsSet.delete s r).size = 0
    · rw [if_pos h0]
      by_cases hG : P.resolve depPath = G
      · subst hG
        rw [JsMap.get_delete_self]
        simp
      · rw [JsMap.get_delete_of_ne _ _ _ hG]
        exact h G
    · rw [if_neg h0]
      by_cases hG : P.resolve depPath = G
      · subst hG
        rw [JsMap.get_set_self]
        intro h2
        simp only [Option.some.injEq] at h2
        rw [h2] at h0
        exact h0 rfl
      · rw [JsMap.get_set_of_ne _ _ _ _ hG]
        exact h G

theorem addReverse_get_ne (P : NodePath) (r : String) (rev : JsMap JsSet) (depPath : String)
    (h : ∀ G, rev.get G ≠ some []) (G : String) :
    (addReverse P r rev depPath).get G ≠ some [] := by
  simp only [addReverse]
  by_cases hG : P.resolve depPath = G
  · subst hG
    rw [JsMap.get_set_self]
    intro h2
    simp only [Option.some.injEq] at h2
    have hmem : r ∈ JsSet.add ((if rev.has (P.resolve depPath) = true then rev
        else rev.set (P.resolve depPath) []).members (P.resolve depPath)) r :=
      (JsSet.mem_add _ _ _).mpr (Or.inr rfl)
    rw [h2] at hmem
    simp at hmem
  · rw [JsMap.get_set_of_ne _ _ _ _ hG]
    by_cases hhas : rev.has (P.resolve depPath) = true
    · rw [if_pos hhas]
      exact h G
    · rw [if_neg hhas, JsMap.get_set_of_ne _ _ _ _ hG]
      exact h G

theorem foldl_removeReverse_get_ne (P : NodePath) (r : String) (deps : List String)
    (rev : JsMap JsSet) (h : ∀ G, rev.get G ≠ some []) (G : String) :
    (deps.foldl (removeReverse P r) rev).get G ≠ some [] := by
  induction deps generalizing rev with
  | nil => exact h G
  | cons d deps ih => exact ih _ (removeReverse_get_ne P r rev d h)

theorem foldl_addReverse_get_ne (P : NodePath) (r : String) (deps : List String)
    (rev : JsMap JsSet) (h : ∀ G, rev.get G ≠ some []) (G : String) :
    (deps.foldl (addReverse P r) rev).get G ≠ some [] := by
  induction deps generalizing rev with
  | nil => exact h G
  | cons d deps ih => exact ih _ (addReverse_get_ne P r rev d h)

theorem removeDependencies_get_ne (P : NodePath) (t : DependencyTracker) (js : String)
    (h : ∀ G, t.reverseDependencies.get G ≠ some []) (G : String) :
    (removeDependencies P t js).reverseDependencies.get G ≠ some [] := by
  rw [removeDependencies_reverse]
  exact foldl_removeReverse_get_ne P _ _ _ h G

theorem registerDependencies_get_ne (P : NodePath) (t : DependencyTracker) (js : String)
    (deps : List String) (h : ∀ G, t.reverseDependencies.get G ≠ some []) (G : String) :
    (registerDependencies P t js deps).reverseDependencies.get G ≠ some [] := by
  have h2 : (registerDependencies P t js deps).reverseDependencies =
      deps.foldl (addReverse P (P.resolve js))
        (removeDependencies P t (P.resolve js)).reverseDependencies := rfl
  rw [h2]
  exact foldl_addReverse_get_ne P _ _ _ (removeDependencies_get_ne P t _ h) G

theorem run_get_ne (P : NodePath) (calls : List Call) (G : String) :
    (run P calls).reverseDependencies.get G ≠ some [] := by
  unfold run
  induction calls using List.reverseRecOn generalizing G with
  | nil => simp [new, JsMap.get]
  | append_singleton calls c ih =>
    rw [List.foldl_append]
    simp only [List.foldl_cons, List.foldl_nil]
    cases c with
    | register js deps => exact registerDependencies_get_ne P _ js deps (fun G2 => ih G2) G
    | remove js => exact removeDependencies_get_ne P _ js (fun G2 => ih G2) G
    | invalidate p =>
      simp only [step, invalidateDependencyCache]
      exact removeDependencies_get_ne P _ _ (fun G2 => ih G2) G
    | clear => simp [step, clearCache, JsMap.get]

end DependencyTracker

/-! ## Claims on the purge of an entry -/

/-- C21: in every tracker state whose two maps hold the same edges (every state
reached from a new tracker), after `removeDependencies(E)` the forward map has
no key for `E` and no reverse set contains `E`, while for every other entry
the forward set and the membership in every reverse set are unchanged; `E` is
named by its resolved path, as in the two maps. -/
theorem removeDependencies_purges_one_entry (P : NodePath) (t : DependencyTracker)
    (ht : DependencyTracker.Consistent P t) (E : String) :
    (DependencyTracker.removeDependencies P t E).dependencies.get (P.resolve E) = none ∧
      (∀ G, P.resolve E ∉
        (DependencyTracker.removeDependencies P t E).reverseDependencies.members G) ∧
      ∀ E2, E2 ≠ P.resolve E →
        (DependencyTracker.removeDependencies P t E).dependencies.get E2
            = t.dependencies.get E2 ∧
          ∀ G, E2 ∈ (DependencyTracker.removeDependencies P t E).reverseDependencies.members G
            ↔ E2 ∈ t.reverseDependencies.members G := by
  refine ⟨?_, ?_, ?_⟩
  · simp [DependencyTracker.removeDependencies, JsMap.get_delete_self]
  · intro G hmem
    have h2 := (DependencyTracker.consistent_removeDependencies P t E ht (P.resolve E) G).mp hmem
    rw [DependencyTracker.removeDependencies_forward] at h2
    simp at h2
  · intro E2 hE2
    refine ⟨?_, fun G => ?_⟩
    · simp only [DependencyTracker.removeDependencies]
      exact JsMap.get_delete_of_ne _ _ _ (Ne.symm hE2)
    · rw [DependencyTracker.removeDependencies_reverse,
        DependencyTracker.mem_foldl_removeReverse]
      constructor
      · exact fun h => h.1
      · exact fun h => ⟨h, fun h2 => hE2 h2.1⟩

/-- Witness of C21: of the two entries registered on `a.css`, `main.js` is
removed; `other.js` keeps its forward set and stays in the reverse set of
`a.css`. -/
theorem removeDependencies_purges_one_entry_witness :
    (DependencyTracker.removeDependencies (posixPath "/w")
        (DependencyTracker.run (posixPath "/w") twoEntries)
        "/w/source/main.js").dependencies.get ((posixPath "/w").resolve "/w/source/main.js")
      = none ∧
    (DependencyTracker.removeDependencies (posixPath "/w")
        (DependencyTracker.run (posixPath "/w") twoEntries)
        "/w/source/main.js").dependencies.get "/w/source/other.js"
      = some ["/w/src/css/a.css"] ∧
    "/w/source/other.js" ∈ (DependencyTracker.removeDependencies (posixPath "/w")
        (DependencyTracker.run (posixPath "/w") twoEntries)
        "/w/source/main.js").reverseDependencies.members "/w/src/css/a.css" :=
  have h := removeDependencies_purges_one_entry (posixPath "/w")
    (DependencyTracker.run (posixPath "/w") twoEntries)
    (DependencyTracker.consistent_run (posixPath "/w") (posixPath_lawful "/w") twoEntries)
    "/w/source/main.js"
  ⟨h.1, (h.2.2 "/w/source/other.js" (by decide)).1.trans (by decide),
    ((h.2.2 "/w/source/other.js" (by decide)).2 "/w/src/css/a.css").mpr (by decide)⟩

/-- C22: after any sequence of `registerDependencies`, `removeDependencies`,
`invalidateDependencyCache` and `clearCache` calls on a new tracker, a fragment
(named by its resolved path) is a key of `reverseDependencies` if and only if
the forward set of some entry holds a path that resolves to it, and no key of
`reverseDependencies` maps to an empty set. -/
theorem reverseDependencies_no_orphan (P : NodePath) (hP : P.Lawful)
    (calls : List DependencyTracker.Call) :
    (∀ G, (DependencyTracker.run P calls).reverseDependencies.has G = true ↔
        ∃ E F, F ∈ (DependencyTracker.run P calls).dependencies.members E ∧ P.resolve F = G) ∧
      ∀ G, (DependencyTracker.run P calls).reverseDependencies.get G ≠ some [] := by
  have hne := DependencyTracker.run_get_ne P calls
  have hc := DependencyTracker.consistent_run P hP calls
  refine ⟨fun G => ?_, hne⟩
  constructor
  · intro hhas
    cases hget : (DependencyTracker.run P calls).reverseDependencies.get G with
    | none => simp [JsMap.has, hget] at hhas
    | some s =>
      cases s with
      | nil => exact absurd hget (hne G)
      | cons E rest =>
        have hmem : E ∈ (DependencyTracker.run P calls).reverseDependencies.members G := by
          simp [JsMap.members, hget]
        obtain ⟨F, hF, hr⟩ := (hc E G).mp hmem
        exact ⟨E, F, hF, hr⟩
  · rintro ⟨E, F, hF, hr⟩
    have hmem := (hc E G).mpr ⟨F, hF, hr⟩
    cases hget : (DependencyTracker.run P calls).reverseDependencies.get G with
    | none => simp [JsMap.members, hget] at hmem
    | some s => simp [JsMap.has, hget]

/-- Witness of C22: two entries registered on `a.css`, one of them also on
`b.css`, then the one on both removed: `a.css` is still a key of the reverse
map, `b.css` is not. -/
theorem reverseDependencies_no_orphan_witness :
    (DependencyTracker.run (posixPath "/w")
        (twoEntries ++ [.remove "/w/source/main.js"])).reverseDependencies.has
          "/w/src/css/a.css" = true ∧
      ¬ ∃ E F, F ∈ (DependencyTracker.run (posixPath "/w")
          (twoEntries ++ [.remove "/w/source/main.js"])).dependencies.members E ∧
        (posixPath "/w").resolve F = "/w/src/css/b.css" :=
  have h := reverseDependencies_no_orphan (posixPath "/w") (posixPath_lawful "/w")
    (twoEntries ++ [.remove "/w/source/main.js"])
  ⟨by decide, fun h2 => absurd ((h.1 "/w/src/css/b.css").mpr h2) (by decide)⟩

/-! ## Keys of a map -/

namespace JsMap

variable {β : Type}

theorem keys_set (m : JsMap β) (k : String) (v : β) :
    (m.set k v).keys = if k ∈ m.keys then m.keys else m.keys ++ [k] := by
  induction m with
  | nil => simp [set, keys]
  | cons e m ih =>
    rcases e with ⟨k2, v2⟩
    simp only [keys] at ih
    by_cases h : k2 = k
    · simp [set, keys, h]
    · have h2 : ¬ k = k2 := fun h3 => h h3.symm
      simp only [set, keys, h, if_false, List.map_cons, List.mem_cons, h2, false_or, ih]
      split <;> simp

theorem keys_delete (m : JsMap β) (k : String) :
    (m.delete k).keys = m.keys.filter (fun x => x ≠ k) := by
  induction m with
  | nil => simp [delete, keys]
  | cons e m ih =>
    rcases e with ⟨k2, v2⟩
    simp only [keys] at ih
    by_cases h : k2 = k
    · simp [delete, keys, h, ih]
    · simp [delete, keys, h, ih]

theorem keys_foldl_delete (doomed : List String) (m : JsMap β) :
    (doomed.foldl delete m).keys
      = doomed.foldl (fun ks k => ks.filter (fun x => x ≠ k)) m.keys := by
  induction doomed generalizing m with
  | nil => rfl
  | cons k rest ih => rw [List.foldl_cons, ih, keys_delete, List.foldl_cons]

theorem get_foldl_delete_of_get (doomed : List String) (m : JsMap β) (k : String)
    (h : m.get k = none) : (doomed.foldl delete m).get k = none := by
  induction doomed generalizing m with
  | nil => exact h
  | cons d rest ih =>
    rw [List.foldl_cons]
    apply ih
    by_cases hd : d = k
    · subst hd
      exact get_delete_self m d
    · rw [get_delete_of_ne m d k hd]
      exact h

theorem get_foldl_delete_of_mem (doomed : List String) (m : JsMap β) (k : String)
    (h : k ∈ doomed) : (doomed.foldl delete m).get k = none := by
  induction doomed generalizing m with
  | nil => simp at h
  | cons d rest ih =>
    rw [List.foldl_cons]
    rcases List.mem_cons.mp h with hd | hd
    · subst hd
      exact get_foldl_delete_of_get rest _ k (get_delete_self m k)
    · exact ih _ hd

theorem mem_keys_of_get (m : JsMap β) (k : String) (v : β) (h : m.get k = some v) :
    k ∈ m.keys := by
  induction m with
  | nil => simp [get] at h
  | cons e m ih =>
    rcases e with ⟨k2, v2⟩
    simp only [keys] at ih
    by_cases h2 : k2 = k
    · simp [keys, h2]
    · simp only [get, h2, if_false] at h
      simp [keys, ih h]

end JsMap

theorem jsStartsWith_append (head tail : String) : jsStartsWith (head ++ tail) head = true := by
  simp [jsStartsWith, String.data_append]

/-! ## Records and timestamps of `CacheManager` -/

namespace CacheManager

variable {ρ σ : Type}

theorem getCache_setCache (P : NodePath) (F : NodeFs σ) (s : σ) (c : CacheManager ρ)
    (filePath : String) (result : ρ) (operation : String) (stats : Stats)
    (h : F.stat s filePath = some stats) :
    (setCache P F s c filePath result operation).cache
        = c.cache.set (generateCacheKey P filePath operation) result ∧
      (setCache P F s c filePath result operation).fileTimestamps
        = c.fileTimestamps.set (generateCacheKey P filePath operation) stats.mtime := by
  simp [setCache, FileSystemUtils.getStats, h]

/-- Both maps of the cache manager lose the key of the file and the operation
in `invalidateCache`, when the record map has the key. -/
theorem invalidateCache_get_self (P : NodePath) (c : CacheManager ρ)
    (filePath operation : String) (result : ρ)
    (h : c.cache.get (generateCacheKey P filePath operation) = some result) :
    (invalidateCache P c filePath (some operation)).cache.get
        (generateCacheKey P filePath operation) = none ∧
      (invalidateCache P c filePath (some operation)).fileTimestamps.get
        (generateCacheKey P filePath operation) = none := by
  simp only [invalidateCache]
  by_cases hop : operation ≠ ""
  · rw [if_pos hop]
    exact ⟨JsMap.get_delete_self _ _, JsMap.get_delete_self _ _⟩
  · rw [if_neg hop]
    have hmem : generateCacheKey P filePath operation
        ∈ c.cache.keys.filter (fun key => jsStartsWith key (P.resolve filePath)) := by
      rw [List.mem_filter]
      refine ⟨JsMap.mem_keys_of_get _ _ _ h, ?_⟩
      unfold generateCacheKey
      rw [String.append_assoc]
      exact jsStartsWith_append _ _
    exact ⟨JsMap.get_foldl_delete_of_mem _ _ _ hmem, JsMap.get_foldl_delete_of_mem _ _ _ hmem⟩

theorem invalidateCache_keys (P : NodePath) (c : CacheManager ρ) (filePath : String)
    (operation : Option String) (h : c.cache.keys = c.fileTimestamps.keys) :
    (invalidateCache P c filePath operation).cache.keys
      = (invalidateCache P c filePath operation).fileTimestamps.keys := by
  cases operation with
  | none =>
    simp only [invalidateCache]
    rw [JsMap.keys_foldl_delete, JsMap.keys_foldl_delete, h]
  | some op =>
    simp only [invalidateCache]
    by_cases hop : op ≠ ""
    · rw [if_pos hop]
      simp only []
      rw [JsMap.keys_delete, JsMap.keys_delete, h]
    · rw [if_neg hop]
      simp only []
      rw [JsMap.keys_foldl_delete, JsMap.keys_foldl_delete, h]

theorem setCache_keys (P : NodePath) (F : NodeFs σ) (s : σ) (c : CacheManager ρ)
    (filePath : String) (result : ρ) (operation : String)
    (h : c.cache.keys = c.fileTimestamps.keys) :
    (setCache P F s c filePath result operation).cache.keys
      = (setCache P F s c filePath result operation).fileTimestamps.keys := by
  unfold setCache
  cases FileSystemUtils.getStats F s filePath with
  | error _ => exact h
  | ok stats =>
    simp only []
    rw [JsMap.keys_set, JsMap.keys_set, h]

theorem isCacheValid_keys (P : NodePath) (F : NodeFs σ) (s : σ) (c : CacheManager ρ)
    (filePath operation : String) (h : c.cache.keys = c.fileTimestamps.keys) :
    (isCacheValid P F s c filePath operation).2.cache.keys
      = (isCacheValid P F s c filePath operation).2.fileTimestamps.keys := by
  unfold isCacheValid
  simp only []
  split
  · exact h
  · cases FileSystemUtils.getStats F s filePath with
    | error _ => exact invalidateCache_keys P c filePath _ h
    | ok stats =>
      simp only []
      split
      · exact invalidateCache_keys P c filePath _ h
      · exact h

theorem hasFileContentChanged_keys (P : NodePath) (F : NodeFs σ) (s : σ) (c : CacheManager ρ)
    (filePath : String) :
    (hasFileContentChanged P F s c filePath).2.cache = c.cache ∧
      (hasFileContentChanged P F s c filePath).2.fileTimestamps = c.fileTimestamps := by
  unfold hasFileContentChanged
  cases FileSystemUtils.getFileHash F s filePath with
  | error _ => exact ⟨rfl, rfl⟩
  | ok currentHash =>
    simp only []
    cases getFileHash P c filePath with
    | none => exact ⟨rfl, rfl⟩
    | some cachedHash =>
      simp only []
      split
      · exact ⟨rfl, rfl⟩
      · split <;> exact ⟨rfl, rfl⟩

theorem step_keys (P : NodePath) (F : NodeFs σ) (c : CacheManager ρ) (call : Call ρ σ)
    (h : c.cache.keys = c.fileTimestamps.keys) :
    (step P F c call).cache.keys = (step P F c call).fileTimestamps.keys := by
  cases call with
  | setCache s filePath result operation => exact setCache_keys P F s c _ _ _ h
  | isCacheValid s filePath operation => exact isCacheValid_keys P F s c _ _ h
  | invalidateCache filePath operation => exact invalidateCache_keys P c _ _ h
  | clearCache => rfl
  | setFileHash filePath hash => exact h
  | hasFileContentChanged s filePath =>
    simp only [step]
    rw [(hasFileContentChanged_keys P F s c filePath).1,
      (hasFileContentChanged_keys P F s c filePath).2]
    exact h

theorem run_keys (P : NodePath) (F : NodeFs σ) (calls : List (Call ρ σ)) :
    (run P F calls : CacheManager ρ).cache.keys
      = (run P F calls : CacheManager ρ).fileTimestamps.keys := by
  unfold run
  induction calls using List.reverseRecOn with
  | nil => rfl
  | append_singleton calls call ih =>
    rw [List.foldl_append]
    exact step_keys P F _ call ih

end CacheManager

/-! ## Claims on the cache records -/

/-- C30: after any sequence of `setCache`, `isCacheValid`, `invalidateCache`,
`clearCache`, `setFileHash` and `hasFileContentChanged` calls on a new
`CacheManager`, in whatever file system states, the record map and
`fileTimestamps` have the same keys, in the same order, and `getCacheStats`
reports `size` equal to `timestampEntries`. -/
theorem records_and_timestamps_paired {ρ σ : Type} (P : NodePath) (F : NodeFs σ)
    (calls : List (CacheManager.Call ρ σ)) :
    (CacheManager.run P F calls).cache.keys = (CacheManager.run P F calls).fileTimestamps.keys ∧
      (CacheManager.getCacheStats (CacheManager.run P F calls)).size
        = (CacheManager.getCacheStats (CacheManager.run P F calls)).timestampEntries := by
  have h := CacheManager.run_keys P F calls
  refine ⟨h, ?_⟩
  have h2 := congrArg List.length h
  simpa [CacheManager.getCacheStats, JsMap.keys] using h2

/-- C23 fails as stated: a record is stored for `/w/a.txt` with the content
`abc`, and the content becomes `abd` with the same modification time;
`isCacheValid` returns `true` and the record stays. -/
theorem isCacheValid_misses_content_change :
    md5 "abd" ≠ md5 "abc" ∧
      (CacheManager.isCacheValid (posixPath "/w") (MemWorld.nodeFs (posixPath "/w"))
          (oneFile "abd")
          (CacheManager.setCache (posixPath "/w") (MemWorld.nodeFs (posixPath "/w"))
            (oneFile "abc") (CacheManager.new : CacheManager String) "/w/a.txt" "r" "op")
          "/w/a.txt" "op").1 = true ∧
      CacheManager.getCache (posixPath "/w")
          (CacheManager.isCacheValid (posixPath "/w") (MemWorld.nodeFs (posixPath "/w"))
            (oneFile "abd")
            (CacheManager.setCache (posixPath "/w") (MemWorld.nodeFs (posixPath "/w"))
              (oneFile "abc") (CacheManager.new : CacheManager String) "/w/a.txt" "r" "op")
            "/w/a.txt" "op").2
          "/w/a.txt" "op" = some "r" := by
  decide!

/-- C23, as the code has it: if a record was stored with `setCache` and the
file then has another modification time, or its stats cannot be read,
`isCacheValid` for that file and operation returns `false` and the record and
its timestamp are removed. -/
theorem isCacheValid_after_mtime_change {ρ σ : Type} (P : NodePath) (F : NodeFs σ)
    (stored later : σ) (c : CacheManager ρ) (filePath : String) (result : ρ)
    (operation : String) (stats : Stats)
    (hstored : F.stat stored filePath = some stats)
    (hlater : ∀ stats2, F.stat later filePath = some stats2 → stats2.mtime ≠ stats.mtime) :
    (CacheManager.isCacheValid P F later
        (CacheManager.setCache P F stored c filePath result operation)
        filePath operation).1 = false ∧
      CacheManager.getCache P
        (CacheManager.isCacheValid P F later
          (CacheManager.setCache P F stored c filePath result operation)
          filePath operation).2 filePath operation = none ∧
      (CacheManager.isCacheValid P F later
        (CacheManager.setCache P F stored c filePath result operation)
        filePath operation).2.fileTimestamps.get
          (CacheManager.generateCacheKey P filePath operation) = none := by
  have hset := CacheManager.getCache_setCache P F stored c filePath result operation stats hstored
  have hrec : (CacheManager.setCache P F stored c filePath result operation).cache.get
      (CacheManager.generateCacheKey P filePath operation) = some result := by
    rw [hset.1, JsMap.get_set_self]
  have hts : (CacheManager.setCache P F stored c filePath result operation).fileTimestamps.get
      (CacheManager.generateCacheKey P filePath operation) = some stats.mtime := by
    rw [hset.2, JsMap.get_set_self]
  have hinv := CacheManager.invalidateCache_get_self P _ filePath operation result hrec
  have hval : CacheManager.isCacheValid P F later
      (CacheManager.setCache P F stored c filePath result operation) filePath operation
      = (false, CacheManager.invalidateCache P
          (CacheManager.setCache P F stored c filePath result operation) filePath
          (some operation)) := by
    simp only [CacheManager.isCacheValid, JsMap.has, hrec, Option.isSome_some, Bool.not_true,
      Bool.false_eq_true, if_false, FileSystemUtils.getStats, hts]
    cases hst : F.stat later filePath with
    | none => rfl
    | some stats2 =>
      have hne : stats2.mtime ≠ stats.mtime := hlater stats2 hst
      simp [hne]
  rw [hval]
  exact ⟨rfl, hinv.1, hinv.2⟩

/-- Witness of C23 as amended: the file `/w/a.txt` is written again after its
record was stored. -/
theorem isCacheValid_after_mtime_change_witness :
    (CacheManager.isCacheValid (posixPath "/w") (MemWorld.nodeFs (posixPath "/w"))
        ((MemWorld.nodeFs (posixPath "/w")).writeFile (oneFile "abc") "/w/a.txt" "abd").1
        (CacheManager.setCache (posixPath "/w") (MemWorld.nodeFs (posixPath "/w"))
          (oneFile "abc") (CacheManager.new : CacheManager String) "/w/a.txt" "r" "op")
        "/w/a.txt" "op").1 = false ∧
      CacheManager.getCache (posixPath "/w")
        (CacheManager.isCacheValid (posixPath "/w") (MemWorld.nodeFs (posixPath "/w"))
          ((MemWorld.nodeFs (posixPath "/w")).writeFile (oneFile "abc") "/w/a.txt" "abd").1
          (CacheManager.setCache (posixPath "/w") (MemWorld.nodeFs (posixPath "/w"))
            (oneFile "abc") (CacheManager.new : CacheManager String) "/w/a.txt" "r" "op")
          "/w/a.txt" "op").2 "/w/a.txt" "op" = none :=
  have h := isCacheValid_after_mtime_change (posixPath "/w") (MemWorld.nodeFs (posixPath "/w"))
    (oneFile "abc")
    ((MemWorld.nodeFs (posixPath "/w")).writeFile (oneFile "abc") "/w/a.txt" "abd").1
    (CacheManager.new : CacheManager String) "/w/a.txt" "r" "op" ⟨1, false, true⟩
    (by decide) (by decide)
  ⟨h.1, h.2.1⟩

/-- C24, the code at a failing input: the cache has a record for `/w/a.js` and
one for `/w/a.json`; `invalidateCache('/w/a.js')` removes both records and both
timestamps, the key of `/w/a.json` starting with the path `/w/a.js`. -/
theorem invalidateCache_removes_prefixed_paths :
    CacheManager.getCache (posixPath "/w") twoRecords "/w/a.json" "default" = some "data" ∧
      CacheManager.getCache (posixPath "/w")
        (CacheManager.invalidateCache (posixPath "/w") twoRecords "/w/a.js" none)
        "/w/a.json" "default" = none ∧
      (CacheManager.invalidateCache (posixPath "/w") twoRecords "/w/a.js" none).fileTimestamps
        = [] := by
  decide

/-- C25 fails as stated: with the record of `/w/a:b` for the operation `c`
stored, `invalidateCache('/w/a', 'b:c')` removes it, the two pairs having the
same key; and `invalidateCache('/w/a.js', '')` removes the record of `/w/a.js`
for the operation `default`. -/
theorem invalidateCache_removes_other_pairs :
    CacheManager.getCache (posixPath "/w")
        (CacheManager.setCache (posixPath "/w") (MemWorld.nodeFs (posixPath "/w")) twoNames
          (CacheManager.new : CacheManager String) "/w/a:b" "r" "c")
        "/w/a:b" "c" = some "r" ∧
      CacheManager.getCache (posixPath "/w")
        (CacheManager.invalidateCache (posixPath "/w")
          (CacheManager.setCache (posixPath "/w") (MemWorld.nodeFs (posixPath "/w")) twoNames
            (CacheManager.new : CacheManager String) "/w/a:b" "r" "c")
          "/w/a" (some "b:c"))
        "/w/a:b" "c" = none ∧
      CacheManager.getCache (posixPath "/w") twoRecords "/w/a.js" "default" = some "script" ∧
      CacheManager.getCache (posixPath "/w")
        (CacheManager.invalidateCache (posixPath "/w") twoRecords "/w/a.js" (some ""))
        "/w/a.js" "default" = none := by
  decide

/-- C25, as the code has it: `invalidateCache(file, op)` with an operation that
is not the empty string removes the record and the timestamp of the key of
`(file, op)`, and leaves the record and the timestamp of every other key as
they are, in particular those of the other operations of the same file. -/
theorem invalidateCache_removes_one_key {ρ : Type} (P : NodePath) (c : CacheManager ρ)
    (filePath operation : String) (hop : operation ≠ "") :
    CacheManager.getCache P (CacheManager.invalidateCache P c filePath (some operation))
        filePath operation = none ∧
      (CacheManager.invalidateCache P c filePath (some operation)).fileTimestamps.get
        (CacheManager.generateCacheKey P filePath operation) = none ∧
      (∀ filePath2 operation2,
        CacheManager.generateCacheKey P filePath2 operation2
            ≠ CacheManager.generateCacheKey P filePath operation →
          CacheManager.getCache P (CacheManager.invalidateCache P c filePath (some operation))
              filePath2 operation2 = CacheManager.getCache P c filePath2 operation2 ∧
            (CacheManager.invalidateCache P c filePath (some operation)).fileTimestamps.get
                (CacheManager.generateCacheKey P filePath2 operation2)
              = c.fileTimestamps.get (CacheManager.generateCacheKey P filePath2 operation2)) ∧
      ∀ operation2, operation2 ≠ operation →
        CacheManager.getCache P (CacheManager.invalidateCache P c filePath (some operation))
          filePath operation2 = CacheManager.getCache P c filePath operation2 := by
  have hinv : CacheManager.invalidateCache P c filePath (some operation)
      = { c with
          cache := c.cache.delete (CacheManager.generateCacheKey P filePath operation),
          fileTimestamps :=
            c.fileTimestamps.delete (CacheManager.generateCacheKey P filePath operation) } := by
    simp only [CacheManager.invalidateCache]
    rw [if_pos hop]
  have hother : ∀ filePath2 operation2,
      CacheManager.generateCacheKey P filePath2 operation2
          ≠ CacheManager.generateCacheKey P filePath operation →
        CacheManager.getCache P (CacheManager.invalidateCache P c filePath (some operation))
            filePath2 operation2 = CacheManager.getCache P c filePath2 operation2 ∧
          (CacheManager.invalidateCache P c filePath (some operation)).fileTimestamps.get
              (CacheManager.generateCacheKey P filePath2 operation2)
            = c.fileTimestamps.get (CacheManager.generateCacheKey P filePath2 operation2) := by
    intro filePath2 operation2 hne
    rw [hinv]
    exact ⟨JsMap.get_delete_of_ne _ _ _ (Ne.symm hne), JsMap.get_delete_of_ne _ _ _ (Ne.symm hne)⟩
  refine ⟨?_, ?_, hother, ?_⟩
  · rw [hinv]
    exact JsMap.get_delete_self _ _
  · rw [hinv]
    exact JsMap.get_delete_self _ _
  · intro operation2 hne
    refine (hother filePath operation2 ?_).1
    unfold CacheManager.generateCacheKey
    intro h
    apply hne
    have h3 := congrArg String.data h
    simp only [String.data_append] at h3
    exact String.ext (List.append_cancel_left h3)

/-- Witness of C25 as amended: the test `should invalidate specific operation
cache`. -/
theorem invalidateCache_removes_one_key_witness :
    CacheManager.getCache (posixPath "/w")
        (CacheManager.invalidateCache (posixPath "/w")
          (CacheManager.setCache (posixPath "/w") (MemWorld.nodeFs (posixPath "/w")) twoNames
            (CacheManager.setCache (posixPath "/w") (MemWorld.nodeFs (posixPath "/w")) twoNames
              (CacheManager.new : CacheManager String) "/w/a.js" "data1" "op1")
            "/w/a.js" "data2" "op2")
          "/w/a.js" (some "op1"))
        "/w/a.js" "op1" = none ∧
      CacheManager.getCache (posixPath "/w")
        (CacheManager.invalidateCache (posixPath "/w")
          (CacheManager.setCache (posixPath "/w") (MemWorld.nodeFs (posixPath "/w")) twoNames
            (CacheManager.setCache (posixPath "/w") (MemWorld.nodeFs (posixPath "/w")) twoNames
              (CacheManager.new : CacheManager String) "/w/a.js" "data1" "op1")
            "/w/a.js" "data2" "op2")
          "/w/a.js" (some "op1"))
        "/w/a.js" "op2" = some "data2" :=
  have h := invalidateCache_removes_one_key (posixPath "/w")
    (CacheManager.setCache (posixPath "/w") (MemWorld.nodeFs (posixPath "/w")) twoNames
      (CacheManager.setCache (posixPath "/w") (MemWorld.nodeFs (posixPath "/w")) twoNames
        (CacheManager.new : CacheManager String) "/w/a.js" "data1" "op1")
      "/w/a.js" "data2" "op2")
    "/w/a.js" "op1" (by decide)
  ⟨h.1, (h.2.2.2 "op2" (by decide)).trans (by decide)⟩

/-- C26 fails as stated: `setCache('/w/a', 'x', 'b:c')` changes what
`getCache('/w/a:b', 'c')` returns, the two pairs having the same key. -/
theorem setCache_changes_other_pair :
    CacheManager.getCache (posixPath "/w") (CacheManager.new : CacheManager String)
        "/w/a:b" "c" = none ∧
      CacheManager.getCache (posixPath "/w")
        (CacheManager.setCache (posixPath "/w") (MemWorld.nodeFs (posixPath "/w")) twoNames
          (CacheManager.new : CacheManager String) "/w/a" "x" "b:c")
        "/w/a:b" "c" = some "x" := by
  decide

/-- C26, as the code has it: for a file whose stats can be read, after
`setCache(file, r, op)` the call `getCache(file, op)` returns `r`, and
`getCache` returns what it did before for every pair with another key, in
particular for the other operations of the same file. -/
theorem setCache_getCache_roundtrip {ρ σ : Type} (P : NodePath) (F : NodeFs σ) (s : σ)
    (c : CacheManager ρ) (filePath : String) (result : ρ) (operation : String) (stats : Stats)
    (hstat : F.stat s filePath = some stats) :
    CacheManager.getCache P (CacheManager.setCache P F s c filePath result operation)
        filePath operation = some result ∧
      (∀ filePath2 operation2,
        CacheManager.generateCacheKey P filePath2 operation2
            ≠ CacheManager.generateCacheKey P filePath operation →
          CacheManager.getCache P (CacheManager.setCache P F s c filePath result operation)
            filePath2 operation2 = CacheManager.getCache P c filePath2 operation2) ∧
      ∀ operation2, operation2 ≠ operation →
        CacheManager.getCache P (CacheManager.setCache P F s c filePath result operation)
          filePath operation2 = CacheManager.getCache P c filePath operation2 := by
  have hset := (CacheManager.getCache_setCache P F s c filePath result operation stats hstat).1
  have hother : ∀ filePath2 operation2,
      CacheManager.generateCacheKey P filePath2 operation2
          ≠ CacheManager.generateCacheKey P filePath operation →
        CacheManager.getCache P (CacheManager.setCache P F s c filePath result operation)
          filePath2 operation2 = CacheManager.getCache P c filePath2 operation2 := by
    intro filePath2 operation2 hne
    unfold CacheManager.getCache
    rw [hset]
    exact JsMap.get_set_of_ne _ _ _ _ (Ne.symm hne)
  refine ⟨?_, hother, ?_⟩
  · unfold CacheManager.getCache
    rw [hset]
    exact JsMap.get_set_self _ _ _
  · intro operation2 hne
    refine hother filePath operation2 ?_
    unfold CacheManager.generateCacheKey
    intro h
    apply hne
    have h3 := congrArg String.data h
    simp only [String.data_append] at h3
    exact String.ext (List.append_cancel_left h3)

/-- Witness of C26 as amended: the test `should handle different operations
separately`. -/
theorem setCache_getCache_roundtrip_witness :
    CacheManager.getCache (posixPath "/w")
        (CacheManager.setCache (posixPath "/w") (MemWorld.nodeFs (posixPath "/w")) twoNames
          (CacheManager.setCache (posixPath "/w") (MemWorld.nodeFs (posixPath "/w")) twoNames
            (CacheManager.new : CacheManager String) "/w/a.js" "data1" "read")
          "/w/a.js" "data2" "write")
        "/w/a.js" "write" = some "data2" ∧
      CacheManager.getCache (posixPath "/w")
        (CacheManager.setCache (posixPath "/w") (MemWorld.nodeFs (posixPath "/w")) twoNames
          (CacheManager.setCache (posixPath "/w") (MemWorld.nodeFs (posixPath "/w")) twoNames
            (CacheManager.new : CacheManager String) "/w/a.js" "data1" "read")
          "/w/a.js" "data2" "write")
        "/w/a.js" "read" = some "data1" :=
  have h := setCache_getCache_roundtrip (posixPath "/w") (MemWorld.nodeFs (posixPath "/w"))
    twoNames
    (CacheManager.setCache (posixPath "/w") (MemWorld.nodeFs (posixPath "/w")) twoNames
      (CacheManager.new : CacheManager String) "/w/a.js" "data1" "read")
    "/w/a.js" "data2" "write" ⟨1, false, true⟩ (by decide)
  ⟨h.1, (h.2.2 "read" (by decide)).trans (by decide)⟩

/-! ## `processWithPlugins`: failures -/

namespace FileProcessor

variable {σ : Type}

theorem runPlugins_append (E : Env σ) (fp : FileProcessor σ) (s : σ) (pre rest : List String)
    (content : String) (calls : List (String × String)) :
    runPlugins E fp s (pre ++ rest) content calls =
      match runPlugins E fp s pre content calls with
      | (.ok data, calls1) => runPlugins E fp s rest data calls1
      | (.error e, calls1) => (.error e, calls1) := by
  induction pre generalizing content calls with
  | nil => simp [runPlugins]
  | cons f pre ih =>
    rw [List.cons_append, runPlugins, runPlugins]
    simp only []
    cases fp.plugins (removeFirstDot (E.path.extname f)) with
    | none => rfl
    | some plugin =>
      simp only []
      cases plugin s content f (E.path.basenameExt f (E.path.extname f))
          (removeFirstDot (E.path.extname f)) with
      | ok out => exact ih _ _
      | error m => rfl

/-- An error of the loop of `processWithPlugins` over supported files is the
`PluginError` of a plugin call that failed, with the extension and the path of
its file. -/
theorem runPlugins_error_call (E : Env σ) (fp : FileProcessor σ) (s : σ) (files : List String)
    (hsupport : ∀ file ∈ files, isSupportFile E fp file = true)
    (content : String) (calls : List (String × String)) (e : JsError)
    (h : (runPlugins E fp s files content calls).1 = .error e) :
    ∃ file data message plugin, file ∈ files ∧
      fp.plugins (removeFirstDot (E.path.extname file)) = some plugin ∧
      plugin s data file (E.path.basenameExt file (E.path.extname file))
        (removeFirstDot (E.path.extname file)) = .error message ∧
      e = .pluginError
        ("Plugin " ++ removeFirstDot (E.path.extname file) ++ " failed: " ++ message)
        (removeFirstDot (E.path.extname file)) file := by
  induction files generalizing content calls with
  | nil => simp [runPlugins] at h
  | cons f rest ih =>
    unfold runPlugins at h
    simp only [] at h
    cases hp : fp.plugins (removeFirstDot (E.path.extname f)) with
    | none =>
      have h2 := isSupportFile_plugin E fp f (hsupport f (List.mem_cons_self _ _))
      simp [hp] at h2
    | some plugin =>
      simp only [hp] at h
      cases hr : plugin s content f (E.path.basenameExt f (E.path.extname f))
          (removeFirstDot (E.path.extname f)) with
      | ok out =>
        simp only [hr] at h
        obtain ⟨file, data, message, plugin2, hmem, h2⟩ :=
          ih (fun g hg => hsupport g (List.mem_cons_of_mem _ hg)) _ _ h
        exact ⟨file, data, message, plugin2, List.mem_cons_of_mem _ hmem, h2⟩
      | error m =>
        simp only [hr, Except.error.injEq] at h
        exact ⟨f, content, m, plugin, List.mem_cons_self _ _, hp, hr, h.symm⟩

end FileProcessor

/-! ## Claims on the processor -/

/-- C27, the code at a failing input: `processFile` on the relative path
`source/main.js` generates `dist/main.js` and adds the path as given to
`processedFiles`; `hasBeenProcessed` on the same path looks for the resolved
path `/w/source/main.js` and returns `false`. -/
theorem hasBeenProcessed_misses_relative_path :
    (FileProcessor.processFile memEnv (FileProcessor.new mockPlugins false) 8
        (project "console.log(1)") "source/main.js" "dist" "src").outcome
      = .generated "dist/main.js"
          "minified_transformed_console.log(1)/* processed css *//* processed css */" ∧
    (FileProcessor.processFile memEnv (FileProcessor.new mockPlugins false) 8
        (project "console.log(1)") "source/main.js" "dist" "src").processor.processedFiles
      = ["source/main.js"] ∧
    memEnv.path.resolve "source/main.js" = "/w/source/main.js" ∧
    FileProcessor.hasBeenProcessed memEnv
      (FileProcessor.processFile memEnv (FileProcessor.new mockPlugins false) 8
        (project "console.log(1)") "source/main.js" "dist" "src").processor
      "source/main.js" = false := by
  decide!

/-- C28: every failure of `processWithPlugins` is a `BuildError` that carries
the source file, or the `PluginError` of a plugin call on a supported file that
failed, with the extension of the file as plugin name and the file as path;
and when the plugin called for a supported file fails, the files before it
having been processed, `processWithPlugins` fails with that `PluginError`. -/
theorem processWithPlugins_wraps_failures {σ : Type} (E : Env σ) (fp : FileProcessor σ)
    (depth : Nat) (s : σ) (content srcDir sourceFile : String) :
    (∀ e calls,
      FileProcessor.processWithPlugins E fp depth s content srcDir sourceFile
          = some (.error e, calls) →
        (∃ m, e = .buildError m sourceFile) ∨
          ∃ file data message plugin, FileProcessor.isSupportFile E fp file = true ∧
            fp.plugins (removeFirstDot (E.path.extname file)) = some plugin ∧
            plugin s data file (E.path.basenameExt file (E.path.extname file))
              (removeFirstDot (E.path.extname file)) = .error message ∧
            e = .pluginError
              ("Plugin " ++ removeFirstDot (E.path.extname file) ++ " failed: " ++ message)
              (removeFirstDot (E.path.extname file)) file) ∧
      ∀ allFiles before file after data calls plugin message,
        FileSystemUtils.getAllFilesFromDirectory E.path E.fs s depth srcDir [] false
            = some (.ok allFiles) →
        allFiles.filter (FileProcessor.isSupportFile E fp) = before ++ file :: after →
        FileProcessor.runPlugins E fp s before content [] = (.ok data, calls) →
        fp.plugins (removeFirstDot (E.path.extname file)) = some plugin →
        plugin s data file (E.path.basenameExt file (E.path.extname file))
          (removeFirstDot (E.path.extname file)) = .error message →
        FileProcessor.processWithPlugins E fp depth s content srcDir sourceFile
          = some (.error (.pluginError
              ("Plugin " ++ removeFirstDot (E.path.extname file) ++ " failed: " ++ message)
              (removeFirstDot (E.path.extname file)) file),
            calls ++ [(removeFirstDot (E.path.extname file), file)]) := by
  constructor
  · intro e calls h
    unfold FileProcessor.processWithPlugins at h
    cases hg : FileSystemUtils.getAllFilesFromDirectory E.path E.fs s depth srcDir [] false with
    | none => simp [hg] at h
    | some r =>
      cases r with
      | error e2 =>
        simp only [hg, Option.some.injEq, Prod.mk.injEq, Except.error.injEq] at h
        exact Or.inl ⟨_, h.1.symm⟩
      | ok allFiles =>
        simp only [hg] at h
        by_cases h0 : (allFiles.filter (FileProcessor.isSupportFile E fp)).length = 0
        · simp [h0] at h
        · simp only [h0, if_false, Option.some.injEq] at h
          have h1 : (FileProcessor.runPlugins E fp s
              (allFiles.filter (FileProcessor.isSupportFile E fp)) content []).1 = .error e := by
            rw [h]
          obtain ⟨file, data, message, plugin, hmem, hp, hr, he⟩ :=
            FileProcessor.runPlugins_error_call E fp s _
              (fun file hf => (List.mem_filter.mp hf).2) content [] e h1
          exact Or.inr ⟨file, data, message, plugin, (List.mem_filter.mp hmem).2, hp, hr, he⟩
  · intro allFiles before file after data calls plugin message hscan hfiles hbefore hp hr
    unfold FileProcessor.processWithPlugins
    simp only [hscan, hfiles]
    have h0 : ¬ (before ++ file :: after).length = 0 := by simp
    rw [if_neg h0, FileProcessor.runPlugins_append, hbefore]
    simp only []
    unfold FileProcessor.runPlugins
    simp only [hp, hr]

/-- Witness of C28: the test `should throw PluginError when plugin fails`, on
the project; the `css` plugin fails on the first fragment. -/
theorem processWithPlugins_wraps_failures_witness :
    FileProcessor.processWithPlugins memEnv (FileProcessor.new rejectingPlugins false) 8
        (project "") "original content" "/w/src" "/w/source/main.js"
      = some (.error (.pluginError "Plugin css failed: Plugin failed" "css" "/w/src/css/a.css"),
          [("css", "/w/src/css/a.css")]) :=
  (processWithPlugins_wraps_failures memEnv (FileProcessor.new rejectingPlugins false) 8
    (project "") "original content" "/w/src" "/w/source/main.js").2
    ["/w/src/css/a.css", "/w/src/css/b.css"] [] "/w/src/css/a.css" ["/w/src/css/b.css"]
    "original content" [] (fun _ _ _ _ _ => .error "Plugin failed") "Plugin failed"
    (by decide!) (by decide!) rfl rfl rfl

/-- C29: when the scan of the fragments directory finds no file that is not
hidden and has an extension with a plugin in the registry, `processWithPlugins`
returns the content unchanged and calls no plugin. -/
theorem processWithPlugins_identity_without_support {σ : Type} (E : Env σ)
    (fp : FileProcessor σ) (depth : Nat) (s : σ) (content srcDir sourceFile : String)
    (allFiles : List String)
    (hscan : FileSystemUtils.getAllFilesFromDirectory E.path E.fs s depth srcDir [] false
      = some (.ok allFiles))
    (hnone : ∀ file ∈ allFiles, jsStartsWith (E.path.basename file) "." = true ∨
      fp.plugins (removeFirstDot (E.path.extname file)) = none) :
    FileProcessor.processWithPlugins E fp depth s content srcDir sourceFile
      = some (.ok content, []) := by
  have hfilter : allFiles.filter (FileProcessor.isSupportFile E fp) = [] := by
    rw [List.filter_eq_nil_iff]
    intro file hf
    unfold FileProcessor.isSupportFile
    simp only []
    rcases hnone file hf with h | h
    · simp [h]
    · simp [h]
  unfold FileProcessor.processWithPlugins
  simp [hscan, hfilter]

/-- Witness of C29: a fragments directory with a hidden `css` file, a file with
an extension without plugin and a file without extension. -/
theorem processWithPlugins_identity_without_support_witness :
    FileSystemUtils.getAllFilesFromDirectory memEnv.path memEnv.fs unsupportedFragments 8
        "/w/src" [] false = some (.ok ["/w/src/unsupported.xyz", "/w/src/README"]) ∧
      FileProcessor.processWithPlugins memEnv (FileProcessor.new mockPlugins false) 8
          unsupportedFragments "original content" "/w/src" "/w/source/main.js"
        = some (.ok "original content", []) :=
  ⟨by decide!,
    processWithPlugins_identity_without_support memEnv (FileProcessor.new mockPlugins false) 8
      unsupportedFragments "original content" "/w/src" "/w/source/main.js"
      ["/w/src/unsupported.xyz", "/w/src/README"] (by decide!)
      (by
        intro file hf
        simp only [List.mem_cons, List.mem_singleton, List.not_mem_nil, or_false] at hf
        rcases hf with rfl | rfl
        · exact Or.inr rfl
        · exact Or.inr rfl)⟩
